import Mathlib

/-!
# Pipe input device (`Source/Core/InputCommon/ControllerInterface/Pipes/Pipes.cpp`)

A shallow embedding of the pipe-backed controller device and proofs about its
command parser, numeric encoders and line framing.

Modelling conventions.

* `std::string` is a list of characters (`Str`).
* A `u8` is a `Nat`; every store into the report buffer reduces modulo `256`.
  The promoted `int` operand of `&= ~mask` is its 32-bit two's-complement pattern.
* A `double` is the rational number it denotes (`ℚ`).  Every operation on
  doubles (`dsub`, `dmul`) and the conversion of decimal text round their exact
  result to binary64 (`toDouble`: to nearest, ties to even, subnormals
  included); `IsDouble` says that a rational is a binary64 value.  Infinities
  and NaN are not modelled: a result beyond the largest finite value is replaced
  by that value, as `is >> result` does on overflow, and no operation of
  `SetAxis` comes near that range, its operands being at most `255` in magnitude.
* `std::map<std::string, PipeInput*>` is an association list from the key to the
  state held by the `PipeInput` it points to.
* The results of the successive calls of `readFromPipe` are given as a list; a
  poll that asks for a read beyond the end of the list has no result (`none`).
-/

namespace Pipes

/-- A `std::string`. -/
abbrev Str := List Char

/-- Modelled from the spec: `PipeInput` (Pipes.h) is not among the sources; per the
spec a logical input holds one scalar state, set by `SetState`.  A
`std::map<std::string, PipeInput*>` is the list of its keys, each with the state of
the input it points to. -/
abbrev InputMap := List (Str × ℚ)

/-- Modelled from the spec: the class declaration (Pipes.h) and `SlippiPad` are not
among the sources.  The members are those `Pipes.cpp` mutates:
`m_current_pad.padBuf` (per the spec a fixed 8-byte report buffer), `m_buttons`,
`m_axes` and the line accumulator `m_buf`. -/
structure PipeDevice where
  padBuf : Fin 8 → Nat
  m_buttons : InputMap
  m_axes : InputMap
  m_buf : Str

/-- The array `s_button_tokens`. -/
def s_button_tokens : List Str :=
  ["A".toList, "B".toList, "X".toList, "Y".toList, "Z".toList, "START".toList,
   "L".toList, "R".toList, "D_UP".toList, "D_DOWN".toList, "D_LEFT".toList,
   "D_RIGHT".toList]

/-- The array `s_shoulder_tokens`. -/
def s_shoulder_tokens : List Str := ["L".toList, "R".toList]

/-- The array `s_axis_tokens`. -/
def s_axis_tokens : List Str := ["MAIN".toList, "C".toList]

/-! ## Input maps -/

/-- The lookup `m.find(key)` followed by `->second->GetState()`: the state of the input
registered under `key`, if there is one. -/
def getState : InputMap → Str → Option ℚ
  | [], _ => none
  | (k, s) :: rest, key => if k = key then some s else getState rest key

/-- The pattern `auto search = m.find(key); if (search != m.end())
search->second->SetState(v);`. -/
def setState : InputMap → Str → ℚ → InputMap
  | [], _, _ => []
  | (k, s) :: rest, key, v =>
    if k = key then (k, v) :: rest else (k, s) :: setState rest key v

/-- The keys of a map. -/
def keys (m : InputMap) : List Str := m.map Prod.fst

/-! ## Binary64 arithmetic -/

/-- The integer nearest to `y`, the even one of the two when `y` lies half-way. -/
def roundEven (y : ℚ) : Int :=
  if y - ⌊y⌋ < 1 / 2 then ⌊y⌋
  else if 1 / 2 < y - ⌊y⌋ then ⌊y⌋ + 1
  else if ⌊y⌋ % 2 = 0 then ⌊y⌋ else ⌊y⌋ + 1

/-- The exponent of the unit in the last place of the binary64 values around `x`:
`52` below the binary exponent of `x`, and `-1074` in the subnormal range. -/
def ulpExp (x : ℚ) : Int := max (Int.log 2 |x| - 52) (-1074)

/-- The largest finite binary64 value. -/
def maxDouble : ℚ := (2 ^ 53 - 1) * 2 ^ 971

/-- The multiple of the unit in the last place nearest to `x`, ties to even. -/
def roundNearest (x : ℚ) : ℚ := roundEven (x / 2 ^ ulpExp x) * 2 ^ ulpExp x

/-- Rounding of an exact result to binary64: to nearest, ties to even; a result
beyond the largest finite value is replaced by that value. -/
def toDouble (x : ℚ) : ℚ := max (-maxDouble) (min maxDouble (roundNearest x))

/-- The rational is a binary64 value. -/
def IsDouble (x : ℚ) : Prop := toDouble x = x

instance (x : ℚ) : Decidable (IsDouble x) := by
  unfold IsDouble
  infer_instance

/-- The operator `a - b` on `double`. -/
def dsub (a b : ℚ) : ℚ := toDouble (a - b)

/-- The operator `a * b` on `double`. -/
def dmul (a b : ℚ) : ℚ := toDouble (a * b)

/-! ## Library helpers -/

/-- Modelled from the spec: `SplitString` (Common/StringUtil) is not among the
sources; per the spec a line "is split on single-space boundaries into tokens".
`splitAux cur rest` carries the token being read in `cur`. -/
def splitAux (delim : Char) : Str → Str → List Str
  | cur, [] => [cur]
  | cur, c :: rest =>
    if c = delim then cur :: splitAux delim [] rest
    else splitAux delim (cur ++ [c]) rest

/-- Modelled from the spec: `SplitString(str, delim, output)`, returning `output`. -/
def SplitString (str : Str) (delim : Char) : List Str := splitAux delim [] str

/-- Modelled from the spec: `MathUtil::Clamp` (Common/MathUtil.h) is not among
the sources; "axis value domain is always clamped to [0,1] before use". -/
def Clamp (val lo hi : ℚ) : ℚ := max lo (min val hi)

/-- Whitespace skipped by formatted stream extraction in the classic locale. -/
def isSpaceChar (c : Char) : Bool :=
  c = ' ' || c = '\t' || c = '\n' || c = '\r' || c.toNat = 11 || c.toNat = 12

/-- Reads a run of decimal digits: the accumulated value, the number of digits
read, and the remaining text. -/
def readDigits : Str → Nat → Nat → Nat × Nat × Str
  | [], acc, n => (acc, n, [])
  | c :: rest, acc, n =>
    if c.isDigit then readDigits rest (acc * 10 + (c.toNat - 48)) (n + 1)
    else (acc, n, c :: rest)

/-- A leading sign: whether it is a minus, and the remaining text. -/
def readSign : Str → Bool × Str
  | '-' :: rest => (true, rest)
  | '+' :: rest => (false, rest)
  | s => (false, s)

/-- The function `StringToDouble`: `is >> result` on an `istringstream` imbued with the classic
locale.  Leading whitespace is skipped, then an optional sign, decimal digits
with an optional `.` fraction and an optional exponent are read; text after the
number is left unread, and the decimal value read is rounded to binary64.  When
no number can be read the result is `0`. -/
def StringToDouble (text : Str) : ℚ :=
  let s := text.dropWhile isSpaceChar
  let (neg, s1) := readSign s
  let (ip, ni, s2) := readDigits s1 0 0
  let (mant, nf, s3) :=
    match s2 with
    | '.' :: r => readDigits r ip 0
    | _ => (ip, 0, s2)
  if ni + nf = 0 then 0
  else
    let sgn : ℚ := if neg then -1 else 1
    match s3 with
    | e :: r =>
      if e = 'e' || e = 'E' then
        let (eneg, r1) := readSign r
        let (ev, ne, _) := readDigits r1 0 0
        if ne = 0 then 0
        else if eneg then toDouble (sgn * mant / (10 ^ nf * 10 ^ ev))
        else toDouble (sgn * mant * 10 ^ ev / 10 ^ nf)
      else toDouble (sgn * mant / 10 ^ nf)
    | [] => toDouble (sgn * mant / 10 ^ nf)

/-! ## Numeric encoders -/

/-- Conversion of an integral value to `s8`: the value in `[-128, 127]` congruent
to it modulo `256` (the identity on `[-128, 127]`, the only range on which C++
defines the conversion from `double`). -/
def toS8 (z : Int) : Int := (z + 128) % 256 - 128

/-- The cast `reinterpret_cast<u8 &>(raw)`: the two's-complement bit pattern. -/
def reinterpretU8 (raw : Int) : Nat := (raw % 256).toNat

/-- The function `FloatToU8`. -/
def FloatToU8 (value : ℚ) : Nat :=
  let raw : Int := toS8 ⌊dmul (dsub value 0.5) 254⌋
  reinterpretU8 raw

/-- The cast `u8 (x)` of a `double`: truncation toward zero, kept modulo `256`
(the plain truncation on `[0, 256)`, the only range on which C++ defines it). -/
def u8cast (x : ℚ) : Nat :=
  let t : Int := if 0 ≤ x then ⌊x⌋ else ⌈x⌉
  (t % 256).toNat

/-- The value `hi` computed in `SetAxis`. -/
def axisHi (value : ℚ) : ℚ := dmul (max 0.0 (dsub value 0.5)) 2.0

/-- The value `lo` computed in `SetAxis`. -/
def axisLo (value : ℚ) : ℚ := dmul (dsub 0.5 (min 0.5 value)) 2.0

/-! ## State mutators -/

/-- The store `m_current_pad.padBuf[i] = b`. -/
def storeByte (d : PipeDevice) (i : Fin 8) (b : Nat) : PipeDevice :=
  { d with padBuf := Function.update d.padBuf i (b % 256) }

/-- The method `PipeDevice::SetAxis`. -/
def SetAxis (d : PipeDevice) (entry : Str) (value0 : ℚ) : PipeDevice :=
  let value := Clamp value0 0.0 1.0
  let d := if entry = "MAIN X".toList then storeByte d 2 (FloatToU8 value) else d
  let d := if entry = "MAIN Y".toList then storeByte d 3 (FloatToU8 value) else d
  let d := if entry = "C X".toList then storeByte d 4 (FloatToU8 value) else d
  let d := if entry = "C Y".toList then storeByte d 5 (FloatToU8 value) else d
  let d := if entry = "L".toList then storeByte d 6 (u8cast (dmul value 255)) else d
  let d := if entry = "R".toList then storeByte d 7 (u8cast (dmul value 255)) else d
  let hi := axisHi value
  let lo := axisLo value
  let d := { d with m_axes := setState d.m_axes (entry ++ " +".toList) hi }
  { d with m_axes := setState d.m_axes (entry ++ " -".toList) lo }

/-- The chain of `if (button.compare(..) == 0)` statements of `SetButtonState`:
the final `(mask, index)`. -/
def buttonMask (button : Str) : Nat × Fin 8 :=
  let mi : Nat × Fin 8 := (0x00, 0)
  let mi := if button = "A".toList then (0x01, 0) else mi
  let mi := if button = "B".toList then (0x02, 0) else mi
  let mi := if button = "X".toList then (0x04, 0) else mi
  let mi := if button = "Y".toList then (0x08, 0) else mi
  let mi := if button = "L".toList then (0x40, 1) else mi
  let mi := if button = "R".toList then (0x20, 1) else mi
  let mi := if button = "START".toList then (0x10, 0) else mi
  let mi := if button = "D_LEFT".toList then (0x01, 1) else mi
  let mi := if button = "D_RIGHT".toList then (0x02, 1) else mi
  let mi := if button = "D_DOWN".toList then (0x04, 1) else mi
  let mi := if button = "D_UP".toList then (0x08, 1) else mi
  let mi := if button = "Z".toList then (0x10, 1) else mi
  mi

/-- The method `PipeDevice::SetButtonState`. -/
def SetButtonState (d : PipeDevice) (button press : Str) : PipeDevice :=
  let mask := (buttonMask button).1
  let index := (buttonMask button).2
  let is_press : Bool := press = "PRESS".toList
  if is_press then
    storeByte d index (d.padBuf index ||| mask)
  else
    storeByte d index (d.padBuf index &&& (0xFFFFFFFF ^^^ mask))

/-- The method `PipeDevice::ParseCommand`: the updated device and the returned flag. -/
def ParseCommand (d : PipeDevice) (command : Str) : PipeDevice × Bool :=
  if command = "FLUSH".toList then (d, true)
  else
    let tokens := SplitString command ' '
    if tokens.length < 2 ∨ tokens.length > 4 then (d, false)
    else
      let t0 := tokens.getD 0 []
      let t1 := tokens.getD 1 []
      if t0 = "PRESS".toList ∨ t0 = "RELEASE".toList then
        let d := SetButtonState d t1 t0
        let v : ℚ := if t0 = "PRESS".toList then 1.0 else 0.0
        ({ d with m_buttons := setState d.m_buttons t1 v }, false)
      else if t0 = "SET".toList then
        if tokens.length = 3 then
          let value := StringToDouble (tokens.getD 2 [])
          (SetAxis d t1 value, false)
        else if tokens.length = 4 then
          let x := StringToDouble (tokens.getD 2 [])
          let y := StringToDouble (tokens.getD 3 [])
          let d := SetAxis d (t1 ++ " X".toList) x
          (SetAxis d (t1 ++ " Y".toList) y, false)
        else (d, false)
      else (d, false)

/-! ## Line extraction -/

/-- The search `m_buf.find("\n")`: the position of the first newline, if any. -/
def findNewline : Str → Option Nat
  | [] => none
  | c :: rest => if c = '\n' then some 0 else (findNewline rest).map (· + 1)

/-- The loop `while (newline != std::string::npos)` of `UpdateInput`, run for at
most `fuel` iterations.  The state is the device and the local `finished`; the
third component records the commands handed to `ParseCommand`, in order. -/
def lineLoop : Nat → PipeDevice → Bool → List Str → PipeDevice × Bool × List Str
  | 0, d, finished, parsed => (d, finished, parsed)
  | fuel + 1, d, finished, parsed =>
    match findNewline d.m_buf with
    | none => (d, finished, parsed)
    | some newline =>
      let command := d.m_buf.take newline
      let r := ParseCommand d command
      let d1 := { r.1 with m_buf := r.1.m_buf.drop (newline + 1) }
      lineLoop fuel d1 r.2 (parsed ++ [command])

/-- The line-extraction step of `UpdateInput` (from `m_buf.find` to the end of the
inner loop).  Each iteration erases at least one byte, so `m_buf.length`
iterations always reach a buffer without newline. -/
def extractLines (d : PipeDevice) (finished : Bool) : PipeDevice × Bool × List Str :=
  lineLoop d.m_buf.length d finished []

/-- The call `m_buf.append(buf, bytes_read)`. -/
def appendBytes (d : PipeDevice) (bytes : Str) : PipeDevice :=
  { d with m_buf := d.m_buf ++ bytes }

/-! ## Construction -/

/-- The assignment `m[key] = input` on a `std::map`, `input` holding state `v`. -/
def mapAssign : InputMap → Str → ℚ → InputMap
  | [], key, v => [(key, v)]
  | (k, s) :: rest, key, v =>
    if k = key then (k, v) :: rest else (k, s) :: mapAssign rest key v

/-- The method `PipeDevice::AddAxis`. -/
def AddAxis (d : PipeDevice) (name : Str) (value : ℚ) : PipeDevice :=
  let d := { d with m_axes := mapAssign d.m_axes (name ++ " +".toList) value }
  { d with m_axes := mapAssign d.m_axes (name ++ " -".toList) value }

/-- The constructor `PipeDevice::PipeDevice`.  The initial contents of
`m_current_pad` are fixed by the declaration of `SlippiPad`, which is not among
the sources, and are taken as the argument `pad`; a new `PipeInput` holds
state `0`. -/
def PipeDevice.create (pad : Fin 8 → Nat) : PipeDevice :=
  let d : PipeDevice := { padBuf := pad, m_buttons := [], m_axes := [], m_buf := [] }
  let d := s_button_tokens.foldl
    (fun d tok => { d with m_buttons := mapAssign d.m_buttons tok 0 }) d
  let d := s_shoulder_tokens.foldl (fun d tok => AddAxis d tok 0.0) d
  s_axis_tokens.foldl
    (fun d tok => AddAxis (AddAxis d (tok ++ " X".toList) 0.5) (tok ++ " Y".toList) 0.5) d

/-! ## Definitions used in the proofs -/

/-- The six conditional stores of `SetAxis`, as one nested expression. -/
def axisStores (d : PipeDevice) (entry : Str) (value : ℚ) : PipeDevice :=
  let d1 := if entry = "MAIN X".toList then storeByte d 2 (FloatToU8 value) else d
  let d2 := if entry = "MAIN Y".toList then storeByte d1 3 (FloatToU8 value) else d1
  let d3 := if entry = "C X".toList then storeByte d2 4 (FloatToU8 value) else d2
  let d4 := if entry = "C Y".toList then storeByte d3 5 (FloatToU8 value) else d3
  let d5 := if entry = "L".toList then storeByte d4 6 (u8cast (dmul value 255)) else d4
  if entry = "R".toList then storeByte d5 7 (u8cast (dmul value 255)) else d5

/-- The device with its accumulator replaced. -/
def withBuf (d : PipeDevice) (buf : Str) : PipeDevice := { d with m_buf := buf }

/-- One iteration of the extraction loop on a buffer with a newline at `k`. -/
def lineStep (d : PipeDevice) (k : Nat) : PipeDevice :=
  withBuf (ParseCommand d (d.m_buf.take k)).1 (d.m_buf.drop (k + 1))

/-- The device has exactly the half-axis inputs registered by the constructor. -/
def AxesRegistered (d : PipeDevice) : Prop :=
  keys d.m_axes = keys (PipeDevice.create d.padBuf).m_axes

/-- The device has exactly the button inputs registered by the constructor. -/
def ButtonsRegistered (d : PipeDevice) : Prop :=
  keys d.m_buttons = keys (PipeDevice.create d.padBuf).m_buttons

instance (d : PipeDevice) : Decidable (AxesRegistered d) := by
  unfold AxesRegistered; infer_instance

instance (d : PipeDevice) : Decidable (ButtonsRegistered d) := by
  unfold ButtonsRegistered; infer_instance

/-! ## The poll (`UpdateInput`) -/

/-- One result of `readFromPipe`: the returned count `bytes_read` and the contents
of the scratch buffer `buf`, of which the first `bytes_read` bytes were read. -/
structure ReadResult where
  bytes_read : Int
  buf : Str

/-- The bytes `m_buf.append(buf, bytes_read)` appends for a read. -/
def ReadResult.bytes (r : ReadResult) : Str := r.buf.take r.bytes_read.toNat

/-- The loop `while (bytes_read > 0)` of `UpdateInput`, entered with the read `r`
just made; the later results of `readFromPipe` are taken from the list.  The
result is `none` when the list ends while the loop asks for another read. -/
def drainLoop : PipeDevice → ReadResult → List ReadResult →
    Option (PipeDevice × List ReadResult)
  | d, r, [] => if 0 < r.bytes_read then none else some (d, [])
  | d, r, r1 :: rest =>
    if 0 < r.bytes_read then drainLoop (appendBytes d r.bytes) r1 rest
    else some (d, r1 :: rest)

/-- The loop `do ... while (!finished && wait_for_inputs)` of `UpdateInput`, run
for at most `fuel` passes: the device, the commands handed to `ParseCommand` so
far, and the results of `readFromPipe` not yet consumed.  The result is `none`
when the list of read results (or the fuel) ends before the loop does. -/
def updateLoop (wait_for_inputs : Bool) :
    Nat → PipeDevice → Bool → List Str → List ReadResult →
      Option (PipeDevice × List Str × List ReadResult)
  | 0, _, _, _, _ => none
  | _ + 1, _, _, _, [] => none
  | fuel + 1, d, finished, parsed, r :: reads =>
    if r.bytes_read = 0 then some (d, parsed, reads)
    else
      match drainLoop d r reads with
      | none => none
      | some (d1, reads1) =>
        let e := extractLines d1 finished
        if !e.2.1 && wait_for_inputs then
          updateLoop wait_for_inputs fuel e.1 e.2.1 (parsed ++ e.2.2) reads1
        else some (e.1, parsed ++ e.2.2, reads1)

/-- The method `PipeDevice::UpdateInput`, with `wait_for_inputs` and the results of
the calls of `readFromPipe` given.  Every pass consumes a read, so as many passes
as there are reads always suffice; the readiness wait before the loop has no
effect on the state. -/
def UpdateInput (d : PipeDevice) (wait_for_inputs : Bool) (reads : List ReadResult) :
    Option (PipeDevice × List Str × List ReadResult) :=
  updateLoop wait_for_inputs reads.length d false [] reads

/-- Successive polls of one device, each with its own `wait_for_inputs`, reading
from one sequence of read results. -/
def runPolls : PipeDevice → List Bool → List ReadResult →
    Option (PipeDevice × List ReadResult)
  | d, [], reads => some (d, reads)
  | d, w :: ws, reads =>
    match UpdateInput d w reads with
    | none => none
    | some (d1, _, rest) => runPolls d1 ws rest

/-- The bytes delivered by a sequence of reads: those of the reads with a positive
count, in order. -/
def received : List ReadResult → Str
  | [] => []
  | r :: rest => (if 0 < r.bytes_read then r.bytes else []) ++ received rest

/-- The byte string made of the given lines, each followed by a newline. -/
def joinLines : List Str → Str
  | [] => []
  | l :: rest => l ++ '\n' :: joinLines rest

/-- A sequence of command lines applied in order. -/
def applyLines (d : PipeDevice) (lines : List Str) : PipeDevice :=
  lines.foldl (fun d l => (ParseCommand d l).1) d

/-- The names under which the inputs of the device are created: `"Button " + tok`
for the key `tok` of `m_buttons`, and `"Axis " + key` for the key of `m_axes`. -/
def inputNames (d : PipeDevice) : List Str :=
  (keys d.m_buttons).map ("Button ".toList ++ ·) ++ (keys d.m_axes).map ("Axis ".toList ++ ·)

/-- Every button input holds `0` or `1` and every half-axis input a value in
`[0,1]`. -/
def InputsInRange (d : PipeDevice) : Prop :=
  (∀ e ∈ d.m_buttons, e.2 = 0 ∨ e.2 = 1) ∧ (∀ e ∈ d.m_axes, 0 ≤ e.2 ∧ e.2 ≤ 1)

/-- The twelve buttons with their byte index and bit mask. -/
def buttonBits : List (Str × Fin 8 × Nat) :=
  [("A".toList, 0, 0x01), ("B".toList, 0, 0x02), ("X".toList, 0, 0x04),
   ("Y".toList, 0, 0x08), ("START".toList, 0, 0x10), ("D_LEFT".toList, 1, 0x01),
   ("D_RIGHT".toList, 1, 0x02), ("D_DOWN".toList, 1, 0x04), ("D_UP".toList, 1, 0x08),
   ("Z".toList, 1, 0x10), ("R".toList, 1, 0x20), ("L".toList, 1, 0x40)]

/-- For each of the twelve buttons, its bit in the report buffer is set exactly
when its logical input is `1`. -/
def ButtonsAgree (d : PipeDevice) : Prop :=
  ∀ e ∈ buttonBits, (d.padBuf e.2.1 &&& e.2.2 ≠ 0 ↔ getState d.m_buttons e.1 = some 1)

/-! ## Binary64 rounding -/

theorem roundEven_bounds (y : ℚ) : ⌊y⌋ ≤ roundEven y ∧ roundEven y ≤ ⌊y⌋ + 1 := by
  unfold roundEven
  split_ifs <;> constructor <;> omega

theorem roundEven_intCast (k : Int) : roundEven (k : ℚ) = k := by
  unfold roundEven
  simp

theorem roundEven_mono {y z : ℚ} (h : y ≤ z) : roundEven y ≤ roundEven z := by
  have hf : ⌊y⌋ ≤ ⌊z⌋ := Int.floor_mono h
  rcases lt_or_eq_of_le hf with hlt | heq
  · have := (roundEven_bounds y).2
    have := (roundEven_bounds z).1
    omega
  · have hr : y - ⌊y⌋ ≤ z - ⌊z⌋ := by rw [heq]; linarith
    unfold roundEven
    rw [heq] at hr ⊢
    split_ifs <;> first | omega | (exfalso; linarith)

theorem roundEven_neg (y : ℚ) : roundEven (-y) = -roundEven y := by
  by_cases hint : (⌊y⌋ : ℚ) = y
  · rw [← hint, ← Int.cast_neg, roundEven_intCast, roundEven_intCast]
  · have hlt : (⌊y⌋ : ℚ) < y := lt_of_le_of_ne (Int.floor_le y) hint
    have hfl : ⌊-y⌋ = -⌊y⌋ - 1 := by
      rw [Int.floor_eq_iff]
      push_cast
      constructor
      · have := Int.lt_floor_add_one y
        linarith
      · linarith
    unfold roundEven
    rw [hfl]
    push_cast
    split_ifs <;> first | omega | (exfalso; linarith)

theorem roundEven_nonneg {y : ℚ} (h : 0 ≤ y) : 0 ≤ roundEven y := by
  have := roundEven_mono h
  rwa [show (0 : ℚ) = ((0 : Int) : ℚ) by simp, roundEven_intCast] at this

theorem le_roundEven {y : ℚ} {k : Int} (h : (k : ℚ) ≤ y) : k ≤ roundEven y := by
  have := roundEven_mono h
  rwa [roundEven_intCast] at this

theorem roundEven_le {y : ℚ} {k : Int} (h : y ≤ (k : ℚ)) : roundEven y ≤ k := by
  have := roundEven_mono h
  rwa [roundEven_intCast] at this

theorem toDouble_eq (x : ℚ) :
    toDouble x = max (-maxDouble) (min maxDouble (roundNearest x)) := rfl

theorem two_zpow_pos (e : Int) : (0 : ℚ) < 2 ^ e := zpow_pos (by norm_num) e

theorem ulpExp_neg (x : ℚ) : ulpExp (-x) = ulpExp x := by
  unfold ulpExp
  rw [abs_neg]

theorem ulpExp_ge (x : ℚ) : -1074 ≤ ulpExp x := le_max_right _ _

theorem roundNearest_neg (x : ℚ) : roundNearest (-x) = -roundNearest x := by
  unfold roundNearest
  rw [ulpExp_neg, neg_div, roundEven_neg]
  push_cast
  ring

theorem roundNearest_zero : roundNearest 0 = 0 := by
  unfold roundNearest
  rw [zero_div, show (0 : ℚ) = ((0 : Int) : ℚ) by simp, roundEven_intCast]
  simp

theorem roundNearest_nonneg {x : ℚ} (h : 0 ≤ x) : 0 ≤ roundNearest x := by
  unfold roundNearest
  have h1 : 0 ≤ x / 2 ^ ulpExp x := div_nonneg h (le_of_lt (two_zpow_pos _))
  have h2 : (0 : ℚ) ≤ (roundEven (x / 2 ^ ulpExp x) : ℚ) := by
    exact_mod_cast roundEven_nonneg h1
  exact mul_nonneg h2 (le_of_lt (two_zpow_pos _))

theorem ulpExp_mono {x y : ℚ} (hx : 0 < x) (h : x ≤ y) : ulpExp x ≤ ulpExp y := by
  unfold ulpExp
  have hy : 0 < y := lt_of_lt_of_le hx h
  rw [abs_of_pos hx, abs_of_pos hy]
  have := Int.log_mono_right (b := 2) hx h
  exact max_le_max (by omega) le_rfl

/-- Below the top of its binade: `x < 2 ^ (ulpExp x + 53)`. -/
theorem lt_two_zpow_ulpExp {x : ℚ} (hx : 0 < x) : x < 2 ^ (ulpExp x + 53) := by
  have h1 := Int.lt_zpow_succ_log_self (b := 2) (by norm_num) x
  have h2 : Int.log 2 x + 1 ≤ ulpExp x + 53 := by
    unfold ulpExp
    rw [abs_of_pos hx]
    have := le_max_left (Int.log 2 x - 52) (-1074)
    omega
  have h3 : ((2 : ℕ) : ℚ) ^ (Int.log 2 x + 1) ≤ ((2 : ℕ) : ℚ) ^ (ulpExp x + 53) :=
    zpow_le_zpow_right₀ (by norm_num) h2
  have := lt_of_lt_of_le h1 h3
  simpa using this

theorem roundNearest_le_top {x : ℚ} (hx : 0 < x) : roundNearest x ≤ 2 ^ (ulpExp x + 53) := by
  unfold roundNearest
  have hlt := lt_two_zpow_ulpExp hx
  have hpos := two_zpow_pos (ulpExp x)
  have h1 : x / 2 ^ ulpExp x ≤ (((2 ^ 53 : Nat) : Int) : ℚ) := by
    rw [div_le_iff₀ hpos]
    have : (2 : ℚ) ^ (ulpExp x + 53) = 2 ^ 53 * 2 ^ ulpExp x := by
      rw [zpow_add₀ (by norm_num)]
      have : (2 : ℚ) ^ (53 : Int) = 2 ^ 53 := by norm_num
      rw [this]; ring
    rw [this] at hlt
    have e : (((2 ^ 53 : Nat) : Int) : ℚ) = 2 ^ 53 := by norm_num
    rw [e]
    exact le_of_lt hlt
  have h2 := roundEven_le h1
  have h3 : (roundEven (x / 2 ^ ulpExp x) : ℚ) ≤ 2 ^ 53 := by exact_mod_cast h2
  calc (roundEven (x / 2 ^ ulpExp x) : ℚ) * 2 ^ ulpExp x
      ≤ 2 ^ 53 * 2 ^ ulpExp x := mul_le_mul_of_nonneg_right h3 (le_of_lt hpos)
    _ = 2 ^ (ulpExp x + 53) := by
      rw [zpow_add₀ (by norm_num)]
      have : (2 : ℚ) ^ (53 : Int) = 2 ^ 53 := by norm_num
      rw [this]; ring

/-- In the normal range the rounding does not fall below the bottom of the binade. -/
theorem le_roundNearest_bottom {y : ℚ} (hy : 0 < y) (hn : ulpExp y = Int.log 2 y - 52) :
    2 ^ (ulpExp y + 52) ≤ roundNearest y := by
  unfold roundNearest
  have hpos := two_zpow_pos (ulpExp y)
  have h0 := Int.zpow_log_le_self (b := 2) (by norm_num) hy
  have hk : Int.log 2 y = ulpExp y + 52 := by omega
  rw [hk] at h0
  have hsplit : (2 : ℚ) ^ (ulpExp y + 52) = 2 ^ 52 * 2 ^ ulpExp y := by
    rw [zpow_add₀ (by norm_num)]
    have : (2 : ℚ) ^ (52 : Int) = 2 ^ 52 := by norm_num
    rw [this]; ring
  have h1 : (((2 ^ 52 : Nat) : Int) : ℚ) ≤ y / 2 ^ ulpExp y := by
    rw [le_div_iff₀ hpos]
    have e : (((2 ^ 52 : Nat) : Int) : ℚ) = 2 ^ 52 := by norm_num
    rw [e, ← hsplit]
    simpa using h0
  have h2 := le_roundEven h1
  have h3 : (2 : ℚ) ^ 52 ≤ (roundEven (y / 2 ^ ulpExp y) : ℚ) := by exact_mod_cast h2
  rw [hsplit]
  exact mul_le_mul_of_nonneg_right h3 (le_of_lt hpos)

theorem roundNearest_mono_pos {x y : ℚ} (hx : 0 < x) (h : x ≤ y) :
    roundNearest x ≤ roundNearest y := by
  have hy : 0 < y := lt_of_lt_of_le hx h
  have he := ulpExp_mono hx h
  rcases lt_or_eq_of_le he with hlt | heq
  · have hn : ulpExp y = Int.log 2 y - 52 := by
      have hge := ulpExp_ge x
      have : ulpExp y = max (Int.log 2 y - 52) (-1074) := by
        unfold ulpExp; rw [abs_of_pos hy]
      rw [this] at hlt ⊢
      rcases le_total (Int.log 2 y - 52) (-1074) with hc | hc
      · rw [max_eq_right hc] at hlt; omega
      · rw [max_eq_left hc]
    have a := roundNearest_le_top hx
    have b := le_roundNearest_bottom hy hn
    have c : (2 : ℚ) ^ (ulpExp x + 53) ≤ 2 ^ (ulpExp y + 52) :=
      zpow_le_zpow_right₀ (by norm_num) (by omega)
    exact le_trans a (le_trans c b)
  · unfold roundNearest
    rw [heq]
    have hpos := two_zpow_pos (ulpExp y)
    have h1 : x / 2 ^ ulpExp y ≤ y / 2 ^ ulpExp y := div_le_div_of_nonneg_right h (le_of_lt hpos)
    have h2 := roundEven_mono h1
    have h3 : (roundEven (x / 2 ^ ulpExp y) : ℚ) ≤ roundEven (y / 2 ^ ulpExp y) := by
      exact_mod_cast h2
    exact mul_le_mul_of_nonneg_right h3 (le_of_lt hpos)

theorem roundNearest_mono {x y : ℚ} (h : x ≤ y) : roundNearest x ≤ roundNearest y := by
  rcases lt_trichotomy x 0 with hx | hx | hx
  · rcases lt_or_le y 0 with hy | hy
    · have := roundNearest_mono_pos (x := -y) (y := -x) (by linarith) (by linarith)
      rw [roundNearest_neg, roundNearest_neg] at this
      linarith
    · have a := roundNearest_nonneg hy
      have b := roundNearest_nonneg (x := -x) (by linarith)
      rw [roundNearest_neg] at b
      linarith
  · subst hx
    rw [roundNearest_zero]
    exact roundNearest_nonneg h
  · exact roundNearest_mono_pos hx h

theorem toDouble_mono {x y : ℚ} (h : x ≤ y) : toDouble x ≤ toDouble y := by
  rw [toDouble_eq, toDouble_eq]
  exact max_le_max le_rfl (min_le_min le_rfl (roundNearest_mono h))

theorem maxDouble_pos : 0 < maxDouble := by
  unfold maxDouble
  positivity

theorem toDouble_neg (x : ℚ) : toDouble (-x) = -toDouble x := by
  rw [toDouble_eq, toDouble_eq, roundNearest_neg]
  have hM := maxDouble_pos
  rcases le_total (roundNearest x) maxDouble with h1 | h1 <;>
  rcases le_total (-maxDouble) (roundNearest x) with h2 | h2 <;>
  simp [min_def, max_def] <;> split_ifs <;> linarith

theorem toDouble_zero : toDouble 0 = 0 := by
  rw [toDouble_eq, roundNearest_zero]
  have := maxDouble_pos
  rw [min_eq_right (le_of_lt this), max_eq_right (by linarith)]

theorem maxDouble_eq : maxDouble = (2 ^ 53 - 1) * 2 ^ (971 : Int) := by
  unfold maxDouble
  norm_num

theorem ulpExp_le_of_lt {x : ℚ} (hx : 0 < x) {e : Int} (he : -1074 ≤ e)
    (h : x < 2 ^ (e + 53)) : ulpExp x ≤ e := by
  unfold ulpExp
  rw [abs_of_pos hx]
  have h2 : x < ((2 : ℕ) : ℚ) ^ (e + 53) := by simpa using h
  have := (Int.lt_zpow_iff_log_lt (b := 2) (by norm_num) hx).mp h2
  exact max_le (by omega) he

theorem roundNearest_rep_pos (m : Int) (e : Int) (hm0 : 0 < m) (hm : m < 2 ^ 53)
    (he : -1074 ≤ e) : roundNearest (m * 2 ^ e) = m * 2 ^ e := by
  have hpe := two_zpow_pos e
  have hmq : (0 : ℚ) < m := by exact_mod_cast hm0
  have hx : (0 : ℚ) < m * 2 ^ e := mul_pos hmq hpe
  have hlt : (m : ℚ) * 2 ^ e < 2 ^ (e + 53) := by
    rw [zpow_add₀ (by norm_num)]
    have h53 : (2 : ℚ) ^ (53 : Int) = 2 ^ 53 := by norm_num
    rw [h53, mul_comm ((2 : ℚ) ^ e)]
    have : (m : ℚ) < 2 ^ 53 := by exact_mod_cast hm
    exact mul_lt_mul_of_pos_right this hpe
  have hu := ulpExp_le_of_lt hx he hlt
  unfold roundNearest
  set u := ulpExp (m * 2 ^ e) with hudef
  have hpu := two_zpow_pos u
  obtain ⟨n, hn⟩ : ∃ n : Nat, e = u + n := ⟨(e - u).toNat, by omega⟩
  have hsplit : (2 : ℚ) ^ e = 2 ^ n * 2 ^ u := by
    rw [hn, zpow_add₀ (by norm_num), zpow_natCast]
    ring
  have hdiv : (m : ℚ) * 2 ^ e / 2 ^ u = ((m * 2 ^ n : Int) : ℚ) := by
    rw [hsplit]
    field_simp
    ring
  rw [hdiv, roundEven_intCast, hsplit]
  push_cast
  ring

theorem le_maxDouble_of_rep (m : Int) (e : Int) (hm0 : 0 < m) (hm : m < 2 ^ 53)
    (he2 : e ≤ 971) : (m : ℚ) * 2 ^ e ≤ maxDouble := by
  rw [maxDouble_eq]
  have h1 : (m : ℚ) ≤ 2 ^ 53 - 1 := by
    have : m ≤ 2 ^ 53 - 1 := by omega
    exact_mod_cast this
  have h2 : (2 : ℚ) ^ e ≤ 2 ^ (971 : Int) := zpow_le_zpow_right₀ (by norm_num) he2
  have hmq : (0 : ℚ) ≤ m := by exact_mod_cast (le_of_lt hm0)
  exact mul_le_mul h1 h2 (le_of_lt (two_zpow_pos e)) (by norm_num)

theorem toDouble_rep_pos (m : Int) (e : Int) (hm0 : 0 < m) (hm : m < 2 ^ 53)
    (he : -1074 ≤ e) (he2 : e ≤ 971) : toDouble (m * 2 ^ e) = m * 2 ^ e := by
  rw [toDouble_eq, roundNearest_rep_pos m e hm0 hm he]
  have h1 := le_maxDouble_of_rep m e hm0 hm he2
  have hmq : (0 : ℚ) < m := by exact_mod_cast hm0
  have hx : (0 : ℚ) < m * 2 ^ e := mul_pos hmq (two_zpow_pos e)
  have := maxDouble_pos
  rw [min_eq_right h1, max_eq_right (by linarith)]

/-- Every `m * 2 ^ e` with `|m| < 2 ^ 53` and `-1074 ≤ e ≤ 971` is a binary64 number. -/
theorem isDouble_rep (m : Int) (e : Int) (hm : |m| < 2 ^ 53) (he : -1074 ≤ e)
    (he2 : e ≤ 971) : IsDouble (m * 2 ^ e) := by
  unfold IsDouble
  rcases lt_trichotomy m 0 with h | h | h
  · have hm2 : -m < 2 ^ 53 := by
      have := abs_of_neg h
      omega
    have := toDouble_rep_pos (-m) e (by omega) hm2 he he2
    have e1 : ((m : ℚ)) * 2 ^ e = -(((-m : Int) : ℚ) * 2 ^ e) := by push_cast; ring
    rw [e1, toDouble_neg, this]
  · subst h
    simp [toDouble_zero]
  · have hm2 : m < 2 ^ 53 := by
      have := abs_of_pos h
      omega
    exact toDouble_rep_pos m e h hm2 he he2

theorem toDouble_le {x b : ℚ} (hb : IsDouble b) (h : x ≤ b) : toDouble x ≤ b := by
  have := toDouble_mono h
  rwa [hb] at this

theorem le_toDouble {x a : ℚ} (ha : IsDouble a) (h : a ≤ x) : a ≤ toDouble x := by
  have := toDouble_mono h
  rwa [ha] at this

theorem grid_of_rep (m : Int) (e : Int) (he : -1074 ≤ e) :
    ∃ k : Int, (m : ℚ) * 2 ^ e = k * 2 ^ (-1074 : Int) := by
  obtain ⟨n, hn⟩ : ∃ n : Nat, e = -1074 + n := ⟨(e + 1074).toNat, by omega⟩
  refine ⟨m * 2 ^ n, ?_⟩
  rw [hn, zpow_add₀ (by norm_num), zpow_natCast]
  push_cast
  ring

/-- Every binary64 number is an integer multiple of `2 ^ (-1074)`. -/
theorem toDouble_grid (x : ℚ) : ∃ k : Int, toDouble x = k * 2 ^ (-1074 : Int) := by
  have hR : ∃ k : Int, roundNearest x = k * 2 ^ (-1074 : Int) := by
    unfold roundNearest
    have hu := ulpExp_ge x
    obtain ⟨n, hn⟩ : ∃ n : Nat, ulpExp x = -1074 + n := ⟨(ulpExp x + 1074).toNat, by omega⟩
    refine ⟨roundEven (x / 2 ^ ulpExp x) * 2 ^ n, ?_⟩
    rw [hn, zpow_add₀ (by norm_num), zpow_natCast]
    push_cast
    ring
  have hM : ∃ k : Int, maxDouble = k * 2 ^ (-1074 : Int) := by
    obtain ⟨k, hk⟩ := grid_of_rep (2 ^ 53 - 1) 971 (by norm_num)
    refine ⟨k, ?_⟩
    rw [maxDouble_eq, ← hk]
    norm_num
  obtain ⟨kR, hkR⟩ := hR
  obtain ⟨kM, hkM⟩ := hM
  rw [toDouble_eq]
  rcases le_total maxDouble (roundNearest x) with h1 | h1
  · rw [min_eq_left h1]
    rcases le_total (-maxDouble) maxDouble with h2 | h2
    · rw [max_eq_right h2]; exact ⟨kM, hkM⟩
    · rw [max_eq_left h2]; exact ⟨-kM, by rw [hkM]; push_cast; ring⟩
  · rw [min_eq_right h1]
    rcases le_total (-maxDouble) (roundNearest x) with h2 | h2
    · rw [max_eq_right h2]; exact ⟨kR, hkR⟩
    · rw [max_eq_left h2]; exact ⟨-kM, by rw [hkM]; push_cast; ring⟩

theorem isDouble_grid {x : ℚ} (h : IsDouble x) : ∃ k : Int, x = k * 2 ^ (-1074 : Int) := by
  obtain ⟨k, hk⟩ := toDouble_grid x
  exact ⟨k, by rw [← hk]; exact h.symm⟩

/-- Two different binary64 numbers differ by at least `2 ^ (-1074)`. -/
theorem isDouble_gap {x y : ℚ} (hx : IsDouble x) (hy : IsDouble y) (h : x < y) :
    x + 2 ^ (-1074 : Int) ≤ y := by
  obtain ⟨a, ha⟩ := isDouble_grid hx
  obtain ⟨b, hb⟩ := isDouble_grid hy
  have hp := two_zpow_pos (-1074)
  rw [ha, hb] at h ⊢
  have hab : (a : ℚ) < b := lt_of_mul_lt_mul_right h (le_of_lt hp)
  have hab2 : a + 1 ≤ b := by
    have : a < b := by exact_mod_cast hab
    omega
  have hab3 : (a : ℚ) + 1 ≤ b := by exact_mod_cast hab2
  nlinarith

theorem isDouble_minPos : IsDouble (2 ^ (-1074 : Int)) := by
  have := isDouble_rep 1 (-1074) (by norm_num) le_rfl (by norm_num)
  simpa using this

theorem toDouble_pos_of_ge {x : ℚ} (h : 2 ^ (-1074 : Int) ≤ x) : 0 < toDouble x :=
  lt_of_lt_of_le (two_zpow_pos _) (le_toDouble isDouble_minPos h)

theorem toDouble_neg_of_le {x : ℚ} (h : x ≤ -2 ^ (-1074 : Int)) : toDouble x < 0 := by
  have h2 : 2 ^ (-1074 : Int) ≤ -x := by linarith
  have := toDouble_pos_of_ge h2
  rw [toDouble_neg] at this
  linarith

theorem isDouble_zero : IsDouble 0 := toDouble_zero

theorem isDouble_neg {x : ℚ} (h : IsDouble x) : IsDouble (-x) := by
  unfold IsDouble at h ⊢
  rw [toDouble_neg, h]

/-- Every integer below `2 ^ 53` in magnitude is a binary64 value. -/
theorem isDouble_int (n : Int) (h : |n| < 2 ^ 53) : IsDouble (n : ℚ) := by
  have := isDouble_rep n 0 h (by norm_num) (by norm_num)
  simpa using this

theorem isDouble_half : IsDouble (1 / 2) := by
  have := isDouble_rep 1 (-1) (by norm_num) (by norm_num) (by norm_num)
  have e : ((1 : Int) : ℚ) * 2 ^ (-1 : Int) = 1 / 2 := by norm_num
  rwa [e] at this

theorem isDouble_one : IsDouble 1 := by
  have := isDouble_int 1 (by norm_num)
  simpa using this

theorem isDouble_maxDouble : IsDouble maxDouble := by
  rw [maxDouble_eq]
  have := isDouble_rep (2 ^ 53 - 1) 971 (by norm_num) (by norm_num) le_rfl
  have e : (((2 ^ 53 - 1 : Int)) : ℚ) = 2 ^ 53 - 1 := by norm_num
  rwa [e] at this

/-- The scaled value rounds to a significand of at most `2 ^ 53`. -/
theorem roundEven_scaled_le {x : ℚ} (hx : 0 < x) :
    roundEven (x / 2 ^ ulpExp x) ≤ 2 ^ 53 := by
  have hlt := lt_two_zpow_ulpExp hx
  have hpos := two_zpow_pos (ulpExp x)
  have h1 : x / 2 ^ ulpExp x ≤ (((2 ^ 53 : Nat) : Int) : ℚ) := by
    rw [div_le_iff₀ hpos]
    have : (2 : ℚ) ^ (ulpExp x + 53) = 2 ^ 53 * 2 ^ ulpExp x := by
      rw [zpow_add₀ (by norm_num)]
      have : (2 : ℚ) ^ (53 : Int) = 2 ^ 53 := by norm_num
      rw [this]; ring
    rw [this] at hlt
    have e : (((2 ^ 53 : Nat) : Int) : ℚ) = 2 ^ 53 := by norm_num
    rw [e]
    exact le_of_lt hlt
  have h2 := roundEven_le h1
  simpa using h2

theorem maxDouble_lt : maxDouble < 2 ^ (1024 : Int) := by
  rw [maxDouble_eq, show (1024 : Int) = 53 + 971 by norm_num, zpow_add₀ (by norm_num)]
  have h53 : (2 : ℚ) ^ (53 : Int) = 2 ^ 53 := by norm_num
  rw [h53]
  exact mul_lt_mul_of_pos_right (by norm_num) (two_zpow_pos _)

theorem isDouble_toDouble_pos {x : ℚ} (hx : 0 < x) : IsDouble (toDouble x) := by
  rw [toDouble_eq]
  have hM := maxDouble_pos
  have hR := roundNearest_nonneg (le_of_lt hx)
  rcases le_or_lt maxDouble (roundNearest x) with h1 | h1
  · rw [min_eq_left h1, max_eq_right (by linarith)]
    exact isDouble_maxDouble
  · rw [min_eq_right (le_of_lt h1), max_eq_right (by linarith)]
    have hk0 : 0 ≤ roundEven (x / 2 ^ ulpExp x) :=
      roundEven_nonneg (div_nonneg (le_of_lt hx) (le_of_lt (two_zpow_pos _)))
    have hk1 := roundEven_scaled_le hx
    have hu := ulpExp_ge x
    have hdef : roundNearest x = roundEven (x / 2 ^ ulpExp x) * 2 ^ ulpExp x := rfl
    rcases lt_or_eq_of_le hk1 with hk | hk
    · have hu2 : ulpExp x ≤ 971 := by
        by_contra hc
        have hc : 972 ≤ ulpExp x := by omega
        have hn : ulpExp x = Int.log 2 x - 52 := by
          have : ulpExp x = max (Int.log 2 x - 52) (-1074) := by
            unfold ulpExp; rw [abs_of_pos hx]
          rcases le_total (Int.log 2 x - 52) (-1074) with hc2 | hc2
          · rw [max_eq_right hc2] at this; omega
          · rw [max_eq_left hc2] at this; exact this
        have hb := le_roundNearest_bottom hx hn
        have hc3 : (2 : ℚ) ^ (1024 : Int) ≤ 2 ^ (ulpExp x + 52) :=
          zpow_le_zpow_right₀ (by norm_num) (by omega)
        have := maxDouble_lt
        linarith
      rw [hdef]
      exact isDouble_rep _ _ (by rw [abs_of_nonneg hk0]; exact hk) hu hu2
    · have hval : roundNearest x = ((2 ^ 52 : Int) : ℚ) * 2 ^ (ulpExp x + 1) := by
        rw [hdef, hk, zpow_add₀ (by norm_num)]
        push_cast
        ring
      have hu2 : ulpExp x + 1 ≤ 971 := by
        by_contra hc
        have hc : 971 ≤ ulpExp x := by omega
        have h2 : (2 : ℚ) ^ (971 : Int) ≤ 2 ^ ulpExp x :=
          zpow_le_zpow_right₀ (by norm_num) hc
        rw [hdef, hk, maxDouble_eq] at h1
        have hp := two_zpow_pos (971 : Int)
        have e : (((2 ^ 53 : Int)) : ℚ) = 2 ^ 53 := by norm_num
        rw [e] at h1
        nlinarith
      rw [hval]
      exact isDouble_rep _ _ (by norm_num) (by omega) hu2

/-- Rounding gives a binary64 value. -/
theorem isDouble_toDouble (x : ℚ) : IsDouble (toDouble x) := by
  rcases lt_trichotomy x 0 with h | h | h
  · have := isDouble_neg (isDouble_toDouble_pos (x := -x) (by linarith))
    rwa [toDouble_neg, neg_neg] at this
  · subst h
    rw [toDouble_zero]
    exact isDouble_zero
  · exact isDouble_toDouble_pos h

/-- A positive binary64 value is at least `2 ^ (-1074)`. -/
theorem isDouble_pos_ge {x : ℚ} (hx : IsDouble x) (h : 0 < x) : 2 ^ (-1074 : Int) ≤ x := by
  have := isDouble_gap isDouble_zero hx h
  linarith

/-- Rounding keeps the sign of a difference of two binary64 values. -/
theorem dsub_pos {a b : ℚ} (ha : IsDouble a) (hb : IsDouble b) (h : b < a) : 0 < dsub a b := by
  have := isDouble_gap hb ha h
  exact toDouble_pos_of_ge (by linarith)

theorem dsub_neg {a b : ℚ} (ha : IsDouble a) (hb : IsDouble b) (h : a < b) : dsub a b < 0 := by
  have := isDouble_gap ha hb h
  exact toDouble_neg_of_le (by linarith)

theorem dsub_self (a : ℚ) : dsub a a = 0 := by
  unfold dsub
  rw [sub_self, toDouble_zero]

theorem dmul_zero_left (b : ℚ) : dmul 0 b = 0 := by
  unfold dmul
  rw [zero_mul, toDouble_zero]

/-- A product of a nonzero binary64 value with a factor of magnitude at least one
does not round to zero. -/
theorem dmul_pos {a b : ℚ} (ha : IsDouble a) (h : 0 < a) (hb : 1 ≤ b) : 0 < dmul a b := by
  have h1 := isDouble_pos_ge ha h
  unfold dmul
  exact toDouble_pos_of_ge (by nlinarith)

theorem dmul_neg {a b : ℚ} (ha : IsDouble a) (h : a < 0) (hb : 1 ≤ b) : dmul a b < 0 := by
  have h1 := isDouble_pos_ge (isDouble_neg ha) (by linarith)
  unfold dmul
  exact toDouble_neg_of_le (by nlinarith)

theorem dmul_nonneg {a b : ℚ} (ha : 0 ≤ a) (hb : 0 ≤ b) : 0 ≤ dmul a b :=
  le_toDouble isDouble_zero (mul_nonneg ha hb)

theorem dsub_nonneg {a b : ℚ} (h : b ≤ a) : 0 ≤ dsub a b :=
  le_toDouble isDouble_zero (by linarith)

theorem dsub_nonpos {a b : ℚ} (h : a ≤ b) : dsub a b ≤ 0 :=
  toDouble_le isDouble_zero (by linarith)

theorem toDouble_intCast (n : Int) (h : |n| < 2 ^ 53) : toDouble (n : ℚ) = n :=
  isDouble_int n h

/-- Every `m / 2 ^ n` with `|m| < 2 ^ 53` and `n ≤ 1074` is a binary64 value. -/
theorem toDouble_dyadic (m : Int) (n : Nat) (h : |m| < 2 ^ 53) (hn : n ≤ 1074) :
    toDouble ((m : ℚ) / 2 ^ n) = (m : ℚ) / 2 ^ n := by
  have := isDouble_rep m (-(n : Int)) h (by omega) (by omega)
  have e : (m : ℚ) * 2 ^ (-(n : Int)) = (m : ℚ) / 2 ^ n := by
    rw [zpow_neg, zpow_natCast]
    rfl
  rwa [e] at this

/-- Rounding moves the floor of a value of moderate size by at most one. -/
theorem floor_toDouble (x : ℚ) (h0 : -(2 ^ 52) ≤ x) (h1 : x ≤ 2 ^ 52) :
    ⌊x⌋ ≤ ⌊toDouble x⌋ ∧ ⌊toDouble x⌋ ≤ ⌊x⌋ + 1 := by
  have hf0 : -(2 ^ 52) ≤ ⌊x⌋ := by
    rw [Int.le_floor]
    push_cast
    exact h0
  have hf1 : ⌊x⌋ ≤ 2 ^ 52 := by
    have : (⌊x⌋ : ℚ) ≤ 2 ^ 52 := le_trans (Int.floor_le x) h1
    exact_mod_cast this
  have a1 : IsDouble ((⌊x⌋ : Int) : ℚ) := isDouble_int _ (by rw [abs_lt]; constructor <;> omega)
  have a2 : IsDouble (((⌊x⌋ + 1 : Int)) : ℚ) :=
    isDouble_int _ (by rw [abs_lt]; constructor <;> omega)
  have b1 : ((⌊x⌋ : Int) : ℚ) ≤ toDouble x := le_toDouble a1 (Int.floor_le x)
  have b2 : toDouble x ≤ ((⌊x⌋ + 1 : Int) : ℚ) :=
    toDouble_le a2 (by push_cast; exact le_of_lt (Int.lt_floor_add_one x))
  constructor
  · exact Int.le_floor.mpr b1
  · have : (⌊toDouble x⌋ : ℚ) ≤ ((⌊x⌋ + 1 : Int) : ℚ) := le_trans (Int.floor_le _) b2
    exact_mod_cast this

theorem roundEven_eq_of_near (y : ℚ) (k : Int) (h1 : (k : ℚ) - 1 / 2 < y)
    (h2 : y < k + 1 / 2) : roundEven y = k := by
  rcases le_or_lt (k : ℚ) y with h | h
  · have hf : ⌊y⌋ = k := by
      rw [Int.floor_eq_iff]
      exact ⟨h, by linarith⟩
    unfold roundEven
    rw [hf, if_pos (by linarith)]
  · have hf : ⌊y⌋ = k - 1 := by
      rw [Int.floor_eq_iff]
      push_cast
      exact ⟨by linarith, by linarith⟩
    unfold roundEven
    rw [hf, if_neg (by push_cast; linarith), if_pos (by push_cast; linarith)]
    ring

theorem ulpExp_eq_of_bounds (x : ℚ) (e : Int) (he : -1074 ≤ e)
    (hlo : 2 ^ (e + 52) ≤ |x|) (hhi : |x| < 2 ^ (e + 53)) : ulpExp x = e := by
  have hpos : 0 < |x| := lt_of_lt_of_le (two_zpow_pos _) hlo
  have a : e + 52 ≤ Int.log 2 |x| :=
    (Int.zpow_le_iff_le_log (b := 2) (by norm_num) hpos).mp (by simpa using hlo)
  have b : Int.log 2 |x| < e + 53 :=
    (Int.lt_zpow_iff_log_lt (b := 2) (by norm_num) hpos).mp (by simpa using hhi)
  unfold ulpExp
  rw [max_eq_left (by omega)]
  omega

/-- The binary64 value of `x`, given its binade and the nearest multiple of the unit
in the last place. -/
theorem toDouble_eq_of_near (x : ℚ) (e k : Int) (he : -1074 ≤ e) (he2 : e ≤ 970)
    (hlo : 2 ^ (e + 52) ≤ |x|) (hhi : |x| < 2 ^ (e + 53))
    (h1 : (k : ℚ) - 1 / 2 < x / 2 ^ e) (h2 : x / 2 ^ e < k + 1 / 2) :
    toDouble x = k * 2 ^ e := by
  have hu := ulpExp_eq_of_bounds x e he hlo hhi
  have hr : roundNearest x = k * 2 ^ e := by
    unfold roundNearest
    rw [hu, roundEven_eq_of_near _ k h1 h2]
  have hpe := two_zpow_pos e
  have hxe : |x / 2 ^ e| < 2 ^ 53 := by
    rw [abs_div, abs_of_pos hpe, div_lt_iff₀ hpe]
    have : (2 : ℚ) ^ (e + 53) = 2 ^ 53 * 2 ^ e := by
      rw [zpow_add₀ (by norm_num)]
      have : (2 : ℚ) ^ (53 : Int) = 2 ^ 53 := by norm_num
      rw [this]; ring
    rwa [this] at hhi
  rw [abs_lt] at hxe
  have hk1 : k ≤ 2 ^ 53 := by
    have : (k : ℚ) < 2 ^ 53 + 1 := by linarith
    have : k < 2 ^ 53 + 1 := by exact_mod_cast this
    omega
  have hk0 : -(2 ^ 53) ≤ k := by
    have : -(2 ^ 53 : ℚ) - 1 < k := by linarith
    have : -(2 ^ 53 : Int) - 1 < k := by exact_mod_cast this
    omega
  have hce : (2 : ℚ) ^ e ≤ 2 ^ (970 : Int) := zpow_le_zpow_right₀ (by norm_num) he2
  have hM : (2 : ℚ) ^ 53 * 2 ^ (970 : Int) ≤ maxDouble := by
    rw [maxDouble_eq, show (971 : Int) = 970 + 1 by norm_num, zpow_add₀ (by norm_num)]
    have hp := two_zpow_pos (970 : Int)
    generalize (2 : ℚ) ^ (970 : Int) = p at hp ⊢
    rw [zpow_one]
    linarith
  have hkq1 : (k : ℚ) ≤ 2 ^ 53 := by exact_mod_cast hk1
  have hkq0 : -(2 ^ 53 : ℚ) ≤ k := by exact_mod_cast hk0
  have hb1 : (k : ℚ) * 2 ^ e ≤ maxDouble := by
    have : (k : ℚ) * 2 ^ e ≤ 2 ^ 53 * 2 ^ (970 : Int) := by
      rcases le_or_lt 0 (k : ℚ) with hk | hk
      · exact mul_le_mul hkq1 hce (le_of_lt hpe) (by norm_num)
      · have : (k : ℚ) * 2 ^ e ≤ 0 := by nlinarith
        have := two_zpow_pos (970 : Int)
        nlinarith
    linarith
  have hb0 : -maxDouble ≤ (k : ℚ) * 2 ^ e := by
    have : -((2 : ℚ) ^ 53 * 2 ^ (970 : Int)) ≤ (k : ℚ) * 2 ^ e := by
      rcases le_or_lt 0 (k : ℚ) with hk | hk
      · have : 0 ≤ (k : ℚ) * 2 ^ e := by positivity
        have := two_zpow_pos (970 : Int)
        nlinarith
      · have h3 : (-(k : ℚ)) * 2 ^ e ≤ 2 ^ 53 * 2 ^ (970 : Int) :=
          mul_le_mul (by linarith) hce (le_of_lt hpe) (by norm_num)
        linarith
    linarith
  rw [toDouble_eq, hr, min_eq_right hb1, max_eq_right hb0]

/-- A binary64 value of magnitude at least `2 ^ (e + 52)` is a multiple of `2 ^ e`. -/
theorem isDouble_grid_at {x : ℚ} (hx : IsDouble x) (h0 : 0 < x) (e : Int)
    (h : 2 ^ (e + 52) ≤ x) : ∃ k : Int, x = k * 2 ^ e := by
  have hM := maxDouble_pos
  have hR := roundNearest_nonneg (le_of_lt h0)
  have hx2 : x = max (-maxDouble) (min maxDouble (roundNearest x)) := by
    rw [← toDouble_eq]; exact hx.symm
  rcases le_or_lt maxDouble (roundNearest x) with h1 | h1
  · rw [min_eq_left h1, max_eq_right (by linarith)] at hx2
    have he : e ≤ 971 := by
      by_contra hc
      have hc3 : (2 : ℚ) ^ (1024 : Int) ≤ 2 ^ (e + 52) :=
        zpow_le_zpow_right₀ (by norm_num) (by omega)
      have := maxDouble_lt
      linarith
    obtain ⟨n, hn⟩ : ∃ n : Nat, (971 : Int) = e + n := ⟨(971 - e).toNat, by omega⟩
    refine ⟨(2 ^ 53 - 1) * 2 ^ n, ?_⟩
    rw [hx2, maxDouble_eq, hn, zpow_add₀ (by norm_num), zpow_natCast]
    push_cast
    ring
  · rw [min_eq_right (le_of_lt h1), max_eq_right (by linarith)] at hx2
    have a : e + 52 ≤ Int.log 2 x :=
      (Int.zpow_le_iff_le_log (b := 2) (by norm_num) h0).mp (by simpa using h)
    have hu : e ≤ ulpExp x := by
      unfold ulpExp
      rw [abs_of_pos h0]
      exact le_trans (by omega) (le_max_left _ _)
    obtain ⟨n, hn⟩ : ∃ n : Nat, ulpExp x = e + n := ⟨(ulpExp x - e).toNat, by omega⟩
    refine ⟨roundEven (x / 2 ^ ulpExp x) * 2 ^ n, ?_⟩
    have hdef : roundNearest x = roundEven (x / 2 ^ ulpExp x) * 2 ^ ulpExp x := rfl
    rw [hdef] at hx2
    conv_lhs => rw [hx2]
    rw [hn, zpow_add₀ (by norm_num), zpow_natCast]
    push_cast
    ring

/-- The difference `v - 0.5` is exact for a binary64 `v` in `[0.5, 1]`, and so is
its double. -/
theorem dsub_half_exact {v : ℚ} (hv : IsDouble v) (h0 : 1 / 2 ≤ v) (h1 : v ≤ 1) :
    dsub v (1 / 2) = v - 1 / 2 ∧ dmul (v - 1 / 2) 2 = (v - 1 / 2) * 2 := by
  obtain ⟨k, hk⟩ := isDouble_grid_at hv (by linarith) (-53) (by norm_num; linarith)
  have hp : (0 : ℚ) < 2 ^ (-53 : Int) := two_zpow_pos _
  have e53 : (2 : ℚ) ^ (-53 : Int) = 1 / 2 ^ 53 := by norm_num
  have hk0 : 2 ^ 52 ≤ k := by
    have : ((2 ^ 52 : Int) : ℚ) ≤ k := by
      rw [hk, e53] at h0
      push_cast
      have h53 : (0 : ℚ) < 2 ^ 53 := by norm_num
      rw [mul_one_div, le_div_iff₀ h53] at h0
      linarith
    exact_mod_cast this
  have hk1 : k ≤ 2 ^ 53 := by
    have : (k : ℚ) ≤ ((2 ^ 53 : Int) : ℚ) := by
      rw [hk, e53] at h1
      push_cast
      have h53 : (0 : ℚ) < 2 ^ 53 := by norm_num
      rw [mul_one_div, div_le_iff₀ h53] at h1
      linarith
    exact_mod_cast this
  have hd : v - 1 / 2 = ((k - 2 ^ 52 : Int) : ℚ) * 2 ^ (-53 : Int) := by
    rw [hk, e53]
    push_cast
    ring
  have hd2 : (v - 1 / 2) * 2 = ((k - 2 ^ 52 : Int) : ℚ) * 2 ^ (-52 : Int) := by
    rw [hk, e53]
    have : (2 : ℚ) ^ (-52 : Int) = 1 / 2 ^ 52 := by norm_num
    rw [this]
    push_cast
    ring
  have hm : |k - 2 ^ 52| < 2 ^ 53 := by
    rw [abs_lt]; constructor <;> omega
  constructor
  · unfold dsub
    rw [hd]
    exact isDouble_rep _ _ hm (by norm_num) (by norm_num)
  · unfold dmul
    rw [hd2]
    exact isDouble_rep _ _ hm (by norm_num) (by norm_num)

/-- The difference `0.5 - v` is exact for a binary64 `v` in `[0.25, 0.5]`, and so
is its double. -/
theorem half_dsub_exact {v : ℚ} (hv : IsDouble v) (h0 : 1 / 4 ≤ v) (h1 : v ≤ 1 / 2) :
    dsub (1 / 2) v = 1 / 2 - v ∧ dmul (1 / 2 - v) 2 = (1 / 2 - v) * 2 := by
  obtain ⟨k, hk⟩ := isDouble_grid_at hv (by linarith) (-54) (by norm_num; linarith)
  have e54 : (2 : ℚ) ^ (-54 : Int) = 1 / 2 ^ 54 := by norm_num
  have hk0 : 2 ^ 52 ≤ k := by
    have : ((2 ^ 52 : Int) : ℚ) ≤ k := by
      rw [hk, e54] at h0
      push_cast
      have h54 : (0 : ℚ) < 2 ^ 54 := by norm_num
      rw [mul_one_div, le_div_iff₀ h54] at h0
      linarith
    exact_mod_cast this
  have hk1 : k ≤ 2 ^ 53 := by
    have : (k : ℚ) ≤ ((2 ^ 53 : Int) : ℚ) := by
      rw [hk, e54] at h1
      push_cast
      have h54 : (0 : ℚ) < 2 ^ 54 := by norm_num
      rw [mul_one_div, div_le_iff₀ h54] at h1
      linarith
    exact_mod_cast this
  have hd : 1 / 2 - v = ((2 ^ 53 - k : Int) : ℚ) * 2 ^ (-54 : Int) := by
    rw [hk, e54]
    push_cast
    ring
  have hd2 : (1 / 2 - v) * 2 = ((2 ^ 53 - k : Int) : ℚ) * 2 ^ (-53 : Int) := by
    rw [hk, e54]
    have : (2 : ℚ) ^ (-53 : Int) = 1 / 2 ^ 53 := by norm_num
    rw [this]
    push_cast
    ring
  have hm : |2 ^ 53 - k| < 2 ^ 53 := by
    rw [abs_lt]; constructor <;> omega
  constructor
  · unfold dsub
    rw [hd]
    exact isDouble_rep _ _ hm (by norm_num) (by norm_num)
  · unfold dmul
    rw [hd2]
    exact isDouble_rep _ _ hm (by norm_num) (by norm_num)

/-! ## Auxiliary facts about the parser and the buttons -/

theorem zero_lit : (0.0 : ℚ) = 0 := by norm_num

theorem one_lit : (1.0 : ℚ) = 1 := by norm_num

theorem two_lit : (2.0 : ℚ) = 2 := by norm_num

theorem half_lit : (0.5 : ℚ) = 1 / 2 := by norm_num

theorem splitAux_append (delim : Char) (t : Str) (h : delim ∉ t) (cur rest : Str) :
    splitAux delim cur (t ++ rest) = splitAux delim (cur ++ t) rest := by
  induction t generalizing cur with
  | nil => simp
  | cons c t ih =>
    have hc : c ≠ delim := fun e => h (by simp [e])
    have ht : delim ∉ t := fun e => h (by simp [e])
    simp [splitAux, hc, ih ht]

theorem splitAux_noDelim (delim : Char) (t : Str) (h : delim ∉ t) (cur : Str) :
    splitAux delim cur t = [cur ++ t] := by
  have := splitAux_append delim t h cur []
  simpa [splitAux] using this

theorem and_not_mask (b m : Nat) (hb : b < 256) :
    (b &&& (0xFFFFFFFF ^^^ m)) % 256 = b &&& (0xFF ^^^ m) := by
  apply Nat.eq_of_testBit_eq
  intro j
  have e1 : (256 : Nat) = 2 ^ 8 := by norm_num
  have e2 : (0xFFFFFFFF : Nat) = 2 ^ 32 - 1 := by norm_num
  have e3 : (0xFF : Nat) = 2 ^ 8 - 1 := by norm_num
  rw [e1, e2, e3, Nat.testBit_mod_two_pow]
  simp only [Nat.testBit_and, Nat.testBit_xor, Nat.testBit_two_pow_sub_one]
  by_cases hj : j < 8
  · have : j < 32 := by omega
    simp [hj, this]
  · have : b.testBit j = false := by
      apply Nat.testBit_lt_two_pow
      calc b < 2 ^ 8 := by simpa using hb
        _ ≤ 2 ^ j := Nat.pow_le_pow_right (by norm_num) (by omega)
    simp [hj, this]

theorem or_mask_lt (b m : Nat) (hb : b < 256) (hm : m < 256) : (b ||| m) < 256 := by
  have : (256 : Nat) = 2 ^ 8 := by norm_num
  rw [this] at hb hm ⊢
  exact Nat.or_lt_two_pow hb hm

/-- What `ParseCommand` does with a line `PRESS <tok>` whose `tok` is one token. -/
theorem parse_press (d : PipeDevice) (tok : Str) (h : ' ' ∉ tok) :
    ParseCommand d ("PRESS ".toList ++ tok)
      = ({ SetButtonState d tok "PRESS".toList with
            m_buttons := setState d.m_buttons tok 1 }, false) := by
  have hs : SplitString ("PRESS ".toList ++ tok) ' ' = ["PRESS".toList, tok] := by
    simp [SplitString, splitAux, splitAux_noDelim _ _ h]
  have hne : "PRESS ".toList ++ tok ≠ "FLUSH".toList := by simp
  unfold ParseCommand
  rw [if_neg hne]
  simp only [hs]
  simp [SetButtonState, storeByte, one_lit, zero_lit]

/-- What `ParseCommand` does with a line `RELEASE <tok>` whose `tok` is one token. -/
theorem parse_release (d : PipeDevice) (tok : Str) (h : ' ' ∉ tok) :
    ParseCommand d ("RELEASE ".toList ++ tok)
      = ({ SetButtonState d tok "RELEASE".toList with
            m_buttons := setState d.m_buttons tok 0 }, false) := by
  have hs : SplitString ("RELEASE ".toList ++ tok) ' ' = ["RELEASE".toList, tok] := by
    simp [SplitString, splitAux, splitAux_noDelim _ _ h]
  have hne : "RELEASE ".toList ++ tok ≠ "FLUSH".toList := by simp
  unfold ParseCommand
  rw [if_neg hne]
  simp only [hs]
  simp [SetButtonState, storeByte, one_lit, zero_lit]

theorem setButton_press (d : PipeDevice) (tok : Str) :
    SetButtonState d tok "PRESS".toList
      = storeByte d (buttonMask tok).2 (d.padBuf (buttonMask tok).2 ||| (buttonMask tok).1) := by
  simp [SetButtonState]

theorem setButton_release (d : PipeDevice) (tok : Str) :
    SetButtonState d tok "RELEASE".toList
      = storeByte d (buttonMask tok).2
          (d.padBuf (buttonMask tok).2 &&& (0xFFFFFFFF ^^^ (buttonMask tok).1)) := by
  simp [SetButtonState]

theorem buttonMask_eq (tok : Str) : buttonMask tok =
    if tok = "Z".toList then (0x10, 1)
    else if tok = "D_UP".toList then (0x08, 1)
    else if tok = "D_DOWN".toList then (0x04, 1)
    else if tok = "D_RIGHT".toList then (0x02, 1)
    else if tok = "D_LEFT".toList then (0x01, 1)
    else if tok = "START".toList then (0x10, 0)
    else if tok = "R".toList then (0x20, 1)
    else if tok = "L".toList then (0x40, 1)
    else if tok = "Y".toList then (0x08, 0)
    else if tok = "X".toList then (0x04, 0)
    else if tok = "B".toList then (0x02, 0)
    else if tok = "A".toList then (0x01, 0)
    else (0x00, 0) := rfl

theorem buttonMask_unknown (tok : Str) (h : tok ∉ s_button_tokens) :
    buttonMask tok = (0, 0) := by
  rw [buttonMask_eq]
  simp only [s_button_tokens, List.mem_cons, List.mem_singleton, not_or, List.not_mem_nil,
    or_false] at h
  obtain ⟨h1, h2, h3, h4, h5, h6, h7, h8, h9, h10, h11, h12⟩ := h
  simp only [h1, h2, h3, h4, h5, h6, h7, h8, h9, h10, h11, h12, if_false]

theorem buttonMask_lt (tok : Str) : (buttonMask tok).1 < 256 := by
  by_cases h : tok ∈ s_button_tokens
  · simp only [s_button_tokens, List.mem_cons, List.mem_singleton, List.not_mem_nil,
      or_false] at h
    rcases h with rfl | rfl | rfl | rfl | rfl | rfl | rfl | rfl | rfl | rfl | rfl | rfl <;>
      decide
  · rw [buttonMask_unknown tok h]; decide

theorem and_not_testBit (b m j : Nat) (hb : b < 256) :
    (b &&& (0xFF ^^^ m)).testBit j = (b.testBit j && !m.testBit j) := by
  have e3 : (0xFF : Nat) = 2 ^ 8 - 1 := by norm_num
  rw [e3]
  simp only [Nat.testBit_and, Nat.testBit_xor, Nat.testBit_two_pow_sub_one]
  by_cases hj : j < 8
  · simp [hj]
  · have : b.testBit j = false := by
      apply Nat.testBit_lt_two_pow
      calc b < 2 ^ 8 := by simpa using hb
        _ ≤ 2 ^ j := Nat.pow_le_pow_right (by norm_num) (by omega)
    simp [this]

theorem create_padBuf (pad : Fin 8 → Nat) : (PipeDevice.create pad).padBuf = pad := rfl

theorem create_m_buf (pad : Fin 8 → Nat) : (PipeDevice.create pad).m_buf = [] := rfl

/-- The report buffer after `PRESS <tok>`. -/
theorem press_padBuf (d : PipeDevice) (tok : Str) (h : ' ' ∉ tok)
    (hd : ∀ i, d.padBuf i < 256) :
    (ParseCommand d ("PRESS ".toList ++ tok)).1.padBuf
      = Function.update d.padBuf (buttonMask tok).2
          (d.padBuf (buttonMask tok).2 ||| (buttonMask tok).1) := by
  rw [parse_press d tok h, setButton_press]
  simp only [storeByte]
  rw [Nat.mod_eq_of_lt (or_mask_lt _ _ (hd _) (buttonMask_lt tok))]

/-- The report buffer after `RELEASE <tok>`. -/
theorem release_padBuf (d : PipeDevice) (tok : Str) (h : ' ' ∉ tok)
    (hd : ∀ i, d.padBuf i < 256) :
    (ParseCommand d ("RELEASE ".toList ++ tok)).1.padBuf
      = Function.update d.padBuf (buttonMask tok).2
          (d.padBuf (buttonMask tok).2 &&& (0xFF ^^^ (buttonMask tok).1)) := by
  rw [parse_release d tok h, setButton_release]
  simp only [storeByte]
  rw [and_not_mask _ _ (hd _)]

/-! ## Buttons and `FLUSH` -/

/-- C1: for every device whose report bytes are `u8` values and each of the twelve
button names, `PRESS <button>` yields the old buffer with `byte[index]` OR-ed with
`mask`, and `RELEASE <button>` yields the old buffer with `mask` cleared in
`byte[index]` (bit `j` of the new byte is the old bit `j` and not bit `j` of
`mask`); all other bytes are unchanged. -/
theorem C1_press_release_buffer (d : PipeDevice) (hd : ∀ i, d.padBuf i < 256) :
    ∀ e ∈ ([("A".toList, 0, 0x01), ("B".toList, 0, 0x02), ("X".toList, 0, 0x04),
            ("Y".toList, 0, 0x08), ("START".toList, 0, 0x10), ("D_LEFT".toList, 1, 0x01),
            ("D_RIGHT".toList, 1, 0x02), ("D_DOWN".toList, 1, 0x04),
            ("D_UP".toList, 1, 0x08), ("Z".toList, 1, 0x10), ("R".toList, 1, 0x20),
            ("L".toList, 1, 0x40)] : List (Str × Fin 8 × Nat)),
      (ParseCommand d ("PRESS ".toList ++ e.1)).1.padBuf
          = Function.update d.padBuf e.2.1 (d.padBuf e.2.1 ||| e.2.2)
      ∧ (ParseCommand d ("RELEASE ".toList ++ e.1)).1.padBuf
          = Function.update d.padBuf e.2.1 (d.padBuf e.2.1 &&& (0xFF ^^^ e.2.2))
      ∧ ∀ j, (d.padBuf e.2.1 &&& (0xFF ^^^ e.2.2)).testBit j
          = ((d.padBuf e.2.1).testBit j && !(e.2.2).testBit j) := by
  intro e he
  refine ⟨?_, ?_, fun j => and_not_testBit _ _ j (hd _)⟩
  · simp only [List.mem_cons, List.mem_singleton, List.not_mem_nil, or_false] at he
    rcases he with rfl | rfl | rfl | rfl | rfl | rfl | rfl | rfl | rfl | rfl | rfl | rfl <;>
      exact press_padBuf d _ (by decide) hd
  · simp only [List.mem_cons, List.mem_singleton, List.not_mem_nil, or_false] at he
    rcases he with rfl | rfl | rfl | rfl | rfl | rfl | rfl | rfl | rfl | rfl | rfl | rfl <;>
      exact release_padBuf d _ (by decide) hd

/-- C1 at a freshly created device with a zeroed buffer and the button `D_UP`. -/
theorem C1_press_release_buffer_witness :
    (∀ i, (PipeDevice.create (fun _ => 0)).padBuf i < 256)
    ∧ (ParseCommand (PipeDevice.create (fun _ => 0)) ("PRESS ".toList ++ "D_UP".toList)).1.padBuf
        = Function.update (PipeDevice.create (fun _ => 0)).padBuf 1
            ((PipeDevice.create (fun _ => 0)).padBuf 1 ||| 0x08) :=
  ⟨fun i => by simp [create_padBuf],
   (C1_press_release_buffer (PipeDevice.create (fun _ => 0))
      (fun i => by simp [create_padBuf]) ("D_UP".toList, 1, 0x08) (by simp)).1⟩

/-- C2: `ParseCommand` returns true exactly for the line `FLUSH` (so not for
`FLUSH ` or `FLUSH X`), and a `FLUSH` line leaves the whole device unchanged. -/
theorem C2_flush_only (d : PipeDevice) (line : Str) :
    ((ParseCommand d line).2 = true ↔ line = "FLUSH".toList)
    ∧ (ParseCommand d "FLUSH ".toList).2 = false
    ∧ (ParseCommand d "FLUSH X".toList).2 = false
    ∧ ParseCommand d "FLUSH".toList = (d, true) := by
  have key : ∀ l : Str, l ≠ "FLUSH".toList → (ParseCommand d l).2 = false := by
    intro l hl
    unfold ParseCommand
    rw [if_neg hl]
    simp only []
    split_ifs <;> rfl
  refine ⟨?_, key _ (by decide), key _ (by decide), ?_⟩
  · constructor
    · intro h
      by_contra hl
      rw [key line hl] at h
      exact Bool.false_ne_true h
    · rintro rfl
      simp [ParseCommand]
  · simp [ParseCommand]

/-! ## Line extraction: independence of the accumulator, reassembly -/

theorem SetAxis_eq (d : PipeDevice) (entry : Str) (v : ℚ) :
    SetAxis d entry v =
      { axisStores d entry (Clamp v 0.0 1.0) with
        m_axes := setState
          (setState (axisStores d entry (Clamp v 0.0 1.0)).m_axes (entry ++ " +".toList)
            (axisHi (Clamp v 0.0 1.0)))
          (entry ++ " -".toList) (axisLo (Clamp v 0.0 1.0)) } := rfl

theorem ite_store_m_buf (c : Prop) [Decidable c] (d : PipeDevice) (i : Fin 8) (b : Nat) :
    (if c then storeByte d i b else d).m_buf = d.m_buf := by
  split <;> rfl

theorem ite_store_m_axes (c : Prop) [Decidable c] (d : PipeDevice) (i : Fin 8) (b : Nat) :
    (if c then storeByte d i b else d).m_axes = d.m_axes := by
  split <;> rfl

theorem ite_store_m_buttons (c : Prop) [Decidable c] (d : PipeDevice) (i : Fin 8) (b : Nat) :
    (if c then storeByte d i b else d).m_buttons = d.m_buttons := by
  split <;> rfl

theorem axisStores_m_buf (d : PipeDevice) (entry : Str) (v : ℚ) :
    (axisStores d entry v).m_buf = d.m_buf := by
  simp only [axisStores, ite_store_m_buf]

theorem axisStores_m_axes (d : PipeDevice) (entry : Str) (v : ℚ) :
    (axisStores d entry v).m_axes = d.m_axes := by
  simp only [axisStores, ite_store_m_axes]

theorem axisStores_m_buttons (d : PipeDevice) (entry : Str) (v : ℚ) :
    (axisStores d entry v).m_buttons = d.m_buttons := by
  simp only [axisStores, ite_store_m_buttons]

theorem ite_store_withBuf (c : Prop) [Decidable c] (d : PipeDevice) (i : Fin 8) (b : Nat)
    (buf : Str) :
    (if c then storeByte (withBuf d buf) i b else withBuf d buf)
      = withBuf (if c then storeByte d i b else d) buf := by
  split <;> rfl

theorem axisStores_withBuf (d : PipeDevice) (entry : Str) (v : ℚ) (buf : Str) :
    axisStores (withBuf d buf) entry v = withBuf (axisStores d entry v) buf := by
  simp only [axisStores, ite_store_withBuf]

theorem SetAxis_withBuf (d : PipeDevice) (entry : Str) (v : ℚ) (buf : Str) :
    SetAxis (withBuf d buf) entry v = withBuf (SetAxis d entry v) buf := by
  rw [SetAxis_eq, SetAxis_eq, axisStores_withBuf]
  rfl

theorem SetButtonState_withBuf (d : PipeDevice) (button press buf : Str) :
    SetButtonState (withBuf d buf) button press
      = withBuf (SetButtonState d button press) buf := by
  unfold SetButtonState
  simp only []
  split <;> rfl

theorem ParseCommand_withBuf (d : PipeDevice) (command buf : Str) :
    ParseCommand (withBuf d buf) command
      = (withBuf (ParseCommand d command).1 buf, (ParseCommand d command).2) := by
  unfold ParseCommand
  simp only [SetButtonState_withBuf, SetAxis_withBuf]
  split_ifs <;> rfl

theorem ParseCommand_m_buf (d : PipeDevice) (command : Str) :
    (ParseCommand d command).1.m_buf = d.m_buf := by
  have h := ParseCommand_withBuf d command d.m_buf
  have e : withBuf d d.m_buf = d := rfl
  rw [e] at h
  have h2 := congrArg (fun r => r.1.m_buf) h
  simpa [withBuf] using h2

theorem findNewline_lt (buf : Str) (k : Nat) (h : findNewline buf = some k) :
    k < buf.length := by
  induction buf generalizing k with
  | nil => simp [findNewline] at h
  | cons c rest ih =>
    by_cases hc : c = '\n'
    · simp [findNewline, hc] at h
      subst h
      simp
    · cases hr : findNewline rest with
      | none => simp [findNewline, hc, hr] at h
      | some j =>
        simp [findNewline, hc, hr] at h
        have := ih j hr
        simp only [List.length_cons]
        omega

theorem findNewline_append (buf b : Str) (k : Nat) (h : findNewline buf = some k) :
    findNewline (buf ++ b) = some k := by
  induction buf generalizing k with
  | nil => simp [findNewline] at h
  | cons c rest ih =>
    by_cases hc : c = '\n'
    · simp [findNewline, hc] at h ⊢
      exact h
    · cases hr : findNewline rest with
      | none => simp [findNewline, hc, hr] at h
      | some j =>
        simp [findNewline, hc, hr] at h
        simp [findNewline, hc, ih j hr, h]

theorem findNewline_nil_len (buf : Str) (h : buf.length = 0) : findNewline buf = none := by
  have : buf = [] := List.length_eq_zero.mp h
  subst this
  rfl

theorem lineLoop_succ_some (fuel : Nat) (d : PipeDevice) (f : Bool) (p : List Str) (k : Nat)
    (h : findNewline d.m_buf = some k) :
    lineLoop (fuel + 1) d f p
      = lineLoop fuel (lineStep d k) (ParseCommand d (d.m_buf.take k)).2
          (p ++ [d.m_buf.take k]) := by
  simp only [lineLoop, h, lineStep, withBuf, ParseCommand_m_buf]

theorem lineLoop_none (fuel : Nat) (d : PipeDevice) (f : Bool) (p : List Str)
    (h : findNewline d.m_buf = none) : lineLoop fuel d f p = (d, f, p) := by
  cases fuel with
  | zero => rfl
  | succ n => simp only [lineLoop, h]

theorem lineStep_length (d : PipeDevice) (k : Nat) (h : findNewline d.m_buf = some k) :
    (lineStep d k).m_buf.length + 1 ≤ d.m_buf.length := by
  have := findNewline_lt _ _ h
  simp [lineStep, withBuf]
  omega

/-- Any two amounts of fuel that cover the accumulator give the same result. -/
theorem lineLoop_fuel (n : Nat) : ∀ (m : Nat) (d : PipeDevice) (f : Bool) (p : List Str),
    d.m_buf.length ≤ n → d.m_buf.length ≤ m → lineLoop n d f p = lineLoop m d f p := by
  induction n with
  | zero =>
    intro m d f p hn _
    have h0 := findNewline_nil_len d.m_buf (by omega)
    rw [lineLoop_none _ _ _ _ h0, lineLoop_none _ _ _ _ h0]
  | succ n ih =>
    intro m d f p hn hm
    cases hfn : findNewline d.m_buf with
    | none => rw [lineLoop_none _ _ _ _ hfn, lineLoop_none _ _ _ _ hfn]
    | some k =>
      have hl := lineStep_length d k hfn
      cases m with
      | zero => omega
      | succ m =>
        rw [lineLoop_succ_some _ _ _ _ _ hfn, lineLoop_succ_some _ _ _ _ _ hfn]
        exact ih m _ _ _ (by omega) (by omega)

/-- The record of parsed commands is only ever appended to. -/
theorem lineLoop_log (n : Nat) : ∀ (d : PipeDevice) (f : Bool) (p : List Str),
    lineLoop n d f p
      = ((lineLoop n d f []).1, (lineLoop n d f []).2.1, p ++ (lineLoop n d f []).2.2) := by
  induction n with
  | zero => intro d f p; simp [lineLoop]
  | succ n ih =>
    intro d f p
    cases hfn : findNewline d.m_buf with
    | none => simp [lineLoop_none _ _ _ _ hfn]
    | some k =>
      rw [lineLoop_succ_some _ _ _ _ _ hfn, lineLoop_succ_some _ _ _ _ _ hfn, ih]
      conv_rhs => rw [ih]
      simp

theorem appendBytes_eq (d : PipeDevice) (b : Str) :
    appendBytes d b = withBuf d (d.m_buf ++ b) := rfl

theorem lineStep_append (d : PipeDevice) (b : Str) (k : Nat)
    (h : findNewline d.m_buf = some k) :
    lineStep (appendBytes d b) k = appendBytes (lineStep d k) b
    ∧ ParseCommand (appendBytes d b) ((appendBytes d b).m_buf.take k)
        = (withBuf (ParseCommand d (d.m_buf.take k)).1 (d.m_buf ++ b),
            (ParseCommand d (d.m_buf.take k)).2)
    ∧ (appendBytes d b).m_buf.take k = d.m_buf.take k := by
  have hk := findNewline_lt _ _ h
  have ht : (d.m_buf ++ b).take k = d.m_buf.take k := by
    rw [List.take_append_of_le_length (by omega)]
  have hdrop : (d.m_buf ++ b).drop (k + 1) = d.m_buf.drop (k + 1) ++ b := by
    rw [List.drop_append_of_le_length (by omega)]
  refine ⟨?_, ?_, ht⟩
  · simp only [lineStep, appendBytes_eq, withBuf, ParseCommand_withBuf]
    rw [ht, hdrop]
    have := ParseCommand_withBuf d (d.m_buf.take k) (d.m_buf ++ b)
    simp only [withBuf] at this
    rw [this]
  · simp only [appendBytes_eq]
    have e : (withBuf d (d.m_buf ++ b)).m_buf = d.m_buf ++ b := rfl
    rw [e, ht, ParseCommand_withBuf]

/-- Running the loop on the accumulator first and on the accumulator extended by `b`
afterwards is the same as running it once on the extended accumulator. -/
theorem lineLoop_append (n : Nat) : ∀ (d : PipeDevice) (f : Bool) (p : List Str) (b : Str),
    d.m_buf.length ≤ n →
    lineLoop (appendBytes d b).m_buf.length (appendBytes d b) f p
      = lineLoop (appendBytes (lineLoop n d f p).1 b).m_buf.length
          (appendBytes (lineLoop n d f p).1 b) (lineLoop n d f p).2.1
          (lineLoop n d f p).2.2 := by
  induction n with
  | zero =>
    intro d f p b hn
    rw [lineLoop_none 0 d f p (findNewline_nil_len _ (by omega))]
  | succ n ih =>
    intro d f p b hn
    cases hfn : findNewline d.m_buf with
    | none => rw [lineLoop_none _ d f p hfn]
    | some k =>
      have hl := lineStep_length d k hfn
      have hk := findNewline_lt _ _ hfn
      obtain ⟨h1, h2, h3⟩ := lineStep_append d b k hfn
      have hfn2 : findNewline (appendBytes d b).m_buf = some k := findNewline_append _ _ _ hfn
      have hlen : (appendBytes d b).m_buf.length
          = ((appendBytes d b).m_buf.length - 1) + 1 := by
        have : (appendBytes d b).m_buf.length = d.m_buf.length + b.length := by
          simp [appendBytes]
        omega
      rw [lineLoop_succ_some n d f p k hfn, hlen,
        lineLoop_succ_some _ (appendBytes d b) f p k hfn2, h1, h2, h3]
      have hl2 := lineStep_length (appendBytes d b) k hfn2
      rw [h1] at hl2
      rw [lineLoop_fuel _ (appendBytes (lineStep d k) b).m_buf.length _ _ _ (by omega) le_rfl]
      exact ih _ _ _ b (by omega)

/-- The loop ends on an accumulator without newline. -/
theorem lineLoop_done (n : Nat) : ∀ (d : PipeDevice) (f : Bool) (p : List Str),
    d.m_buf.length ≤ n → findNewline (lineLoop n d f p).1.m_buf = none := by
  induction n with
  | zero =>
    intro d f p hn
    have h0 := findNewline_nil_len d.m_buf (by omega)
    rw [lineLoop_none _ _ _ _ h0]
    exact h0
  | succ n ih =>
    intro d f p hn
    cases hfn : findNewline d.m_buf with
    | none =>
      rw [lineLoop_none _ _ _ _ hfn]
      exact hfn
    | some k =>
      have hl := lineStep_length d k hfn
      rw [lineLoop_succ_some _ _ _ _ _ hfn]
      exact ih _ _ _ (by omega)

/-- The incoming value of `finished` affects neither the device nor the commands
parsed. -/
theorem lineLoop_flag (n : Nat) : ∀ (d : PipeDevice) (f g : Bool) (p : List Str),
    (lineLoop n d f p).1 = (lineLoop n d g p).1
    ∧ (lineLoop n d f p).2.2 = (lineLoop n d g p).2.2 := by
  induction n with
  | zero => intro d f g p; exact ⟨rfl, rfl⟩
  | succ n ih =>
    intro d f g p
    cases hfn : findNewline d.m_buf with
    | none =>
      rw [lineLoop_none _ _ _ _ hfn, lineLoop_none _ _ _ _ hfn]
      exact ⟨rfl, rfl⟩
    | some k =>
      rw [lineLoop_succ_some _ _ _ _ _ hfn, lineLoop_succ_some _ _ _ _ _ hfn]
      exact ⟨rfl, rfl⟩

/-- C3: line reassembly.  For every device, every value of the flag `finished`
and every split of the incoming bytes into `a` then `b`: appending `a` and
extracting lines, then appending `b` and extracting lines again (with any value
`g` of the flag then, as in a later poll), ends in the same device (report
buffer, logical inputs and accumulator) as appending `a ++ b` and extracting
once, and hands the same commands to `ParseCommand` in the same order; when the
flag is carried over it ends equal too; the extraction runs until no newline is
left.  On a fresh device `PRESS A\nPRESS` followed by ` B\n` parses `PRESS A` and
then `PRESS B`, and leaves `A` and `B` pressed. -/
theorem C3_line_reassembly (d : PipeDevice) (finished g : Bool) (a b : Str) :
    (extractLines (appendBytes (extractLines (appendBytes d a) finished).1 b) g).1
      = (extractLines (appendBytes d (a ++ b)) finished).1
    ∧ (extractLines (appendBytes d a) finished).2.2
        ++ (extractLines (appendBytes (extractLines (appendBytes d a) finished).1 b) g).2.2
      = (extractLines (appendBytes d (a ++ b)) finished).2.2
    ∧ (extractLines (appendBytes (extractLines (appendBytes d a) finished).1 b)
        (extractLines (appendBytes d a) finished).2.1).2.1
      = (extractLines (appendBytes d (a ++ b)) finished).2.1
    ∧ findNewline (extractLines (appendBytes d (a ++ b)) finished).1.m_buf = none
    ∧ (extractLines (appendBytes (PipeDevice.create (fun _ => 0)) "PRESS A\nPRESS".toList)
        false).2.2 = ["PRESS A".toList]
    ∧ (extractLines (appendBytes (extractLines (appendBytes (PipeDevice.create (fun _ => 0))
        "PRESS A\nPRESS".toList) false).1 " B\n".toList) false).2.2 = ["PRESS B".toList]
    ∧ (extractLines (appendBytes (extractLines (appendBytes (PipeDevice.create (fun _ => 0))
        "PRESS A\nPRESS".toList) false).1 " B\n".toList) false).1.padBuf 0 = 0x03
    ∧ getState (extractLines (appendBytes (extractLines (appendBytes
        (PipeDevice.create (fun _ => 0)) "PRESS A\nPRESS".toList) false).1
        " B\n".toList) false).1.m_buttons "A".toList = some 1.0
    ∧ getState (extractLines (appendBytes (extractLines (appendBytes
        (PipeDevice.create (fun _ => 0)) "PRESS A\nPRESS".toList) false).1
        " B\n".toList) false).1.m_buttons "B".toList = some 1.0 := by
  have e : appendBytes d (a ++ b) = appendBytes (appendBytes d a) b := by
    simp [appendBytes]
  have key := lineLoop_append (appendBytes d a).m_buf.length (appendBytes d a) finished [] b
    le_rfl
  have key2 := key.trans (lineLoop_log _ _ _ _)
  refine ⟨?_, ?_, ?_, lineLoop_done _ _ _ _ le_rfl, by decide, by decide, by decide, rfl, rfl⟩
  · simp only [extractLines, e]
    rw [key2]
    exact (lineLoop_flag _ _ _ _ _).1
  · simp only [extractLines, e]
    rw [key2]
    exact congrArg _ (lineLoop_flag _ _ _ _ _).2
  · simp only [extractLines, e]
    rw [key2]

/-! ## `SET` lines -/

theorem parse_set3 (d : PipeDevice) (name tv : Str) (hn : ' ' ∉ name) (hv : ' ' ∉ tv) :
    ParseCommand d ("SET ".toList ++ name ++ " ".toList ++ tv)
      = (SetAxis d name (StringToDouble tv), false) := by
  have hs : SplitString ("SET ".toList ++ name ++ " ".toList ++ tv) ' '
      = ["SET".toList, name, tv] := by
    simp [SplitString, splitAux, splitAux_append _ _ hn, splitAux_noDelim _ _ hv]
  have hne : "SET ".toList ++ name ++ " ".toList ++ tv ≠ "FLUSH".toList := by simp
  unfold ParseCommand
  rw [if_neg hne]
  simp only [hs]
  simp

theorem parse_set4 (d : PipeDevice) (name tx ty : Str) (hn : ' ' ∉ name) (hx : ' ' ∉ tx)
    (hy : ' ' ∉ ty) :
    ParseCommand d ("SET ".toList ++ name ++ " ".toList ++ tx ++ " ".toList ++ ty)
      = (SetAxis (SetAxis d (name ++ " X".toList) (StringToDouble tx))
          (name ++ " Y".toList) (StringToDouble ty), false) := by
  have hs : SplitString ("SET ".toList ++ name ++ " ".toList ++ tx ++ " ".toList ++ ty) ' '
      = ["SET".toList, name, tx, ty] := by
    simp [SplitString, splitAux, splitAux_append _ _ hn, splitAux_append _ _ hx,
      splitAux_noDelim _ _ hy]
  have hne : "SET ".toList ++ name ++ " ".toList ++ tx ++ " ".toList ++ ty ≠ "FLUSH".toList := by
    simp
  unfold ParseCommand
  rw [if_neg hne]
  simp only [hs]
  simp

theorem FloatToU8_lt (v : ℚ) : FloatToU8 v < 256 := by
  simp only [FloatToU8, reinterpretU8]
  omega

theorem u8cast_lt (x : ℚ) : u8cast x < 256 := by
  unfold u8cast
  simp only []
  omega

theorem Clamp_eq (v : ℚ) : Clamp v 0.0 1.0 = max 0 (min v 1) := by
  simp [Clamp, zero_lit, one_lit]

theorem SetAxis_padBuf (d : PipeDevice) (entry : Str) (v : ℚ) :
    (SetAxis d entry v).padBuf = (axisStores d entry (max 0 (min v 1))).padBuf := by
  rw [SetAxis_eq, Clamp_eq]

theorem SetAxis_m_buttons (d : PipeDevice) (entry : Str) (v : ℚ) :
    (SetAxis d entry v).m_buttons = d.m_buttons := by
  rw [SetAxis_eq]
  exact axisStores_m_buttons _ _ _

theorem SetAxis_m_buf (d : PipeDevice) (entry : Str) (v : ℚ) :
    (SetAxis d entry v).m_buf = d.m_buf := by
  rw [SetAxis_eq]
  exact axisStores_m_buf _ _ _

theorem SetAxis_m_axes (d : PipeDevice) (entry : Str) (v : ℚ) :
    (SetAxis d entry v).m_axes
      = setState (setState d.m_axes (entry ++ " +".toList) (axisHi (max 0 (min v 1))))
          (entry ++ " -".toList) (axisLo (max 0 (min v 1))) := by
  rw [SetAxis_eq, Clamp_eq]
  simp only [axisStores_m_axes]

theorem axisStores_MAIN_X (d : PipeDevice) (v : ℚ) :
    (axisStores d "MAIN X".toList v).padBuf = Function.update d.padBuf 2 (FloatToU8 v) := by
  simp [axisStores, storeByte, Nat.mod_eq_of_lt (FloatToU8_lt v)]

theorem axisStores_MAIN_Y (d : PipeDevice) (v : ℚ) :
    (axisStores d "MAIN Y".toList v).padBuf = Function.update d.padBuf 3 (FloatToU8 v) := by
  simp [axisStores, storeByte, Nat.mod_eq_of_lt (FloatToU8_lt v)]

theorem axisStores_C_X (d : PipeDevice) (v : ℚ) :
    (axisStores d "C X".toList v).padBuf = Function.update d.padBuf 4 (FloatToU8 v) := by
  simp [axisStores, storeByte, Nat.mod_eq_of_lt (FloatToU8_lt v)]

theorem axisStores_C_Y (d : PipeDevice) (v : ℚ) :
    (axisStores d "C Y".toList v).padBuf = Function.update d.padBuf 5 (FloatToU8 v) := by
  simp [axisStores, storeByte, Nat.mod_eq_of_lt (FloatToU8_lt v)]

theorem axisStores_L (d : PipeDevice) (v : ℚ) :
    (axisStores d "L".toList v).padBuf = Function.update d.padBuf 6 (u8cast (dmul v 255)) := by
  simp [axisStores, storeByte, Nat.mod_eq_of_lt (u8cast_lt _)]

theorem axisStores_R (d : PipeDevice) (v : ℚ) :
    (axisStores d "R".toList v).padBuf = Function.update d.padBuf 7 (u8cast (dmul v 255)) := by
  simp [axisStores, storeByte, Nat.mod_eq_of_lt (u8cast_lt _)]

/-- An entry that is none of the six axis names stores nothing. -/
theorem axisStores_other (d : PipeDevice) (entry : Str) (v : ℚ)
    (h : entry ∉ ["MAIN X".toList, "MAIN Y".toList, "C X".toList, "C Y".toList, "L".toList,
      "R".toList]) :
    axisStores d entry v = d := by
  simp only [List.mem_cons, List.mem_singleton, List.not_mem_nil, or_false, not_or] at h
  obtain ⟨h1, h2, h3, h4, h5, h6⟩ := h
  simp only [axisStores, h1, h2, h3, h4, h5, h6, if_false]

theorem setState_not_mem (m : InputMap) (key : Str) (v : ℚ) (h : key ∉ keys m) :
    setState m key v = m := by
  induction m with
  | nil => rfl
  | cons e rest ih =>
    obtain ⟨k, s⟩ := e
    have hk : k ≠ key := fun e => h (by simp [keys, e])
    have hr : key ∉ keys rest := fun e => h (by simp [keys] at e ⊢; exact Or.inr e)
    simp [setState, hk, ih hr]

theorem keys_setState (m : InputMap) (key : Str) (v : ℚ) :
    keys (setState m key v) = keys m := by
  induction m with
  | nil => rfl
  | cons e rest ih =>
    obtain ⟨k, s⟩ := e
    by_cases hk : k = key
    · simp [setState, hk, keys]
    · simp only [setState, hk, if_false, keys, List.map_cons] at ih ⊢
      rw [ih]

/-- The half-axis names registered by the constructor. -/
theorem create_axes_keys (pad : Fin 8 → Nat) :
    keys (PipeDevice.create pad).m_axes
      = ["L +".toList, "L -".toList, "R +".toList, "R -".toList,
         "MAIN X +".toList, "MAIN X -".toList, "MAIN Y +".toList, "MAIN Y -".toList,
         "C X +".toList, "C X -".toList, "C Y +".toList, "C Y -".toList] := rfl

/-- The button names registered by the constructor. -/
theorem create_buttons_keys (pad : Fin 8 → Nat) :
    keys (PipeDevice.create pad).m_buttons = s_button_tokens := rfl

/-- A space-free name other than `L` and `R`, followed by ` +` or ` -`, is not the
name of a registered half-axis. -/
theorem half_key_not_registered (d : PipeDevice) (hk : AxesRegistered d) (name : Str)
    (hn : ' ' ∉ name) (h1 : name ≠ "L".toList) (h2 : name ≠ "R".toList) :
    name ++ " +".toList ∉ keys d.m_axes ∧ name ++ " -".toList ∉ keys d.m_axes := by
  unfold AxesRegistered at hk
  rw [hk, create_axes_keys]
  have step : ∀ (sfx key : Str), name ++ sfx = key →
      name = (key.reverse.drop sfx.length).reverse := by
    intro sfx key h
    rw [← h]
    simp
  constructor <;>
  · intro hmem
    simp only [List.mem_cons, List.mem_singleton, List.not_mem_nil, or_false] at hmem
    rcases hmem with h | h | h | h | h | h | h | h | h | h | h | h <;>
      first
      | (have h3 := congrArg List.reverse h; simp at h3; done)
      | (have h3 := step _ _ h; simp at h3; subst h3; simp at hn h1 h2)

/-- A `SetAxis` on an entry that names no axis and no registered half-axis changes
nothing. -/
theorem SetAxis_noop (d : PipeDevice) (entry : Str) (v : ℚ)
    (h : entry ∉ ["MAIN X".toList, "MAIN Y".toList, "C X".toList, "C Y".toList, "L".toList,
      "R".toList])
    (hp : entry ++ " +".toList ∉ keys d.m_axes) (hm : entry ++ " -".toList ∉ keys d.m_axes) :
    SetAxis d entry v = d := by
  rw [SetAxis_eq, axisStores_other d entry _ h, setState_not_mem _ _ _ hp,
    setState_not_mem _ _ _ hm]

/-- A space-free name other than `MAIN` and `C`, followed by ` X` or ` Y`, names no
axis and no registered half-axis. -/
theorem pair_key_not_registered (d : PipeDevice) (hk : AxesRegistered d) (name : Str)
    (h1 : name ≠ "MAIN".toList) (h2 : name ≠ "C".toList) :
    ∀ sfx ∈ [" X".toList, " Y".toList],
      name ++ sfx ∉ ["MAIN X".toList, "MAIN Y".toList, "C X".toList, "C Y".toList,
        "L".toList, "R".toList]
      ∧ name ++ sfx ++ " +".toList ∉ keys d.m_axes
      ∧ name ++ sfx ++ " -".toList ∉ keys d.m_axes := by
  unfold AxesRegistered at hk
  rw [hk, create_axes_keys]
  have step : ∀ (sfx key : Str), name ++ sfx = key →
      name = (key.reverse.drop sfx.length).reverse := by
    intro sfx key h
    rw [← h]
    simp
  intro sfx hs
  have six : ∀ sfx ∈ [" X".toList, " Y".toList],
      name ++ sfx ∉ ["MAIN X".toList, "MAIN Y".toList, "C X".toList, "C Y".toList,
        "L".toList, "R".toList] := by
    intro sfx hs hmem
    simp only [List.mem_cons, List.mem_singleton, List.not_mem_nil, or_false] at hs hmem
    rcases hs with rfl | rfl <;> rcases hmem with h | h | h | h | h | h <;>
      first
      | (have h3 := congrArg List.reverse h; simp at h3; done)
      | (have h3 := step _ _ h; simp at h3; subst h3; simp at h1 h2)
  refine ⟨six sfx hs, ?_, ?_⟩ <;>
  · simp only [List.mem_cons, List.mem_singleton, List.not_mem_nil, or_false] at hs
    intro hmem
    simp only [List.mem_cons, List.mem_singleton, List.not_mem_nil, or_false,
      List.append_assoc] at hmem
    rcases hs with rfl | rfl <;>
    rcases hmem with h | h | h | h | h | h | h | h | h | h | h | h <;>
      first
      | (have h3 := congrArg List.reverse h; simp at h3; done)
      | (have h3 := step _ _ h; simp at h3; subst h3; simp at h1 h2)

/-- C4: effect of `SET` on the report buffer.  With `tx`, `ty` non-empty tokens and
`x`, `y` the numbers they denote: `SET MAIN tx ty` stores the stick encodings of
`clamp(x,0,1)`, `clamp(y,0,1)` in bytes 2 and 3 and leaves the other bytes alone;
`SET C tx ty` does so for bytes 4 and 5; `SET L tx` (`SET R tx`) stores the
shoulder encoding of `clamp(x,0,1)` in byte 6 (7); and on a device with the
constructor's half-axes a three-token `SET` whose name is not `L` or `R`, or a
four-token `SET` whose name is not `MAIN` or `C`, changes nothing at all. -/
theorem C4_set_buffer (d : PipeDevice) (hk : AxesRegistered d) (tx ty : Str)
    (hx : ' ' ∉ tx) (hy : ' ' ∉ ty) (_hx0 : tx ≠ []) (_hy0 : ty ≠ []) :
    (ParseCommand d ("SET MAIN ".toList ++ tx ++ " ".toList ++ ty)).1.padBuf
        = Function.update
            (Function.update d.padBuf 2 (FloatToU8 (max 0 (min (StringToDouble tx) 1))))
            3 (FloatToU8 (max 0 (min (StringToDouble ty) 1)))
    ∧ (ParseCommand d ("SET C ".toList ++ tx ++ " ".toList ++ ty)).1.padBuf
        = Function.update
            (Function.update d.padBuf 4 (FloatToU8 (max 0 (min (StringToDouble tx) 1))))
            5 (FloatToU8 (max 0 (min (StringToDouble ty) 1)))
    ∧ (ParseCommand d ("SET L ".toList ++ tx)).1.padBuf
        = Function.update d.padBuf 6 (u8cast (dmul (max 0 (min (StringToDouble tx) 1)) 255))
    ∧ (ParseCommand d ("SET R ".toList ++ tx)).1.padBuf
        = Function.update d.padBuf 7 (u8cast (dmul (max 0 (min (StringToDouble tx) 1)) 255))
    ∧ (∀ name : Str, ' ' ∉ name → name ≠ "L".toList → name ≠ "R".toList →
        ParseCommand d ("SET ".toList ++ name ++ " ".toList ++ tx) = (d, false))
    ∧ (∀ name : Str, ' ' ∉ name → name ≠ "MAIN".toList → name ≠ "C".toList →
        ParseCommand d ("SET ".toList ++ name ++ " ".toList ++ tx ++ " ".toList ++ ty)
          = (d, false)) := by
  refine ⟨?_, ?_, ?_, ?_, ?_, ?_⟩
  · have e : "SET MAIN ".toList ++ tx ++ " ".toList ++ ty
        = "SET ".toList ++ "MAIN".toList ++ " ".toList ++ tx ++ " ".toList ++ ty := by simp
    rw [e, parse_set4 d _ tx ty (by decide) hx hy]
    show (SetAxis (SetAxis d "MAIN X".toList _) "MAIN Y".toList _).padBuf = _
    rw [SetAxis_padBuf, axisStores_MAIN_Y, SetAxis_padBuf, axisStores_MAIN_X]
  · have e : "SET C ".toList ++ tx ++ " ".toList ++ ty
        = "SET ".toList ++ "C".toList ++ " ".toList ++ tx ++ " ".toList ++ ty := by simp
    rw [e, parse_set4 d _ tx ty (by decide) hx hy]
    show (SetAxis (SetAxis d "C X".toList _) "C Y".toList _).padBuf = _
    rw [SetAxis_padBuf, axisStores_C_Y, SetAxis_padBuf, axisStores_C_X]
  · have e : "SET L ".toList ++ tx = "SET ".toList ++ "L".toList ++ " ".toList ++ tx := by
      simp
    rw [e, parse_set3 d _ tx (by decide) hx]
    show (SetAxis d "L".toList _).padBuf = _
    rw [SetAxis_padBuf, axisStores_L]
  · have e : "SET R ".toList ++ tx = "SET ".toList ++ "R".toList ++ " ".toList ++ tx := by
      simp
    rw [e, parse_set3 d _ tx (by decide) hx]
    show (SetAxis d "R".toList _).padBuf = _
    rw [SetAxis_padBuf, axisStores_R]
  · intro name hn h1 h2
    rw [parse_set3 d name tx hn hx]
    obtain ⟨hp, hm⟩ := half_key_not_registered d hk name hn h1 h2
    rw [SetAxis_noop d name _ _ hp hm]
    intro hmem
    simp only [List.mem_cons, List.mem_singleton, List.not_mem_nil, or_false] at hmem
    rcases hmem with h | h | h | h | h | h
    · subst h; exact hn (by decide)
    · subst h; exact hn (by decide)
    · subst h; exact hn (by decide)
    · subst h; exact hn (by decide)
    · exact h1 h
    · exact h2 h
  · intro name hn h1 h2
    rw [parse_set4 d name tx ty hn hx hy]
    obtain ⟨a1, a2, a3⟩ := pair_key_not_registered d hk name h1 h2 " X".toList (by simp)
    obtain ⟨b1, b2, b3⟩ := pair_key_not_registered d hk name h1 h2 " Y".toList (by simp)
    rw [SetAxis_noop d _ _ a1 a2 a3, SetAxis_noop d _ _ b1 b2 b3]

theorem create_axesRegistered (pad : Fin 8 → Nat) : AxesRegistered (PipeDevice.create pad) :=
  rfl

theorem create_buttonsRegistered (pad : Fin 8 → Nat) :
    ButtonsRegistered (PipeDevice.create pad) := rfl

/-- C4 at a freshly created device: `SET MAIN 0.25 1`, and the two lines
`SET MAIN 0.3` and `SET L 0.1 0.2` whose name does not fit the arity. -/
theorem C4_set_buffer_witness :
    (ParseCommand (PipeDevice.create (fun _ => 0)) "SET MAIN 0.25 1".toList).1.padBuf
        = Function.update
            (Function.update (fun _ => 0) 2
              (FloatToU8 (max 0 (min (StringToDouble "0.25".toList) 1))))
            3 (FloatToU8 (max 0 (min (StringToDouble "1".toList) 1)))
    ∧ ParseCommand (PipeDevice.create (fun _ => 0)) "SET MAIN 0.3".toList
        = (PipeDevice.create (fun _ => 0), false)
    ∧ ParseCommand (PipeDevice.create (fun _ => 0)) "SET L 0.1 0.2".toList
        = (PipeDevice.create (fun _ => 0), false) :=
  ⟨(C4_set_buffer (PipeDevice.create (fun _ => 0)) (create_axesRegistered _)
      "0.25".toList "1".toList (by decide) (by decide) (by decide) (by decide)).1,
   (C4_set_buffer (PipeDevice.create (fun _ => 0)) (create_axesRegistered _)
      "0.3".toList "1".toList (by decide) (by decide) (by decide) (by decide)).2.2.2.2.1
      "MAIN".toList (by decide) (by decide) (by decide),
   (C4_set_buffer (PipeDevice.create (fun _ => 0)) (create_axesRegistered _)
      "0.1".toList "0.2".toList (by decide) (by decide) (by decide) (by decide)).2.2.2.2.2
      "L".toList (by decide) (by decide) (by decide)⟩

/-! ## Numeric encoders and half-axes -/

theorem dsub_zero_half : dsub 0.0 0.5 = -(1 / 2) := by
  unfold dsub
  rw [show (0.0 : ℚ) - 0.5 = -(1 / 2) by norm_num, toDouble_neg, isDouble_half]

theorem dsub_one_half : dsub 1.0 0.5 = 1 / 2 := by
  unfold dsub
  rw [show (1.0 : ℚ) - 0.5 = 1 / 2 by norm_num, isDouble_half]

theorem FloatToU8_zero : toS8 ⌊dmul (dsub 0.0 0.5) 254⌋ = -127 ∧ FloatToU8 0.0 = 0x81 := by
  have h : ⌊dmul (dsub 0.0 0.5) 254⌋ = -127 := by
    rw [dsub_zero_half]
    unfold dmul
    rw [show (-(1 / 2) : ℚ) * 254 = ((-127 : Int) : ℚ) by norm_num,
      toDouble_intCast _ (by norm_num), Int.floor_intCast]
  simp only [FloatToU8, h]
  decide

theorem FloatToU8_one : toS8 ⌊dmul (dsub 1.0 0.5) 254⌋ = 127 ∧ FloatToU8 1.0 = 0x7F := by
  have h : ⌊dmul (dsub 1.0 0.5) 254⌋ = 127 := by
    rw [dsub_one_half]
    unfold dmul
    rw [show (1 / 2 : ℚ) * 254 = ((127 : Int) : ℚ) by norm_num,
      toDouble_intCast _ (by norm_num), Int.floor_intCast]
  simp only [FloatToU8, h]
  decide

/-- C5 (as amended): `FloatToU8(0.0)` is `0x81`, the pattern of `-127`, and
`FloatToU8(1.0)` is `0x7F`, the pattern of `127 = floor(0.5 * 254)`. -/
theorem C5_stick_boundaries :
    toS8 ⌊dmul (dsub 0.0 0.5) 254⌋ = -127 ∧ FloatToU8 0.0 = 0x81
    ∧ toS8 ⌊dmul (dsub 1.0 0.5) 254⌋ = 127 ∧ FloatToU8 1.0 = 0x7F :=
  ⟨FloatToU8_zero.1, FloatToU8_zero.2, FloatToU8_one.1, FloatToU8_one.2⟩

/-- C5 as stated fails: `FloatToU8(1.0)` is not `0x7E`. -/
theorem C5_stick_boundaries_counterexample :
    ¬ (FloatToU8 0.0 = 0x81 ∧ FloatToU8 1.0 = 0x7E) := by
  rintro ⟨_, h⟩
  rw [FloatToU8_one.2] at h
  exact absurd h (by decide)

/-- The cast `u8 (x)` of a value in `[0, 255]` is its floor. -/
theorem u8cast_of_range (x : ℚ) (h0 : 0 ≤ x) (h1 : x ≤ 255) :
    ((u8cast x : Nat) : Int) = ⌊x⌋ ∧ u8cast x ≤ 255 := by
  have hf0 : 0 ≤ ⌊x⌋ := Int.floor_nonneg.mpr h0
  have hf1 : ⌊x⌋ ≤ 255 := by
    have : (⌊x⌋ : ℚ) ≤ 255 := le_trans (Int.floor_le x) h1
    exact_mod_cast this
  simp only [u8cast, if_pos h0]
  omega

theorem isDouble_255 : IsDouble 255 := by
  have := isDouble_int 255 (by norm_num)
  simpa using this

/-- The product `value * 255` of `SetAxis` lies in `[0, 255]` for a value in `[0,1]`. -/
theorem dmul_255_range (v : ℚ) (h0 : 0 ≤ v) (h1 : v ≤ 1) :
    0 ≤ dmul v 255 ∧ dmul v 255 ≤ 255 :=
  ⟨dmul_nonneg h0 (by norm_num), toDouble_le isDouble_255 (by linarith)⟩

theorem shoulder_byte (d : PipeDevice) (v : ℚ) (h0 : 0 ≤ v) (h1 : v ≤ 1) :
    (SetAxis d "L".toList v).padBuf 6 = u8cast (dmul v 255)
    ∧ (SetAxis d "R".toList v).padBuf 7 = u8cast (dmul v 255) := by
  have hc : max 0 (min v 1) = v := by
    rw [min_eq_left h1, max_eq_right h0]
  rw [SetAxis_padBuf, axisStores_L, SetAxis_padBuf, axisStores_R, hc]
  simp

/-- C6: for `v` in `[0,1]` the byte written for `L` (byte 6) and for `R` (byte 7) is
the truncation `n` of the product `v * 255` that `SetAxis` computes, a `double`
(`n ≤ v * 255 < n + 1`); it is at most `255`, is `0` at `v = 0` and `255` at
`v = 1`, and does not decrease when `v` grows.  The product being rounded to
binary64, the byte is the truncation of the exact product or one more. -/
theorem C6_shoulder_encoder (d : PipeDevice) (v : ℚ) (h0 : 0 ≤ v) (h1 : v ≤ 1) :
    (SetAxis d "L".toList v).padBuf 6 = u8cast (dmul v 255)
    ∧ (SetAxis d "R".toList v).padBuf 7 = (SetAxis d "L".toList v).padBuf 6
    ∧ (((SetAxis d "L".toList v).padBuf 6 : Nat) : ℚ) ≤ dmul v 255
    ∧ dmul v 255 < (((SetAxis d "L".toList v).padBuf 6 : Nat) : ℚ) + 1
    ∧ (SetAxis d "L".toList v).padBuf 6 ≤ 255
    ∧ (SetAxis d "L".toList 0.0).padBuf 6 = 0
    ∧ (SetAxis d "L".toList 1.0).padBuf 6 = 255
    ∧ (∀ w : ℚ, v ≤ w → w ≤ 1 →
        (SetAxis d "L".toList v).padBuf 6 ≤ (SetAxis d "L".toList w).padBuf 6)
    ∧ ⌊v * 255⌋ ≤ (((SetAxis d "L".toList v).padBuf 6 : Nat) : Int)
    ∧ (((SetAxis d "L".toList v).padBuf 6 : Nat) : Int) ≤ ⌊v * 255⌋ + 1 := by
  obtain ⟨hx0, hx1⟩ := dmul_255_range v h0 h1
  obtain ⟨hL, hR⟩ := shoulder_byte d v h0 h1
  obtain ⟨hfl, hle⟩ := u8cast_of_range (dmul v 255) hx0 hx1
  have hcast : ((u8cast (dmul v 255) : Nat) : ℚ) = ((⌊dmul v 255⌋ : Int) : ℚ) := by
    rw [← hfl]; simp
  have hex := floor_toDouble (v * 255) (by nlinarith) (by nlinarith)
  refine ⟨hL, by rw [hL, hR], ?_, ?_, by rw [hL]; exact hle, ?_, ?_, ?_, ?_, ?_⟩
  · rw [hL, hcast]; exact Int.floor_le _
  · rw [hL, hcast]; exact Int.lt_floor_add_one _
  · rw [(shoulder_byte d 0.0 (by norm_num) (by norm_num)).1]
    have hz : dmul 0.0 255 = 0 := by
      rw [zero_lit]; exact dmul_zero_left _
    rw [hz]
    have := (u8cast_of_range 0 le_rfl (by norm_num)).1
    have h2 : ⌊(0 : ℚ)⌋ = 0 := Int.floor_zero
    omega
  · rw [(shoulder_byte d 1.0 (by norm_num) (by norm_num)).1]
    have hz : dmul 1.0 255 = 255 := by
      unfold dmul
      rw [one_lit, one_mul]
      exact isDouble_255
    rw [hz]
    have := (u8cast_of_range 255 (by norm_num) le_rfl).1
    have h2 : ⌊(255 : ℚ)⌋ = 255 := by norm_num
    omega
  · intro w hvw hw1
    have hw0 : 0 ≤ w := le_trans h0 hvw
    obtain ⟨hy0, hy1⟩ := dmul_255_range w hw0 hw1
    rw [hL, (shoulder_byte d w hw0 hw1).1]
    have a := (u8cast_of_range (dmul w 255) hy0 hy1).1
    have hm : ⌊dmul v 255⌋ ≤ ⌊dmul w 255⌋ :=
      Int.floor_mono (toDouble_mono (by linarith))
    omega
  · rw [hL, hfl]; exact hex.1
  · rw [hL, hfl]; exact hex.2

/-- The decimal text `0.00392156862745098` denotes the binary64 value
`282578800148737 / 2 ^ 56`. -/
theorem StringToDouble_shoulder_text :
    StringToDouble "0.00392156862745098".toList = 282578800148737 / 2 ^ 56 := by
  have h : StringToDouble "0.00392156862745098".toList
      = toDouble (392156862745098 / 10 ^ 17) := by
    simp [StringToDouble, readSign, readDigits, isSpaceChar, Char.isDigit]
  rw [h, toDouble_eq_of_near _ (-60) (282578800148737 * 16) (by norm_num) (by norm_num)
    (by rw [abs_of_pos (by norm_num)]; norm_num) (by rw [abs_of_pos (by norm_num)]; norm_num)
    (by norm_num) (by norm_num)]
  norm_num

/-- The product of that value and `255` is `1 - 2 ^ (-56)` exactly, and rounds to
`1`. -/
theorem dmul_shoulder_example : dmul (282578800148737 / 2 ^ 56) 255 = 1 := by
  unfold dmul
  rw [toDouble_eq_of_near _ (-53) (2 ^ 53) (by norm_num) (by norm_num)
    (by rw [abs_of_pos (by norm_num)]; norm_num) (by rw [abs_of_pos (by norm_num)]; norm_num)
    (by norm_num) (by norm_num)]
  norm_num

/-- C6 at a freshly created device and the value of the text `0.00392156862745098`:
the product rounds to `1`, the byte written is `1`, and the truncation of the
exact product is `0`. -/
theorem C6_shoulder_encoder_witness :
    (0 : ℚ) ≤ 282578800148737 / 2 ^ 56 ∧ (282578800148737 / 2 ^ 56 : ℚ) ≤ 1
    ∧ (SetAxis (PipeDevice.create (fun _ => 0)) "L".toList
        (282578800148737 / 2 ^ 56)).padBuf 6 = 1
    ∧ ⌊(282578800148737 / 2 ^ 56 : ℚ) * 255⌋ = 0 := by
  have h := C6_shoulder_encoder (PipeDevice.create (fun _ => 0)) (282578800148737 / 2 ^ 56)
    (by norm_num) (by norm_num)
  refine ⟨by norm_num, by norm_num, ?_, ?_⟩
  · rw [h.1, dmul_shoulder_example]
    simp [u8cast]
  · rw [Int.floor_eq_iff]
    norm_num

/-- The values `hi` and `lo` of `SetAxis` lie in `[0,1]` for a value in `[0,1]`. -/
theorem axis_half_range (c : ℚ) (h0 : 0 ≤ c) (h1 : c ≤ 1) :
    (0 ≤ axisHi c ∧ axisHi c ≤ 1) ∧ (0 ≤ axisLo c ∧ axisLo c ≤ 1) := by
  simp only [axisHi, axisLo, zero_lit, two_lit, half_lit]
  have a1 : dsub c (1 / 2) ≤ 1 / 2 := toDouble_le isDouble_half (by linarith)
  have a2 : 0 ≤ max 0 (dsub c (1 / 2)) := le_max_left _ _
  have a3 : max 0 (dsub c (1 / 2)) ≤ 1 / 2 := max_le (by norm_num) a1
  have b1 : 0 ≤ dsub (1 / 2) (min (1 / 2) c) := dsub_nonneg (min_le_left _ _)
  have b2 : dsub (1 / 2) (min (1 / 2) c) ≤ 1 / 2 :=
    toDouble_le isDouble_half (by
      have : 0 ≤ min (1 / 2) c := le_min (by norm_num) h0
      linarith)
  exact ⟨⟨dmul_nonneg a2 (by norm_num), toDouble_le isDouble_one (by linarith)⟩,
    ⟨dmul_nonneg b1 (by norm_num), toDouble_le isDouble_one (by linarith)⟩⟩

/-- C10: with `hi = max(0, v - 0.5) * 2` and `lo = (0.5 - min(0.5, v)) * 2` as computed
by `SetAxis` in `double` arithmetic (which stores them in the `+` and `-` inputs
of the entry): for a `double` `v` in `[0,1]`, `hi + lo ≤ 2`; when `v ≠ 0.5` exactly
one of them is `0`; at `v = 0.5` both are `0`.  No rounding occurs in `hi`, and
none in `lo` from `v = 0.25` on. -/
theorem C10_half_axis (d : PipeDevice) (entry : Str) (v : ℚ) (hv : IsDouble v)
    (h0 : 0 ≤ v) (h1 : v ≤ 1) :
    (SetAxis d entry v).m_axes
        = setState (setState d.m_axes (entry ++ " +".toList) (axisHi v))
            (entry ++ " -".toList) (axisLo v)
    ∧ axisHi v = dmul (max 0 (dsub v 0.5)) 2 ∧ axisLo v = dmul (dsub 0.5 (min 0.5 v)) 2
    ∧ axisHi v = max 0 (v - 0.5) * 2
    ∧ (0.25 ≤ v → axisLo v = (0.5 - min 0.5 v) * 2)
    ∧ axisHi v + axisLo v ≤ 2.0
    ∧ (v ≠ 0.5 → (axisHi v = 0 ∧ axisLo v ≠ 0) ∨ (axisHi v ≠ 0 ∧ axisLo v = 0))
    ∧ (v = 0.5 → axisHi v = 0 ∧ axisLo v = 0) := by
  have hc : max 0 (min v 1) = v := by
    rw [min_eq_left h1, max_eq_right h0]
  have ehi : axisHi v = dmul (max 0 (dsub v (1 / 2))) 2 := by
    simp only [axisHi, zero_lit, two_lit, half_lit]
  have elo : axisLo v = dmul (dsub (1 / 2) (min (1 / 2) v)) 2 := by
    simp only [axisLo, two_lit, half_lit]
  have hlow : v ≤ 1 / 2 → axisHi v = 0 := by
    intro h
    rw [ehi, max_eq_left (dsub_nonpos h)]
    exact dmul_zero_left _
  have hhigh : 1 / 2 ≤ v → axisLo v = 0 := by
    intro h
    rw [elo, min_eq_left h, dsub_self]
    exact dmul_zero_left _
  refine ⟨by rw [SetAxis_m_axes, hc], by rw [ehi, half_lit], by rw [elo, half_lit],
    ?_, ?_, ?_, ?_, ?_⟩
  · rw [half_lit]
    rcases le_total v (1 / 2) with h | h
    · rw [hlow h, max_eq_left (by linarith)]
      simp
    · obtain ⟨e1, e2⟩ := dsub_half_exact hv h h1
      rw [ehi, e1, max_eq_right (by linarith), e2]
  · intro hq
    have hq : 1 / 4 ≤ v := by
      have : (0.25 : ℚ) = 1 / 4 := by norm_num
      rwa [this] at hq
    rw [half_lit]
    rcases le_total v (1 / 2) with h | h
    · obtain ⟨e1, e2⟩ := half_dsub_exact hv hq h
      rw [elo, min_eq_right h, e1, e2]
    · rw [hhigh h, min_eq_left h]
      simp
  · have := axis_half_range v h0 h1
    rw [two_lit]
    linarith [this.1.2, this.2.2]
  · intro hne
    rw [half_lit] at hne
    rcases lt_or_gt_of_ne hne with h | h
    · left
      refine ⟨hlow (le_of_lt h), ?_⟩
      rw [elo, min_eq_right (le_of_lt h)]
      have hp := dsub_pos isDouble_half hv h
      exact ne_of_gt (dmul_pos (isDouble_toDouble _) hp (by norm_num))
    · right
      refine ⟨?_, hhigh (le_of_lt h)⟩
      have hp := dsub_pos hv isDouble_half h
      rw [ehi, max_eq_right (le_of_lt hp)]
      exact ne_of_gt (dmul_pos (isDouble_toDouble _) hp (by norm_num))
  · intro e
    rw [half_lit] at e
    exact ⟨hlow (le_of_eq e), hhigh (le_of_eq e.symm)⟩

theorem isDouble_quarter : IsDouble (1 / 4) := by
  have := toDouble_dyadic 1 2 (by norm_num) (by norm_num)
  have e : ((1 : Int) : ℚ) / 2 ^ 2 = 1 / 4 := by norm_num
  rwa [e] at this

/-- C10 at a freshly created device, the entry `MAIN X` and `v = 1/4`: `hi` is `0`
and `lo` is not. -/
theorem C10_half_axis_witness :
    IsDouble (1 / 4) ∧ (0 : ℚ) ≤ 1 / 4 ∧ (1 / 4 : ℚ) ≤ 1
    ∧ axisHi (1 / 4) + axisLo (1 / 4) ≤ 2.0
    ∧ ((axisHi (1 / 4) = 0 ∧ axisLo (1 / 4) ≠ 0) ∨ (axisHi (1 / 4) ≠ 0 ∧ axisLo (1 / 4) = 0))
    ∧ axisLo (1 / 4) = 1 / 2 := by
  have h := C10_half_axis (PipeDevice.create (fun _ => 0)) "MAIN X".toList (1 / 4)
    isDouble_quarter (by norm_num) (by norm_num)
  refine ⟨isDouble_quarter, by norm_num, by norm_num, h.2.2.2.2.2.1,
    h.2.2.2.2.2.2.1 (by norm_num), ?_⟩
  rw [h.2.2.2.2.1 (by norm_num)]
  norm_num

theorem dmul_half_two : dmul (1 / 2) 2 = 1 := by
  unfold dmul
  have e : (1 / 2 : ℚ) * 2 = 1 := by norm_num
  exact (congrArg toDouble e).trans isDouble_one

/-- The values `hi` and `lo` at the two ends of `[0,1]`. -/
theorem axis_ends : axisHi 0 = 0 ∧ axisLo 0 = 1 ∧ axisHi 1 = 1 ∧ axisLo 1 = 0 := by
  have d1 : dsub 0 (1 / 2) ≤ 0 := dsub_nonpos (by norm_num)
  have d2 : dsub (1 / 2) 0 = 1 / 2 := by
    unfold dsub
    have e : (1 / 2 : ℚ) - 0 = 1 / 2 := by norm_num
    exact (congrArg toDouble e).trans isDouble_half
  have d3 : dsub 1 (1 / 2) = 1 / 2 := by
    have := dsub_one_half
    rwa [one_lit, half_lit] at this
  have m1 : min (1 / 2 : ℚ) 0 = 0 := by norm_num
  have m2 : min (1 / 2 : ℚ) 1 = 1 / 2 := by norm_num
  have m3 : max (0 : ℚ) (1 / 2) = 1 / 2 := by norm_num
  simp only [axisHi, axisLo, zero_lit, two_lit, half_lit]
  refine ⟨?_, ?_, ?_, ?_⟩
  · rw [max_eq_left d1]; exact dmul_zero_left _
  · rw [m1, d2]; exact dmul_half_two
  · rw [d3, m3]; exact dmul_half_two
  · rw [m2, dsub_self]; exact dmul_zero_left _

/-! ## Press and release, unknown and malformed lines -/

theorem getState_setState (m : InputMap) (key : Str) (v : ℚ) (h : key ∈ keys m) :
    getState (setState m key v) key = some v := by
  induction m with
  | nil => simp [keys] at h
  | cons e rest ih =>
    obtain ⟨k, s⟩ := e
    by_cases hk : k = key
    · simp [setState, getState, hk]
    · have hr : key ∈ keys rest := by
        simp only [keys, List.map_cons, List.mem_cons] at h
        rcases h with h | h
        · exact absurd h.symm hk
        · exact h
      simp [setState, getState, hk, ih hr]

theorem or_and_not_mask (b m : Nat) (hm : m < 256) :
    (b ||| m) &&& (0xFF ^^^ m) = b &&& (0xFF ^^^ m) := by
  apply Nat.eq_of_testBit_eq
  intro j
  have e3 : (0xFF : Nat) = 2 ^ 8 - 1 := by norm_num
  rw [e3]
  simp only [Nat.testBit_and, Nat.testBit_or, Nat.testBit_xor, Nat.testBit_two_pow_sub_one]
  by_cases hj : j < 8
  · cases b.testBit j <;> cases m.testBit j <;> simp [hj]
  · have : m.testBit j = false := by
      apply Nat.testBit_lt_two_pow
      calc m < 2 ^ 8 := by simpa using hm
        _ ≤ 2 ^ j := Nat.pow_le_pow_right (by norm_num) (by omega)
    simp [hj, this]

theorem and_not_mask_of_clear (b m : Nat) (hb : b < 256) (h : b &&& m = 0) :
    b &&& (0xFF ^^^ m) = b := by
  apply Nat.eq_of_testBit_eq
  intro j
  rw [and_not_testBit b m j hb]
  have hj := congrArg (fun n => Nat.testBit n j) h
  simp only [Nat.testBit_and, Nat.zero_testBit] at hj
  cases hb1 : b.testBit j <;> cases hm1 : m.testBit j <;> simp_all

theorem SetButtonState_fields (d : PipeDevice) (button press : Str) :
    (SetButtonState d button press).m_buttons = d.m_buttons
    ∧ (SetButtonState d button press).m_axes = d.m_axes
    ∧ (SetButtonState d button press).m_buf = d.m_buf := by
  unfold SetButtonState
  simp only []
  split <;> exact ⟨rfl, rfl, rfl⟩

theorem PipeDevice.eq_of_fields (a b : PipeDevice) (h1 : a.padBuf = b.padBuf)
    (h2 : a.m_buttons = b.m_buttons) (h3 : a.m_axes = b.m_axes) (h4 : a.m_buf = b.m_buf) :
    a = b := by
  cases a; cases b
  simp only at h1 h2 h3 h4
  subst h1 h2 h3 h4
  rfl

/-- The state reached by `PRESS <tok>` followed by `RELEASE <tok>`. -/
theorem press_then_release (d : PipeDevice) (tok : Str) (h : ' ' ∉ tok)
    (hd : ∀ i, d.padBuf i < 256) :
    (ParseCommand (ParseCommand d ("PRESS ".toList ++ tok)).1 ("RELEASE ".toList ++ tok)).1
      = { d with
          padBuf := Function.update d.padBuf (buttonMask tok).2
            (d.padBuf (buttonMask tok).2 &&& (0xFF ^^^ (buttonMask tok).1))
          m_buttons := setState (setState d.m_buttons tok 1) tok 0 } := by
  have hp := press_padBuf d tok h hd
  have hd1 : ∀ i, (ParseCommand d ("PRESS ".toList ++ tok)).1.padBuf i < 256 := by
    intro i
    rw [hp]
    by_cases hi : i = (buttonMask tok).2
    · subst hi
      rw [Function.update_same]
      exact or_mask_lt _ _ (hd _) (buttonMask_lt tok)
    · rw [Function.update_noteq hi]
      exact hd i
  have hr := release_padBuf _ tok h hd1
  rw [hp, Function.update_same, Function.update_idem,
    or_and_not_mask _ _ (buttonMask_lt tok)] at hr
  apply PipeDevice.eq_of_fields
  · exact hr
  · rw [parse_release _ tok h, parse_press d tok h]
  · rw [parse_release _ tok h, parse_press d tok h]
    show (SetButtonState _ tok "RELEASE".toList).m_axes = d.m_axes
    rw [(SetButtonState_fields _ _ _).2.1]
    exact (SetButtonState_fields d tok "PRESS".toList).2.1
  · rw [parse_release _ tok h, parse_press d tok h]
    show (SetButtonState _ tok "RELEASE".toList).m_buf = d.m_buf
    rw [(SetButtonState_fields _ _ _).2.2]
    exact (SetButtonState_fields d tok "PRESS".toList).2.2

/-- C7 (as amended): for every device with `u8` report bytes and the constructor's
buttons, and each of the twelve buttons, `PRESS` followed by `RELEASE` leaves the
button's bit cleared in its byte and every other bit of the buffer unchanged, and
leaves the button's logical input at `0`; the buffer is the one before the
`PRESS` when the bit was clear then. -/
theorem C7_press_then_release (d : PipeDevice) (hd : ∀ i, d.padBuf i < 256)
    (hb : ButtonsRegistered d) :
    ∀ e ∈ ([("A".toList, 0, 0x01), ("B".toList, 0, 0x02), ("X".toList, 0, 0x04),
            ("Y".toList, 0, 0x08), ("START".toList, 0, 0x10), ("D_LEFT".toList, 1, 0x01),
            ("D_RIGHT".toList, 1, 0x02), ("D_DOWN".toList, 1, 0x04),
            ("D_UP".toList, 1, 0x08), ("Z".toList, 1, 0x10), ("R".toList, 1, 0x20),
            ("L".toList, 1, 0x40)] : List (Str × Fin 8 × Nat)),
      (ParseCommand (ParseCommand d ("PRESS ".toList ++ e.1)).1
          ("RELEASE ".toList ++ e.1)).1.padBuf
        = Function.update d.padBuf e.2.1 (d.padBuf e.2.1 &&& (0xFF ^^^ e.2.2))
      ∧ (∀ j, (d.padBuf e.2.1 &&& (0xFF ^^^ e.2.2)).testBit j
          = ((d.padBuf e.2.1).testBit j && !(e.2.2).testBit j))
      ∧ (d.padBuf e.2.1 &&& e.2.2 = 0 →
          (ParseCommand (ParseCommand d ("PRESS ".toList ++ e.1)).1
            ("RELEASE ".toList ++ e.1)).1.padBuf = d.padBuf)
      ∧ getState (ParseCommand (ParseCommand d ("PRESS ".toList ++ e.1)).1
          ("RELEASE ".toList ++ e.1)).1.m_buttons e.1 = some 0 := by
  intro e he
  have hkeys : keys d.m_buttons = s_button_tokens := by
    unfold ButtonsRegistered at hb
    rw [hb, create_buttons_keys]
  have main : ∀ (tok : Str) (i : Fin 8) (m : Nat), ' ' ∉ tok → buttonMask tok = (m, i) →
      tok ∈ s_button_tokens →
      (ParseCommand (ParseCommand d ("PRESS ".toList ++ tok)).1
          ("RELEASE ".toList ++ tok)).1.padBuf
        = Function.update d.padBuf i (d.padBuf i &&& (0xFF ^^^ m))
      ∧ (∀ j, (d.padBuf i &&& (0xFF ^^^ m)).testBit j
          = ((d.padBuf i).testBit j && !m.testBit j))
      ∧ (d.padBuf i &&& m = 0 →
          (ParseCommand (ParseCommand d ("PRESS ".toList ++ tok)).1
            ("RELEASE ".toList ++ tok)).1.padBuf = d.padBuf)
      ∧ getState (ParseCommand (ParseCommand d ("PRESS ".toList ++ tok)).1
          ("RELEASE ".toList ++ tok)).1.m_buttons tok = some 0 := by
    intro tok i m hs hm hmem
    rw [press_then_release d tok hs hd, hm]
    refine ⟨rfl, fun j => and_not_testBit _ _ j (hd _), ?_, ?_⟩
    · intro hc
      show Function.update d.padBuf i (d.padBuf i &&& (0xFF ^^^ m)) = d.padBuf
      rw [and_not_mask_of_clear _ _ (hd _) hc, Function.update_eq_self]
    · show getState (setState (setState d.m_buttons tok 1) tok 0) tok = some 0
      apply getState_setState
      rw [keys_setState, hkeys]
      exact hmem
  simp only [List.mem_cons, List.mem_singleton, List.not_mem_nil, or_false] at he
  rcases he with rfl | rfl | rfl | rfl | rfl | rfl | rfl | rfl | rfl | rfl | rfl | rfl <;>
    exact main _ _ _ (by decide) rfl (by decide)

/-- C7 at a freshly created device with a zeroed buffer and the button `Z`. -/
theorem C7_press_then_release_witness :
    getState (ParseCommand (ParseCommand (PipeDevice.create (fun _ => 0))
        ("PRESS ".toList ++ "Z".toList)).1 ("RELEASE ".toList ++ "Z".toList)).1.m_buttons
      "Z".toList = some 0 :=
  (C7_press_then_release (PipeDevice.create (fun _ => 0))
    (fun i => by simp [create_padBuf]) (create_buttonsRegistered _)
    ("Z".toList, 1, 0x10) (by simp)).2.2.2

/-- C7 as stated fails: on the device reached from a fresh one by `PRESS A`, bit 0
of byte 0 is set, and after a further `PRESS A` and `RELEASE A` it is clear. -/
theorem C7_press_then_release_counterexample :
    ((ParseCommand (PipeDevice.create (fun _ => 0)) "PRESS A".toList).1.padBuf 0).testBit 0
      = true
    ∧ ((ParseCommand (ParseCommand
          (ParseCommand (PipeDevice.create (fun _ => 0)) "PRESS A".toList).1
          "PRESS A".toList).1 "RELEASE A".toList).1.padBuf 0).testBit 0 = false := by
  decide

/-- C8: on a device with `u8` report bytes and the constructor's buttons, for every
token that is none of the twelve button names, `PRESS <token>` and
`RELEASE <token>` leave the whole device unchanged and return false. -/
theorem C8_unknown_button (d : PipeDevice) (hd : ∀ i, d.padBuf i < 256)
    (hb : ButtonsRegistered d) (tok : Str) (hs : ' ' ∉ tok)
    (hu : tok ∉ ["A".toList, "B".toList, "X".toList, "Y".toList, "Z".toList,
      "START".toList, "L".toList, "R".toList, "D_UP".toList, "D_DOWN".toList,
      "D_LEFT".toList, "D_RIGHT".toList]) :
    ParseCommand d ("PRESS ".toList ++ tok) = (d, false)
    ∧ ParseCommand d ("RELEASE ".toList ++ tok) = (d, false)
    ∧ d.padBuf 0 &&& (0xFFFFFFFF ^^^ 0x00) = d.padBuf 0 := by
  have hkeys : keys d.m_buttons = s_button_tokens := by
    unfold ButtonsRegistered at hb
    rw [hb, create_buttons_keys]
  have hu2 : tok ∉ s_button_tokens := hu
  have hm := buttonMask_unknown tok hu2
  have hnk : tok ∉ keys d.m_buttons := by rw [hkeys]; exact hu2
  have h0 : d.padBuf 0 % 256 = d.padBuf 0 := Nat.mod_eq_of_lt (hd 0)
  have hz : d.padBuf 0 &&& (0xFFFFFFFF ^^^ 0x00) = d.padBuf 0 := by
    have := and_not_mask (d.padBuf 0) 0 (hd 0)
    have e : d.padBuf 0 &&& (0xFF ^^^ 0) = d.padBuf 0 := by
      apply and_not_mask_of_clear _ _ (hd 0)
      simp
    rw [e] at this
    have hle : d.padBuf 0 &&& (0xFFFFFFFF ^^^ 0x00) ≤ d.padBuf 0 := Nat.and_le_left
    rw [Nat.mod_eq_of_lt (lt_of_le_of_lt hle (hd 0))] at this
    exact this
  refine ⟨?_, ?_, hz⟩
  · rw [parse_press d tok hs, setButton_press, hm, setState_not_mem _ _ _ hnk]
    simp [storeByte, h0]
  · rw [parse_release d tok hs, setButton_release, hm, setState_not_mem _ _ _ hnk]
    simp only [storeByte]
    rw [hz, h0, Function.update_eq_self]

/-- C8 at a freshly created device with a zeroed buffer and the token `SELECT`. -/
theorem C8_unknown_button_witness :
    ParseCommand (PipeDevice.create (fun _ => 0)) ("RELEASE ".toList ++ "SELECT".toList)
      = (PipeDevice.create (fun _ => 0), false) :=
  (C8_unknown_button (PipeDevice.create (fun _ => 0)) (fun i => by simp [create_padBuf])
    (create_buttonsRegistered _) "SELECT".toList (by decide) (by decide)).2.1

/-- C9: every line other than `FLUSH` whose token count is outside `[2,4]`, or whose
first token is none of `PRESS`, `RELEASE`, `SET`, or which is a two-token `SET`,
leaves the whole device unchanged, and `ParseCommand` returns false. -/
theorem C9_malformed_noop (d : PipeDevice) (line : Str) (hne : line ≠ "FLUSH".toList)
    (h : (SplitString line ' ').length < 2 ∨ 4 < (SplitString line ' ').length
      ∨ (SplitString line ' ').getD 0 [] ∉ ["PRESS".toList, "RELEASE".toList, "SET".toList]
      ∨ ((SplitString line ' ').length = 2
          ∧ (SplitString line ' ').getD 0 [] = "SET".toList)) :
    ParseCommand d line = (d, false) := by
  unfold ParseCommand
  rw [if_neg hne]
  simp only []
  rcases h with h | h | h | ⟨h1, h2⟩
  · rw [if_pos (Or.inl h)]
  · rw [if_pos (Or.inr h)]
  · simp only [List.mem_cons, List.mem_singleton, List.not_mem_nil, or_false, not_or] at h
    obtain ⟨a, b, c⟩ := h
    split_ifs <;> first | rfl | (exfalso; tauto)
  · have hp : ¬ ((SplitString line ' ').getD 0 [] = "PRESS".toList
        ∨ (SplitString line ' ').getD 0 [] = "RELEASE".toList) := by
      rw [h2]; decide
    rw [if_neg (by omega), if_neg hp, if_pos h2, if_neg (by omega), if_neg (by omega)]

/-- C9 at a freshly created device and the line `JUMP HIGH`. -/
theorem C9_malformed_noop_witness :
    ParseCommand (PipeDevice.create (fun _ => 0)) "JUMP HIGH".toList
      = (PipeDevice.create (fun _ => 0), false) :=
  C9_malformed_noop (PipeDevice.create (fun _ => 0)) "JUMP HIGH".toList (by decide)
    (Or.inr (Or.inr (Or.inl (by decide))))

/-! ## The stick encoder: range and order -/

/-- The difference `value - 0.5` of `FloatToU8` lies in `[-0.5, 0.5]` for a value
in `[0,1]`. -/
theorem dsub_half_range (c : ℚ) (h0 : 0 ≤ c) (h1 : c ≤ 1) :
    -(1 / 2) ≤ dsub c (1 / 2) ∧ dsub c (1 / 2) ≤ 1 / 2 :=
  ⟨le_toDouble (isDouble_neg isDouble_half) (by linarith),
    toDouble_le isDouble_half (by linarith)⟩

/-- For a clamped value the floor taken in `FloatToU8` lies in `[-127, 127]`. -/
theorem stick_floor_range (c : ℚ) (h0 : 0 ≤ c) (h1 : c ≤ 1) :
    -127 ≤ ⌊dmul (dsub c 0.5) 254⌋ ∧ ⌊dmul (dsub c 0.5) 254⌋ ≤ 127 := by
  rw [half_lit]
  obtain ⟨a, b⟩ := dsub_half_range c h0 h1
  have i1 : IsDouble (((-127 : Int)) : ℚ) := isDouble_int _ (by norm_num)
  have i2 : IsDouble (((127 : Int)) : ℚ) := isDouble_int _ (by norm_num)
  have lo : (((-127 : Int)) : ℚ) ≤ dmul (dsub c (1 / 2)) 254 :=
    le_toDouble i1 (by push_cast; linarith)
  have hi : dmul (dsub c (1 / 2)) 254 ≤ (((127 : Int)) : ℚ) :=
    toDouble_le i2 (by push_cast; linarith)
  constructor
  · exact Int.le_floor.mpr lo
  · have h : (⌊dmul (dsub c (1 / 2)) 254⌋ : ℚ) ≤ ((127 : Int) : ℚ) :=
      le_trans (Int.floor_le _) hi
    exact_mod_cast h

theorem toS8_of_range (z : Int) (h0 : -128 ≤ z) (h1 : z ≤ 127) : toS8 z = z := by
  unfold toS8
  omega

theorem clamp_range (v : ℚ) : 0 ≤ max 0 (min v 1) ∧ max 0 (min v 1) ≤ 1 := by
  constructor
  · exact le_max_left _ _
  · exact max_le (by norm_num) (min_le_right _ _)

/-- The byte returned by `FloatToU8` for a value in `[0,1]`, by the sign of the
floor. -/
theorem FloatToU8_of_range (c : ℚ) (h0 : 0 ≤ c) (h1 : c ≤ 1) :
    ((FloatToU8 c : Nat) : Int) = ⌊dmul (dsub c 0.5) 254⌋ % 256
    ∧ (0 ≤ ⌊dmul (dsub c 0.5) 254⌋ →
        ((FloatToU8 c : Nat) : Int) = ⌊dmul (dsub c 0.5) 254⌋)
    ∧ (⌊dmul (dsub c 0.5) 254⌋ < 0 →
        ((FloatToU8 c : Nat) : Int) = ⌊dmul (dsub c 0.5) 254⌋ + 256) := by
  obtain ⟨ha, hb⟩ := stick_floor_range c h0 h1
  simp only [FloatToU8, reinterpretU8, toS8_of_range _ (by omega) hb]
  refine ⟨?_, ?_, ?_⟩
  · omega
  · intro h; omega
  · intro h; omega

/-- C20: where `SetAxis` calls `FloatToU8`, on the value clamped to `[0,1]`, the
floor `floor((value - 0.5) * 254)` that the code takes, of the difference and the
product computed in `double`, lies in `[-127, 127]`, so the conversion to `s8`
keeps it, and the byte returned is that integer modulo `256`; this is the byte
`SetAxis` stores for the four stick entries. -/
theorem C20_stick_no_overflow (d : PipeDevice) (value : ℚ) :
    -127 ≤ ⌊dmul (dsub (max 0 (min value 1)) 0.5) 254⌋
    ∧ ⌊dmul (dsub (max 0 (min value 1)) 0.5) 254⌋ ≤ 127
    ∧ toS8 ⌊dmul (dsub (max 0 (min value 1)) 0.5) 254⌋
        = ⌊dmul (dsub (max 0 (min value 1)) 0.5) 254⌋
    ∧ ((FloatToU8 (max 0 (min value 1)) : Nat) : Int)
        = ⌊dmul (dsub (max 0 (min value 1)) 0.5) 254⌋ % 256
    ∧ (SetAxis d "MAIN X".toList value).padBuf 2 = FloatToU8 (max 0 (min value 1))
    ∧ (SetAxis d "MAIN Y".toList value).padBuf 3 = FloatToU8 (max 0 (min value 1))
    ∧ (SetAxis d "C X".toList value).padBuf 4 = FloatToU8 (max 0 (min value 1))
    ∧ (SetAxis d "C Y".toList value).padBuf 5 = FloatToU8 (max 0 (min value 1)) := by
  obtain ⟨c0, c1⟩ := clamp_range value
  obtain ⟨ha, hb⟩ := stick_floor_range _ c0 c1
  refine ⟨ha, hb, toS8_of_range _ (by omega) hb, (FloatToU8_of_range _ c0 c1).1, ?_, ?_, ?_, ?_⟩
  · rw [SetAxis_padBuf, axisStores_MAIN_X]; simp
  · rw [SetAxis_padBuf, axisStores_MAIN_Y]; simp
  · rw [SetAxis_padBuf, axisStores_C_X]; simp
  · rw [SetAxis_padBuf, axisStores_C_Y]; simp

/-- The decimal text `0.003937007874015748` denotes the binary64 value
`567382630219905 / 2 ^ 57`. -/
theorem StringToDouble_stick_text :
    StringToDouble "0.003937007874015748".toList = 567382630219905 / 2 ^ 57 := by
  have h : StringToDouble "0.003937007874015748".toList
      = toDouble (3937007874015748 / 10 ^ 18) := by
    simp [StringToDouble, readSign, readDigits, isSpaceChar, Char.isDigit]
  rw [h, toDouble_eq_of_near _ (-60) (567382630219905 * 8) (by norm_num) (by norm_num)
    (by rw [abs_of_pos (by norm_num)]; norm_num) (by rw [abs_of_pos (by norm_num)]; norm_num)
    (by norm_num) (by norm_num)]
  norm_num

theorem dsub_stick_example :
    dsub (567382630219905 / 2 ^ 57) 0.5 = -(558517276622719 / 2 ^ 50) := by
  unfold dsub
  rw [toDouble_eq_of_near _ (-54) (-(558517276622719 * 16)) (by norm_num) (by norm_num)
    (by rw [abs_of_neg (by norm_num)]; norm_num) (by rw [abs_of_neg (by norm_num)]; norm_num)
    (by norm_num) (by norm_num)]
  norm_num

theorem dmul_stick_example : dmul (-(558517276622719 / 2 ^ 50)) 254 = -126 := by
  unfold dmul
  rw [toDouble_eq_of_near _ (-46) (-(126 * 2 ^ 46)) (by norm_num) (by norm_num)
    (by rw [abs_of_neg (by norm_num)]; norm_num) (by rw [abs_of_neg (by norm_num)]; norm_num)
    (by norm_num) (by norm_num)]
  norm_num

/-- The rounding of the two operations of `FloatToU8` shows at the value of the text
`0.003937007874015748`: the floor taken by the code is `-126` and the byte `130`,
where the floor of the exact `(value - 0.5) * 254` is `-127`. -/
theorem FloatToU8_rounding_example :
    ⌊dmul (dsub (567382630219905 / 2 ^ 57) 0.5) 254⌋ = -126
    ∧ FloatToU8 (567382630219905 / 2 ^ 57) = 130
    ∧ ⌊((567382630219905 / 2 ^ 57 : ℚ) - 0.5) * 254⌋ = -127 := by
  have h : ⌊dmul (dsub (567382630219905 / 2 ^ 57) 0.5) 254⌋ = -126 := by
    rw [dsub_stick_example, dmul_stick_example]
    norm_num
  refine ⟨h, ?_, ?_⟩
  · simp only [FloatToU8, h]
    decide
  · rw [Int.floor_eq_iff]
    norm_num

/-- The sign of the floor taken in `FloatToU8`. -/
theorem stick_floor_sign (c : ℚ) :
    (0.5 ≤ c → 0 ≤ ⌊dmul (dsub c 0.5) 254⌋)
    ∧ (IsDouble c → c < 0.5 → ⌊dmul (dsub c 0.5) 254⌋ < 0) := by
  rw [half_lit]
  constructor
  · intro h
    exact Int.floor_nonneg.mpr (dmul_nonneg (dsub_nonneg h) (by norm_num))
  · intro hc h
    apply Int.floor_lt.mpr
    push_cast
    exact dmul_neg (isDouble_toDouble _) (dsub_neg hc isDouble_half h) (by norm_num)

/-- The floor taken in `FloatToU8` does not decrease when the value grows. -/
theorem stick_floor_mono (a b : ℚ) (hab : a ≤ b) :
    ⌊dmul (dsub a 0.5) 254⌋ ≤ ⌊dmul (dsub b 0.5) 254⌋ := by
  have h1 : dsub a 0.5 ≤ dsub b 0.5 := toDouble_mono (by linarith)
  exact Int.floor_mono (toDouble_mono (by linarith))

/-- C11 (as amended): for `double`s `a ≤ b` in `[0,1]` the signed value whose bit
pattern `FloatToU8` returns does not decrease; the unsigned bytes do not
decrease when `a` and `b` lie on the same side of the centre (`0.5 ≤ a`, or
`b < 0.5`), and strictly decrease across it (`a < 0.5 ≤ b`). -/
theorem C11_stick_order (a b : ℚ) (ha : IsDouble a) (hb : IsDouble b)
    (h0 : 0 ≤ a) (hab : a ≤ b) (h1 : b ≤ 1) :
    toS8 ⌊dmul (dsub a 0.5) 254⌋ ≤ toS8 ⌊dmul (dsub b 0.5) 254⌋
    ∧ FloatToU8 a = reinterpretU8 (toS8 ⌊dmul (dsub a 0.5) 254⌋)
    ∧ FloatToU8 b = reinterpretU8 (toS8 ⌊dmul (dsub b 0.5) 254⌋)
    ∧ (0.5 ≤ a → FloatToU8 a ≤ FloatToU8 b)
    ∧ (b < 0.5 → FloatToU8 a ≤ FloatToU8 b)
    ∧ (a < 0.5 → 0.5 ≤ b → FloatToU8 b < FloatToU8 a) := by
  have ha1 : a ≤ 1 := le_trans hab h1
  have hb0 : 0 ≤ b := le_trans h0 hab
  obtain ⟨a0, a1⟩ := stick_floor_range a h0 ha1
  obtain ⟨b0, b1⟩ := stick_floor_range b hb0 h1
  have hm := stick_floor_mono a b hab
  obtain ⟨_, fa1, fa2⟩ := FloatToU8_of_range a h0 ha1
  obtain ⟨_, fb1, fb2⟩ := FloatToU8_of_range b hb0 h1
  refine ⟨?_, rfl, rfl, ?_, ?_, ?_⟩
  · rw [toS8_of_range _ (by omega) a1, toS8_of_range _ (by omega) b1]
    exact hm
  · intro h
    have sa := (stick_floor_sign a).1 h
    have sb := (stick_floor_sign b).1 (le_trans h hab)
    have := fa1 sa
    have := fb1 sb
    omega
  · intro h
    have sb := (stick_floor_sign b).2 hb h
    have sa := (stick_floor_sign a).2 ha (lt_of_le_of_lt hab h)
    have := fa2 sa
    have := fb2 sb
    omega
  · intro h h2
    have sa := (stick_floor_sign a).2 ha h
    have sb := (stick_floor_sign b).1 h2
    have := fa2 sa
    have := fb1 sb
    omega

theorem isDouble_three_quarters : IsDouble (3 / 4) := by
  have := toDouble_dyadic 3 2 (by norm_num) (by norm_num)
  have e : ((3 : Int) : ℚ) / 2 ^ 2 = 3 / 4 := by norm_num
  rwa [e] at this

/-- C11 at `a = 1/4`, `b = 3/4`: the signed values are in order, the bytes are not. -/
theorem C11_stick_order_witness :
    IsDouble (1 / 4) ∧ IsDouble (3 / 4)
    ∧ toS8 ⌊dmul (dsub (1 / 4) 0.5) 254⌋ ≤ toS8 ⌊dmul (dsub (3 / 4) 0.5) 254⌋
    ∧ FloatToU8 (3 / 4) < FloatToU8 (1 / 4) := by
  have h := C11_stick_order (1 / 4) (3 / 4) isDouble_quarter isDouble_three_quarters
    (by norm_num) (by norm_num) (by norm_num)
  exact ⟨isDouble_quarter, isDouble_three_quarters, h.1,
    h.2.2.2.2.2 (by norm_num) (by norm_num)⟩

theorem FloatToU8_half : FloatToU8 0.5 = 0 := by
  have h : ⌊dmul (dsub 0.5 0.5) 254⌋ = 0 := by
    rw [dsub_self, dmul_zero_left, Int.floor_zero]
  simp only [FloatToU8, h]
  decide

/-- C11 as stated fails: `0.0 ≤ 0.5` lie in `[0,1]`, yet `FloatToU8(0.0) = 0x81`
exceeds `FloatToU8(0.5) = 0x00`. -/
theorem C11_stick_order_counterexample :
    (0 : ℚ) ≤ 0.0 ∧ (0.0 : ℚ) ≤ 0.5 ∧ (0.5 : ℚ) ≤ 1
    ∧ ¬ (FloatToU8 0.0 ≤ FloatToU8 0.5) := by
  refine ⟨by norm_num, by norm_num, by norm_num, ?_⟩
  rw [FloatToU8_zero.2, FloatToU8_half]
  decide

/-! ## The neutral `SET` -/

theorem StringToDouble_half : StringToDouble "0.5".toList = 1 / 2 := by
  have h : StringToDouble "0.5".toList = toDouble (5 / 10) := by
    simp [StringToDouble, readSign, readDigits, isSpaceChar, Char.isDigit]
  have e : (5 / 10 : ℚ) = 1 / 2 := by norm_num
  exact h.trans ((congrArg toDouble e).trans isDouble_half)

theorem axis_half : axisHi (1 / 2) = 0 ∧ axisLo (1 / 2) = 0 := by
  simp only [axisHi, axisLo, zero_lit, two_lit, half_lit, dsub_self, min_self, max_self,
    dmul_zero_left, and_self]

theorem setState_idem (m : InputMap) (key : Str) (v w : ℚ) :
    setState (setState m key v) key w = setState m key w := by
  induction m with
  | nil => rfl
  | cons e rest ih =>
    obtain ⟨k, s⟩ := e
    by_cases hk : k = key
    · simp [setState, hk]
    · simp [setState, hk, ih]

theorem setState_comm (m : InputMap) (k1 k2 : Str) (v1 v2 : ℚ) (h : k1 ≠ k2) :
    setState (setState m k1 v1) k2 v2 = setState (setState m k2 v2) k1 v1 := by
  induction m with
  | nil => rfl
  | cons e rest ih =>
    obtain ⟨k, s⟩ := e
    by_cases h1 : k = k1
    · have h2 : k ≠ k2 := fun e => h (h1.symm.trans e)
      have h3 : k1 ≠ k2 := h
      subst h1
      simp [setState, h2]
    · by_cases h2 : k = k2
      · subst h2
        simp [setState, h1]
      · simp [setState, h1, h2, ih]

/-- The state after the line `SET MAIN 0.5 0.5`. -/
theorem parse_set_main_half (d : PipeDevice) :
    (ParseCommand d "SET MAIN 0.5 0.5".toList).1
      = { d with
          padBuf := Function.update (Function.update d.padBuf 2 0) 3 0
          m_axes := setState (setState (setState (setState d.m_axes
            "MAIN X +".toList 0) "MAIN X -".toList 0) "MAIN Y +".toList 0)
            "MAIN Y -".toList 0 } := by
  have e : "SET MAIN 0.5 0.5".toList
      = "SET ".toList ++ "MAIN".toList ++ " ".toList ++ "0.5".toList ++ " ".toList
          ++ "0.5".toList := by decide
  have hc : max (0 : ℚ) (min (1 / 2) 1) = 1 / 2 := by norm_num
  have hf : FloatToU8 (1 / 2) = 0 := by
    have := FloatToU8_half
    rwa [half_lit] at this
  rw [e, parse_set4 d _ _ _ (by decide) (by decide) (by decide), StringToDouble_half]
  apply PipeDevice.eq_of_fields
  · show (SetAxis (SetAxis d "MAIN X".toList _) "MAIN Y".toList _).padBuf = _
    rw [SetAxis_padBuf, axisStores_MAIN_Y, SetAxis_padBuf, axisStores_MAIN_X, hc, hf]
  · rw [SetAxis_m_buttons, SetAxis_m_buttons]
  · show (SetAxis (SetAxis d "MAIN X".toList _) "MAIN Y".toList _).m_axes = _
    rw [SetAxis_m_axes, SetAxis_m_axes, hc, axis_half.1, axis_half.2]
    rfl
  · rw [SetAxis_m_buf, SetAxis_m_buf]

theorem update_23_idem (p : Fin 8 → Nat) :
    Function.update (Function.update (Function.update (Function.update p 2 0) 3 0) 2 0) 3 0
      = Function.update (Function.update p 2 0) 3 0 := by
  funext i
  by_cases h3 : i = 3
  · subst h3; simp
  · by_cases h2 : i = 2
    · subst h2; simp [Function.update]
    · simp [Function.update, h2, h3]

theorem set_main_axes_idem (m : InputMap) :
    setState (setState (setState (setState
      (setState (setState (setState (setState m
        "MAIN X +".toList 0) "MAIN X -".toList 0) "MAIN Y +".toList 0) "MAIN Y -".toList 0)
      "MAIN X +".toList 0) "MAIN X -".toList 0) "MAIN Y +".toList 0) "MAIN Y -".toList 0
    = setState (setState (setState (setState m
        "MAIN X +".toList 0) "MAIN X -".toList 0) "MAIN Y +".toList 0) "MAIN Y -".toList 0 := by
  have c12 := fun x => setState_comm x "MAIN X -".toList "MAIN X +".toList 0 0 (by decide)
  have c13 := fun x => setState_comm x "MAIN Y +".toList "MAIN X +".toList 0 0 (by decide)
  have c14 := fun x => setState_comm x "MAIN Y -".toList "MAIN X +".toList 0 0 (by decide)
  have c23 := fun x => setState_comm x "MAIN Y +".toList "MAIN X -".toList 0 0 (by decide)
  have c24 := fun x => setState_comm x "MAIN Y -".toList "MAIN X -".toList 0 0 (by decide)
  have c34 := fun x => setState_comm x "MAIN Y -".toList "MAIN Y +".toList 0 0 (by decide)
  rw [c14, c13, c12, setState_idem, c24, c23]
  rw [setState_idem, c34, setState_idem, setState_idem]

theorem iterate_of_idem {α : Type} (f : α → α) (h : ∀ x, f (f x) = f x) (x : α) :
    ∀ n : Nat, 1 ≤ n → Nat.iterate f n x = f x := by
  intro n hn
  induction n with
  | zero => omega
  | succ k ih =>
    cases k with
    | zero => rfl
    | succ j =>
      rw [Function.iterate_succ_apply', ih (by omega), h]

theorem getState_setState_ne (m : InputMap) (key other : Str) (v : ℚ) (h : key ≠ other) :
    getState (setState m key v) other = getState m other := by
  induction m with
  | nil => rfl
  | cons e rest ih =>
    obtain ⟨k, s⟩ := e
    by_cases hk : k = key
    · have : k ≠ other := fun e => h (hk.symm.trans e)
      simp [setState, getState, hk, h]
    · by_cases ho : k = other
      · subst ho
        simp [setState, getState, hk]
      · simp [setState, getState, hk, ho, ih]

/-- C12: from every device with the constructor's half-axes and for every `n ≥ 1`,
applying the line `SET MAIN 0.5 0.5` `n` times gives the same device as applying
it once, with bytes 2 and 3 of the report buffer at `0x00`, the stick encoding
of the centre, and the half-axes `MAIN X +`, `MAIN X -`, `MAIN Y +`, `MAIN Y -`
all at `0`. -/
theorem C12_neutral_set_idempotent (d : PipeDevice) (hk : AxesRegistered d) (n : Nat)
    (hn : 1 ≤ n) :
    Nat.iterate (fun x => (ParseCommand x "SET MAIN 0.5 0.5".toList).1) n d
      = (ParseCommand d "SET MAIN 0.5 0.5".toList).1
    ∧ FloatToU8 0.5 = 0x00
    ∧ (Nat.iterate (fun x => (ParseCommand x "SET MAIN 0.5 0.5".toList).1) n d).padBuf 2
        = 0x00
    ∧ (Nat.iterate (fun x => (ParseCommand x "SET MAIN 0.5 0.5".toList).1) n d).padBuf 3
        = 0x00
    ∧ ∀ key ∈ ["MAIN X +".toList, "MAIN X -".toList, "MAIN Y +".toList, "MAIN Y -".toList],
        getState (Nat.iterate (fun x => (ParseCommand x "SET MAIN 0.5 0.5".toList).1) n
          d).m_axes key = some 0 := by
  have idem : ∀ x : PipeDevice,
      (ParseCommand (ParseCommand x "SET MAIN 0.5 0.5".toList).1 "SET MAIN 0.5 0.5".toList).1
        = (ParseCommand x "SET MAIN 0.5 0.5".toList).1 := by
    intro x
    rw [parse_set_main_half (ParseCommand x _).1, parse_set_main_half x]
    simp only [update_23_idem, set_main_axes_idem]
  have hit : Nat.iterate (fun x => (ParseCommand x "SET MAIN 0.5 0.5".toList).1) n d
      = (ParseCommand d "SET MAIN 0.5 0.5".toList).1 :=
    iterate_of_idem (fun x => (ParseCommand x "SET MAIN 0.5 0.5".toList).1) idem d n hn
  have hkeys : keys d.m_axes = _ := hk.trans (create_axes_keys d.padBuf)
  rw [hit]
  refine ⟨rfl, FloatToU8_half, ?_, ?_, ?_⟩
  · rw [parse_set_main_half]
    simp [Function.update]
  · rw [parse_set_main_half]
    simp [Function.update]
  · intro key hkey
    rw [parse_set_main_half]
    show getState (setState (setState (setState (setState d.m_axes
      "MAIN X +".toList 0) "MAIN X -".toList 0) "MAIN Y +".toList 0) "MAIN Y -".toList 0) key
      = some 0
    simp only [List.mem_cons, List.mem_singleton, List.not_mem_nil, or_false] at hkey
    rcases hkey with rfl | rfl | rfl | rfl
    · rw [getState_setState_ne _ _ _ _ (by decide), getState_setState_ne _ _ _ _ (by decide),
        getState_setState_ne _ _ _ _ (by decide)]
      exact getState_setState _ _ _ (by rw [hkeys]; decide)
    · rw [getState_setState_ne _ _ _ _ (by decide), getState_setState_ne _ _ _ _ (by decide)]
      exact getState_setState _ _ _ (by rw [keys_setState, hkeys]; decide)
    · rw [getState_setState_ne _ _ _ _ (by decide)]
      exact getState_setState _ _ _ (by rw [keys_setState, keys_setState, hkeys]; decide)
    · exact getState_setState _ _ _
        (by rw [keys_setState, keys_setState, keys_setState, hkeys]; decide)

/-- C12 at a freshly created device and `n = 3`. -/
theorem C12_neutral_set_idempotent_witness :
    Nat.iterate (fun x => (ParseCommand x "SET MAIN 0.5 0.5".toList).1) 3
        (PipeDevice.create (fun _ => 0))
      = (ParseCommand (PipeDevice.create (fun _ => 0)) "SET MAIN 0.5 0.5".toList).1 :=
  (C12_neutral_set_idempotent (PipeDevice.create (fun _ => 0)) (create_axesRegistered _) 3
    (by decide)).1

/-! ## The constructor -/

theorem create_inputNames (pad : Fin 8 → Nat) :
    inputNames (PipeDevice.create pad)
      = ["Button A".toList, "Button B".toList, "Button X".toList, "Button Y".toList,
         "Button Z".toList, "Button START".toList, "Button L".toList, "Button R".toList,
         "Button D_UP".toList, "Button D_DOWN".toList, "Button D_LEFT".toList,
         "Button D_RIGHT".toList,
         "Axis L +".toList, "Axis L -".toList, "Axis R +".toList, "Axis R -".toList,
         "Axis MAIN X +".toList, "Axis MAIN X -".toList, "Axis MAIN Y +".toList,
         "Axis MAIN Y -".toList, "Axis C X +".toList, "Axis C X -".toList,
         "Axis C Y +".toList, "Axis C Y -".toList] := by
  rw [inputNames, create_buttons_keys, create_axes_keys]
  decide

/-- C17 (as amended): a freshly constructed device has twenty-four logical inputs:
twelve entries in its button map, one per button name, and twelve in its
half-axis map, a `+` and a `-` entry for each of the six axes `L`, `R`, `MAIN X`,
`MAIN Y`, `C X`, `C Y`; no key and no input name occurs twice. -/
theorem C17_registered_inputs (pad : Fin 8 → Nat) :
    (PipeDevice.create pad).m_buttons.length = 12
    ∧ (PipeDevice.create pad).m_axes.length = 12
    ∧ (PipeDevice.create pad).m_buttons.length + (PipeDevice.create pad).m_axes.length = 24
    ∧ keys (PipeDevice.create pad).m_buttons
        = ["A".toList, "B".toList, "X".toList, "Y".toList, "Z".toList, "START".toList,
           "L".toList, "R".toList, "D_UP".toList, "D_DOWN".toList, "D_LEFT".toList,
           "D_RIGHT".toList]
    ∧ keys (PipeDevice.create pad).m_axes
        = ["L +".toList, "L -".toList, "R +".toList, "R -".toList,
           "MAIN X +".toList, "MAIN X -".toList, "MAIN Y +".toList, "MAIN Y -".toList,
           "C X +".toList, "C X -".toList, "C Y +".toList, "C Y -".toList]
    ∧ (keys (PipeDevice.create pad).m_buttons).Nodup
    ∧ (keys (PipeDevice.create pad).m_axes).Nodup
    ∧ (inputNames (PipeDevice.create pad)).length = 24
    ∧ (inputNames (PipeDevice.create pad)).Nodup := by
  have hb : (PipeDevice.create pad).m_buttons.length = 12 := by
    have h := congrArg List.length (create_buttons_keys pad)
    simpa [keys, s_button_tokens] using h
  have ha : (PipeDevice.create pad).m_axes.length = 12 := by
    have h := congrArg List.length (create_axes_keys pad)
    simpa [keys] using h
  refine ⟨hb, ha, by rw [hb, ha], create_buttons_keys pad, create_axes_keys pad, ?_, ?_, ?_, ?_⟩
  · rw [create_buttons_keys]; decide
  · rw [create_axes_keys]; decide
  · rw [create_inputNames]; rfl
  · rw [create_inputNames]; decide

/-- C17 as stated fails: the two maps of a fresh device do not hold sixteen entries
in total. -/
theorem C17_registered_inputs_counterexample :
    ¬ ((PipeDevice.create (fun _ => 0)).m_buttons.length
        + (PipeDevice.create (fun _ => 0)).m_axes.length = 16) := by
  have hb : (PipeDevice.create (fun _ => 0)).m_buttons.length = 12 := by
    have h := congrArg List.length (create_buttons_keys (fun _ => 0))
    simpa [keys, s_button_tokens] using h
  have ha : (PipeDevice.create (fun _ => 0)).m_axes.length = 12 := by
    have h := congrArg List.length (create_axes_keys (fun _ => 0))
    simpa [keys] using h
  rw [hb, ha]
  decide

theorem create_m_axes (pad : Fin 8 → Nat) :
    (PipeDevice.create pad).m_axes
      = [("L +".toList, 0.0), ("L -".toList, 0.0), ("R +".toList, 0.0), ("R -".toList, 0.0),
         ("MAIN X +".toList, 0.5), ("MAIN X -".toList, 0.5), ("MAIN Y +".toList, 0.5),
         ("MAIN Y -".toList, 0.5), ("C X +".toList, 0.5), ("C X -".toList, 0.5),
         ("C Y +".toList, 0.5), ("C Y -".toList, 0.5)] := rfl

theorem create_m_buttons (pad : Fin 8 → Nat) :
    (PipeDevice.create pad).m_buttons
      = [("A".toList, 0), ("B".toList, 0), ("X".toList, 0), ("Y".toList, 0),
         ("Z".toList, 0), ("START".toList, 0), ("L".toList, 0), ("R".toList, 0),
         ("D_UP".toList, 0), ("D_DOWN".toList, 0), ("D_LEFT".toList, 0),
         ("D_RIGHT".toList, 0)] := rfl

/-- C18, the code at a fresh device: `AddAxis` leaves every stick half-axis at
`0.5`, while `SetAxis` derives `0` and `0` for the neutral position `0.5`, so the
line `SET MAIN 0.5 0.5` changes the half-axes of `MAIN` from `0.5` to `0`. -/
theorem C18_fresh_stick_half_axes (pad : Fin 8 → Nat) :
    (∀ key ∈ ["MAIN X +".toList, "MAIN X -".toList, "MAIN Y +".toList, "MAIN Y -".toList,
        "C X +".toList, "C X -".toList, "C Y +".toList, "C Y -".toList],
      getState (PipeDevice.create pad).m_axes key = some 0.5)
    ∧ axisHi 0.5 = 0 ∧ axisLo 0.5 = 0
    ∧ (∀ key ∈ ["MAIN X +".toList, "MAIN X -".toList, "MAIN Y +".toList, "MAIN Y -".toList],
      getState (ParseCommand (PipeDevice.create pad) "SET MAIN 0.5 0.5".toList).1.m_axes key
        = some 0)
    ∧ (ParseCommand (PipeDevice.create pad) "SET MAIN 0.5 0.5".toList).1.m_axes
        ≠ (PipeDevice.create pad).m_axes := by
  have hz : ∀ key ∈ ["MAIN X +".toList, "MAIN X -".toList, "MAIN Y +".toList,
      "MAIN Y -".toList],
      getState (ParseCommand (PipeDevice.create pad) "SET MAIN 0.5 0.5".toList).1.m_axes key
        = some 0 := by
    intro key hkey
    rw [parse_set_main_half, create_m_axes]
    simp only [List.mem_cons, List.mem_singleton, List.not_mem_nil, or_false] at hkey
    rcases hkey with rfl | rfl | rfl | rfl <;> simp [setState, getState]
  have hh : ∀ key ∈ ["MAIN X +".toList, "MAIN X -".toList, "MAIN Y +".toList,
      "MAIN Y -".toList, "C X +".toList, "C X -".toList, "C Y +".toList, "C Y -".toList],
      getState (PipeDevice.create pad).m_axes key = some 0.5 := by
    intro key hkey
    rw [create_m_axes]
    simp only [List.mem_cons, List.mem_singleton, List.not_mem_nil, or_false] at hkey
    rcases hkey with rfl | rfl | rfl | rfl | rfl | rfl | rfl | rfl <;> simp [getState]
  refine ⟨hh, ?_, ?_, hz, ?_⟩
  · rw [half_lit]; exact axis_half.1
  · rw [half_lit]; exact axis_half.2
  · intro h
    have h1 := hz "MAIN X +".toList (by simp)
    have h2 := hh "MAIN X +".toList (by simp)
    rw [h, h2] at h1
    norm_num at h1

/-! ## Invariants of the command parser -/

/-- Every line either changes nothing, or acts as one `PRESS`, one `RELEASE`, one
`SetAxis` or two `SetAxis`. -/
theorem ParseCommand_cases (d : PipeDevice) (line : Str) :
    (ParseCommand d line).1 = d
    ∨ (∃ t, (ParseCommand d line).1
        = { SetButtonState d t "PRESS".toList with m_buttons := setState d.m_buttons t 1 })
    ∨ (∃ t, (ParseCommand d line).1
        = { SetButtonState d t "RELEASE".toList with m_buttons := setState d.m_buttons t 0 })
    ∨ (∃ e v, (ParseCommand d line).1 = SetAxis d e v)
    ∨ (∃ e v e2 v2, (ParseCommand d line).1 = SetAxis (SetAxis d e v) e2 v2) := by
  by_cases h1 : line = "FLUSH".toList
  · left
    simp [ParseCommand, h1]
  by_cases h2 : (SplitString line ' ').length < 2 ∨ (SplitString line ' ').length > 4
  · left
    unfold ParseCommand
    rw [if_neg h1]
    simp only []
    rw [if_pos h2]
  by_cases hP : (SplitString line ' ').getD 0 [] = "PRESS".toList
  · right; left
    refine ⟨(SplitString line ' ').getD 1 [], ?_⟩
    unfold ParseCommand
    rw [if_neg h1]
    simp only []
    rw [if_neg h2, if_pos (Or.inl hP)]
    simp only [hP, (SetButtonState_fields _ _ _).1, one_lit, if_true]
  by_cases hR : (SplitString line ' ').getD 0 [] = "RELEASE".toList
  · right; right; left
    refine ⟨(SplitString line ' ').getD 1 [], ?_⟩
    have hne : ¬ ("RELEASE".toList = "PRESS".toList) := by decide
    unfold ParseCommand
    rw [if_neg h1]
    simp only []
    rw [if_neg h2, if_pos (Or.inr hR)]
    simp only [hR, (SetButtonState_fields _ _ _).1, zero_lit, hne, if_false]
  have hPR : ¬ ((SplitString line ' ').getD 0 [] = "PRESS".toList
      ∨ (SplitString line ' ').getD 0 [] = "RELEASE".toList) := by
    rintro (h | h)
    · exact hP h
    · exact hR h
  by_cases hS : (SplitString line ' ').getD 0 [] = "SET".toList
  · by_cases h3 : (SplitString line ' ').length = 3
    · right; right; right; left
      refine ⟨(SplitString line ' ').getD 1 [], StringToDouble ((SplitString line ' ').getD 2 []),
        ?_⟩
      unfold ParseCommand
      rw [if_neg h1]
      simp only []
      rw [if_neg h2, if_neg hPR, if_pos hS, if_pos h3]
    · by_cases h4 : (SplitString line ' ').length = 4
      · right; right; right; right
        refine ⟨(SplitString line ' ').getD 1 [] ++ " X".toList,
          StringToDouble ((SplitString line ' ').getD 2 []),
          (SplitString line ' ').getD 1 [] ++ " Y".toList,
          StringToDouble ((SplitString line ' ').getD 3 []), ?_⟩
        unfold ParseCommand
        rw [if_neg h1]
        simp only []
        rw [if_neg h2, if_neg hPR, if_pos hS, if_neg h3, if_pos h4]
      · left
        unfold ParseCommand
        rw [if_neg h1]
        simp only []
        rw [if_neg h2, if_neg hPR, if_pos hS, if_neg h3, if_neg h4]
  · left
    unfold ParseCommand
    rw [if_neg h1]
    simp only []
    rw [if_neg h2, if_neg hPR, if_neg hS]

theorem setState_forall (P : ℚ → Prop) (m : InputMap) (key : Str) (v : ℚ)
    (hm : ∀ e ∈ m, P e.2) (hv : P v) : ∀ e ∈ setState m key v, P e.2 := by
  induction m with
  | nil => intro e he; simp [setState] at he
  | cons a rest ih =>
    obtain ⟨k, s⟩ := a
    intro e he
    by_cases hk : k = key
    · simp only [setState, hk, if_true, List.mem_cons] at he
      rcases he with rfl | he
      · exact hv
      · exact hm e (by simp [he])
    · simp only [setState, hk, if_false, List.mem_cons] at he
      rcases he with rfl | he
      · exact hm _ (by simp)
      · exact ih (fun e he => hm e (by simp [he])) e he

theorem SetAxis_inRange (d : PipeDevice) (entry : Str) (v : ℚ) (h : InputsInRange d) :
    InputsInRange (SetAxis d entry v) := by
  obtain ⟨c0, c1⟩ := clamp_range v
  obtain ⟨hhi, hlo⟩ := axis_half_range _ c0 c1
  refine ⟨?_, ?_⟩
  · rw [SetAxis_m_buttons]; exact h.1
  · rw [SetAxis_m_axes]
    exact setState_forall (fun s => 0 ≤ s ∧ s ≤ 1) _ _ _
      (setState_forall (fun s => 0 ≤ s ∧ s ≤ 1) _ _ _ h.2 hhi) hlo

theorem ParseCommand_inRange (d : PipeDevice) (line : Str) (h : InputsInRange d) :
    InputsInRange (ParseCommand d line).1 := by
  rcases ParseCommand_cases d line with e | ⟨t, e⟩ | ⟨t, e⟩ | ⟨a, v, e⟩ | ⟨a, v, a2, v2, e⟩
  · rw [e]; exact h
  · rw [e]
    refine ⟨setState_forall (fun s => s = 0 ∨ s = 1) _ _ _ h.1 (Or.inr rfl), ?_⟩
    show ∀ e ∈ (SetButtonState d t "PRESS".toList).m_axes, _
    rw [(SetButtonState_fields _ _ _).2.1]; exact h.2
  · rw [e]
    refine ⟨setState_forall (fun s => s = 0 ∨ s = 1) _ _ _ h.1 (Or.inl rfl), ?_⟩
    show ∀ e ∈ (SetButtonState d t "RELEASE".toList).m_axes, _
    rw [(SetButtonState_fields _ _ _).2.1]; exact h.2
  · rw [e]; exact SetAxis_inRange _ _ _ h
  · rw [e]; exact SetAxis_inRange _ _ _ (SetAxis_inRange _ _ _ h)

theorem create_inRange (pad : Fin 8 → Nat) : InputsInRange (PipeDevice.create pad) := by
  refine ⟨?_, ?_⟩
  · rw [create_m_buttons]
    intro e he
    simp only [List.mem_cons, List.mem_singleton, List.not_mem_nil, or_false] at he
    rcases he with rfl | rfl | rfl | rfl | rfl | rfl | rfl | rfl | rfl | rfl | rfl | rfl <;>
      exact Or.inl rfl
  · rw [create_m_axes]
    intro e he
    simp only [List.mem_cons, List.mem_singleton, List.not_mem_nil, or_false] at he
    rcases he with rfl | rfl | rfl | rfl | rfl | rfl | rfl | rfl | rfl | rfl | rfl | rfl <;>
      norm_num

theorem applyLines_cons (d : PipeDevice) (l : Str) (ls : List Str) :
    applyLines d (l :: ls) = applyLines (ParseCommand d l).1 ls := rfl

theorem applyLines_inRange (lines : List Str) :
    ∀ d : PipeDevice, InputsInRange d → InputsInRange (applyLines d lines) := by
  induction lines with
  | nil => intro d h; exact h
  | cons l ls ih =>
    intro d h
    rw [applyLines_cons]
    exact ih _ (ParseCommand_inRange d l h)

/-- C16: on a freshly constructed device and after any sequence of command lines,
whatever their arguments, every button input holds `0` or `1` and every
half-axis input holds a value in `[0,1]`; for instance after `SET MAIN -3 7.5`
the half-axes `MAIN X -` and `MAIN Y +` hold `1`. -/
theorem C16_inputs_in_range (pad : Fin 8 → Nat) (lines : List Str) :
    (∀ e ∈ (applyLines (PipeDevice.create pad) lines).m_buttons, e.2 = 0 ∨ e.2 = 1)
    ∧ (∀ e ∈ (applyLines (PipeDevice.create pad) lines).m_axes, 0 ≤ e.2 ∧ e.2 ≤ 1)
    ∧ getState (applyLines (PipeDevice.create pad) ["SET MAIN -3 7.5".toList]).m_axes
        "MAIN X -".toList = some 1
    ∧ getState (applyLines (PipeDevice.create pad) ["SET MAIN -3 7.5".toList]).m_axes
        "MAIN Y +".toList = some 1 := by
  have h := applyLines_inRange lines _ (create_inRange pad)
  have e : "SET MAIN -3 7.5".toList
      = "SET ".toList ++ "MAIN".toList ++ " ".toList ++ "-3".toList ++ " ".toList
          ++ "7.5".toList := by decide
  have hx : StringToDouble "-3".toList = -3 := by
    have h1 : StringToDouble "-3".toList = toDouble (((-3 : Int)) : ℚ) := by
      simp [StringToDouble, readSign, readDigits, isSpaceChar, Char.isDigit]
    rw [h1, toDouble_intCast _ (by norm_num)]
    norm_num
  have hy : StringToDouble "7.5".toList = 15 / 2 := by
    have h1 : StringToDouble "7.5".toList = toDouble (((15 : Int) : ℚ) / 2 ^ 1) := by
      simp [StringToDouble, readSign, readDigits, isSpaceChar, Char.isDigit]
      norm_num
    rw [h1, toDouble_dyadic _ _ (by norm_num) (by norm_num)]
    norm_num
  have hcx : max (0 : ℚ) (min (-3) 1) = 0 := by norm_num
  have hcy : max (0 : ℚ) (min (15 / 2) 1) = 1 := by norm_num
  have hv := axis_ends
  have hs : (applyLines (PipeDevice.create pad) ["SET MAIN -3 7.5".toList]).m_axes
      = setState (setState (setState (setState (PipeDevice.create pad).m_axes
          "MAIN X +".toList 0) "MAIN X -".toList 1) "MAIN Y +".toList 1)
          "MAIN Y -".toList 0 := by
    show (ParseCommand (PipeDevice.create pad) "SET MAIN -3 7.5".toList).1.m_axes = _
    rw [e, parse_set4 _ _ _ _ (by decide) (by decide) (by decide), hx, hy]
    show (SetAxis (SetAxis _ "MAIN X".toList _) "MAIN Y".toList _).m_axes = _
    rw [SetAxis_m_axes, SetAxis_m_axes, hcx, hcy, hv.1, hv.2.1, hv.2.2.1, hv.2.2.2]
    rfl
  refine ⟨h.1, h.2, ?_, ?_⟩
  · rw [hs, create_m_axes]
    simp [setState, getState]
  · rw [hs, create_m_axes]
    simp [setState, getState]

/-! ## Agreement of button bits and button inputs -/

theorem bit_or_same (b m : Nat) : (b ||| m) &&& m = m := by
  apply Nat.eq_of_testBit_eq
  intro j
  simp only [Nat.testBit_and, Nat.testBit_or]
  cases b.testBit j <;> cases m.testBit j <;> rfl

theorem bit_or_other (b m m2 : Nat) (h : m &&& m2 = 0) : (b ||| m2) &&& m = b &&& m := by
  apply Nat.eq_of_testBit_eq
  intro j
  have hj := congrArg (fun n => Nat.testBit n j) h
  simp only [Nat.testBit_and, Nat.zero_testBit] at hj
  simp only [Nat.testBit_and, Nat.testBit_or]
  cases b.testBit j <;> cases hm : m.testBit j <;> cases hm2 : m2.testBit j <;> simp_all

theorem bit_clear_same (b m : Nat) (hm : m < 256) : (b &&& (0xFF ^^^ m)) &&& m = 0 := by
  apply Nat.eq_of_testBit_eq
  intro j
  have e3 : (0xFF : Nat) = 2 ^ 8 - 1 := by norm_num
  rw [e3]
  simp only [Nat.testBit_and, Nat.testBit_xor, Nat.testBit_two_pow_sub_one, Nat.zero_testBit]
  by_cases h8 : j < 8
  · cases b.testBit j <;> cases m.testBit j <;> simp [h8]
  · have : m.testBit j = false := by
      apply Nat.testBit_lt_two_pow
      calc m < 2 ^ 8 := by simpa using hm
        _ ≤ 2 ^ j := Nat.pow_le_pow_right (by norm_num) (by omega)
    simp [this]

theorem bit_clear_other (b m m2 : Nat) (h : m &&& m2 = 0) (hm : m < 256) :
    (b &&& (0xFF ^^^ m2)) &&& m = b &&& m := by
  apply Nat.eq_of_testBit_eq
  intro j
  have hj := congrArg (fun n => Nat.testBit n j) h
  simp only [Nat.testBit_and, Nat.zero_testBit] at hj
  have e3 : (0xFF : Nat) = 2 ^ 8 - 1 := by norm_num
  rw [e3]
  simp only [Nat.testBit_and, Nat.testBit_xor, Nat.testBit_two_pow_sub_one]
  by_cases h8 : j < 8
  · cases b.testBit j <;> cases hm1 : m.testBit j <;> cases hm2 : m2.testBit j <;> simp_all
  · have : m.testBit j = false := by
      apply Nat.testBit_lt_two_pow
      calc m < 2 ^ 8 := by simpa using hm
        _ ≤ 2 ^ j := Nat.pow_le_pow_right (by norm_num) (by omega)
    simp [this]

theorem buttonBits_mask : ∀ e ∈ buttonBits,
    buttonMask e.1 = (e.2.2, e.2.1) ∧ e.2.2 ≠ 0 ∧ e.2.2 < 256 ∧ e.1 ∈ s_button_tokens := by
  decide

theorem buttonBits_disjoint : ∀ e ∈ buttonBits, ∀ e2 ∈ buttonBits,
    e.1 ≠ e2.1 → e.2.1 ≠ e2.2.1 ∨ e.2.2 &&& e2.2.2 = 0 := by
  decide

theorem tokens_in_buttonBits : ∀ t ∈ s_button_tokens,
    (t, (buttonMask t).2, (buttonMask t).1) ∈ buttonBits := by
  decide

/-- The report bytes are `u8` values and the buttons are those of the constructor. -/
theorem buttonsRegistered_iff (d : PipeDevice) :
    ButtonsRegistered d ↔ keys d.m_buttons = s_button_tokens := by
  unfold ButtonsRegistered
  rw [create_buttons_keys]

theorem storeByte_lt (d : PipeDevice) (k : Fin 8) (b : Nat) (hd : ∀ i, d.padBuf i < 256) :
    ∀ i, (storeByte d k b).padBuf i < 256 := by
  intro i
  simp only [storeByte]
  by_cases h : i = k
  · subst h
    rw [Function.update_same]
    exact Nat.mod_lt _ (by norm_num)
  · rw [Function.update_noteq h]
    exact hd i

theorem ite_store_lt (c : Prop) [Decidable c] (d : PipeDevice) (k : Fin 8) (b : Nat)
    (hd : ∀ i, d.padBuf i < 256) :
    ∀ i, (if c then storeByte d k b else d).padBuf i < 256 := by
  split
  · exact storeByte_lt d k b hd
  · exact hd

theorem axisStores_lt (d : PipeDevice) (entry : Str) (v : ℚ) (hd : ∀ i, d.padBuf i < 256) :
    ∀ i, (axisStores d entry v).padBuf i < 256 := by
  unfold axisStores
  exact ite_store_lt _ _ _ _ (ite_store_lt _ _ _ _ (ite_store_lt _ _ _ _
    (ite_store_lt _ _ _ _ (ite_store_lt _ _ _ _ (ite_store_lt _ _ _ _ hd)))))

theorem SetAxis_lt (d : PipeDevice) (entry : Str) (v : ℚ) (hd : ∀ i, d.padBuf i < 256) :
    ∀ i, (SetAxis d entry v).padBuf i < 256 := by
  rw [SetAxis_padBuf]
  exact axisStores_lt d entry _ hd

theorem SetButtonState_lt (d : PipeDevice) (t p : Str) (hd : ∀ i, d.padBuf i < 256) :
    ∀ i, (SetButtonState d t p).padBuf i < 256 := by
  unfold SetButtonState
  simp only []
  split
  · exact storeByte_lt _ _ _ hd
  · exact storeByte_lt _ _ _ hd

theorem ite_store_low (c : Prop) [Decidable c] (d : PipeDevice) (k i : Fin 8) (b : Nat)
    (h : i ≠ k) : (if c then storeByte d k b else d).padBuf i = d.padBuf i := by
  split
  · simp only [storeByte]
    rw [Function.update_noteq h]
  · rfl

/-- The stores of `SetAxis` leave bytes 0 and 1 alone. -/
theorem axisStores_low (d : PipeDevice) (entry : Str) (v : ℚ) (i : Fin 8) (hi : i.val < 2) :
    (axisStores d entry v).padBuf i = d.padBuf i := by
  have n2 : i ≠ 2 := by intro h; rw [h] at hi; exact absurd hi (by decide)
  have n3 : i ≠ 3 := by intro h; rw [h] at hi; exact absurd hi (by decide)
  have n4 : i ≠ 4 := by intro h; rw [h] at hi; exact absurd hi (by decide)
  have n5 : i ≠ 5 := by intro h; rw [h] at hi; exact absurd hi (by decide)
  have n6 : i ≠ 6 := by intro h; rw [h] at hi; exact absurd hi (by decide)
  have n7 : i ≠ 7 := by intro h; rw [h] at hi; exact absurd hi (by decide)
  unfold axisStores
  simp only []
  rw [ite_store_low _ _ _ _ _ n7, ite_store_low _ _ _ _ _ n6, ite_store_low _ _ _ _ _ n5,
    ite_store_low _ _ _ _ _ n4, ite_store_low _ _ _ _ _ n3, ite_store_low _ _ _ _ _ n2]

theorem buttonBits_low : ∀ e ∈ buttonBits, e.2.1.val < 2 := by decide

/-- The buffer after `SetButtonState` with `PRESS`, on `u8` bytes. -/
theorem setButton_press_padBuf (d : PipeDevice) (t : Str) (hd : ∀ i, d.padBuf i < 256) :
    (SetButtonState d t "PRESS".toList).padBuf
      = Function.update d.padBuf (buttonMask t).2
          (d.padBuf (buttonMask t).2 ||| (buttonMask t).1) := by
  rw [setButton_press]
  simp only [storeByte]
  rw [Nat.mod_eq_of_lt (or_mask_lt _ _ (hd _) (buttonMask_lt t))]

/-- The buffer after `SetButtonState` with `RELEASE`, on `u8` bytes. -/
theorem setButton_release_padBuf (d : PipeDevice) (t : Str) (hd : ∀ i, d.padBuf i < 256) :
    (SetButtonState d t "RELEASE".toList).padBuf
      = Function.update d.padBuf (buttonMask t).2
          (d.padBuf (buttonMask t).2 &&& (0xFF ^^^ (buttonMask t).1)) := by
  rw [setButton_release]
  simp only [storeByte]
  rw [and_not_mask _ _ (hd _)]

theorem getState_not_mem (m : InputMap) (key : Str) (h : key ∉ keys m) :
    getState m key = none := by
  induction m with
  | nil => rfl
  | cons e rest ih =>
    obtain ⟨k, s⟩ := e
    have hk : k ≠ key := fun e => h (by simp [keys, e])
    have hr : key ∉ keys rest := fun e => h (by simp [keys] at e ⊢; exact Or.inr e)
    simp [getState, hk, ih hr]

theorem agree_press (d : PipeDevice) (t : Str) (hd : ∀ i, d.padBuf i < 256)
    (hb : ButtonsRegistered d) (ha : ButtonsAgree d) :
    ButtonsAgree { SetButtonState d t "PRESS".toList with
      m_buttons := setState d.m_buttons t 1 } := by
  have hkeys := (buttonsRegistered_iff d).mp hb
  intro e he
  show (SetButtonState d t "PRESS".toList).padBuf e.2.1 &&& e.2.2 ≠ 0
    ↔ getState (setState d.m_buttons t 1) e.1 = some 1
  rw [setButton_press_padBuf d t hd]
  obtain ⟨em, enz, elt, emem⟩ := buttonBits_mask e he
  by_cases ht : t ∈ s_button_tokens
  · by_cases hname : e.1 = t
    · have hm : buttonMask t = (e.2.2, e.2.1) := by rw [← hname]; exact em
      rw [hm, Function.update_same, bit_or_same, ← hname]
      constructor
      · intro _
        exact getState_setState _ _ _ (by rw [hkeys]; exact emem)
      · intro _
        exact enz
    · rw [getState_setState_ne _ _ _ _ (fun h => hname h.symm)]
      have het := tokens_in_buttonBits t ht
      rcases buttonBits_disjoint e he _ het hname with hi | hmask
      · rw [Function.update_noteq hi]
        exact ha e he
      · by_cases hi : e.2.1 = (buttonMask t).2
        · rw [hi, Function.update_same, bit_or_other _ _ _ hmask, ← hi]
          exact ha e he
        · rw [Function.update_noteq hi]
          exact ha e he
  · have hname : t ≠ e.1 := fun h => ht (h ▸ emem)
    rw [getState_setState_ne _ _ _ _ hname, buttonMask_unknown t ht]
    have : Function.update d.padBuf 0 (d.padBuf 0 ||| 0) = d.padBuf := by
      rw [Nat.or_zero, Function.update_eq_self]
    rw [this]
    exact ha e he

theorem agree_release (d : PipeDevice) (t : Str) (hd : ∀ i, d.padBuf i < 256)
    (ha : ButtonsAgree d) :
    ButtonsAgree { SetButtonState d t "RELEASE".toList with
      m_buttons := setState d.m_buttons t 0 } := by
  intro e he
  show (SetButtonState d t "RELEASE".toList).padBuf e.2.1 &&& e.2.2 ≠ 0
    ↔ getState (setState d.m_buttons t 0) e.1 = some 1
  rw [setButton_release_padBuf d t hd]
  obtain ⟨em, enz, elt, emem⟩ := buttonBits_mask e he
  by_cases ht : t ∈ s_button_tokens
  · by_cases hname : e.1 = t
    · have hm : buttonMask t = (e.2.2, e.2.1) := by rw [← hname]; exact em
      rw [hm, Function.update_same, bit_clear_same _ _ elt, ← hname]
      constructor
      · intro h; exact absurd rfl h
      · intro h
        exfalso
        by_cases hk : e.1 ∈ keys d.m_buttons
        · rw [getState_setState _ _ _ hk] at h
          norm_num at h
        · rw [setState_not_mem _ _ _ hk, getState_not_mem _ _ hk] at h
          cases h
    · rw [getState_setState_ne _ _ _ _ (fun h => hname h.symm)]
      have het := tokens_in_buttonBits t ht
      rcases buttonBits_disjoint e he _ het hname with hi | hmask
      · rw [Function.update_noteq hi]
        exact ha e he
      · by_cases hi : e.2.1 = (buttonMask t).2
        · rw [hi, Function.update_same, bit_clear_other _ _ _ hmask elt, ← hi]
          exact ha e he
        · rw [Function.update_noteq hi]
          exact ha e he
  · have hname : t ≠ e.1 := fun h => ht (h ▸ emem)
    rw [getState_setState_ne _ _ _ _ hname, buttonMask_unknown t ht]
    have : Function.update d.padBuf 0 (d.padBuf 0 &&& (0xFF ^^^ 0)) = d.padBuf := by
      rw [and_not_mask_of_clear _ _ (hd 0) (by simp), Function.update_eq_self]
    rw [this]
    exact ha e he

theorem agree_SetAxis (d : PipeDevice) (entry : Str) (v : ℚ) (ha : ButtonsAgree d) :
    ButtonsAgree (SetAxis d entry v) := by
  intro e he
  rw [SetAxis_padBuf, axisStores_low _ _ _ _ (buttonBits_low e he), SetAxis_m_buttons]
  exact ha e he

/-- The typing facts kept by every line: `u8` report bytes and the constructor's
buttons. -/
theorem ParseCommand_typed (d : PipeDevice) (line : Str) (hd : ∀ i, d.padBuf i < 256)
    (hb : ButtonsRegistered d) :
    (∀ i, (ParseCommand d line).1.padBuf i < 256) ∧ ButtonsRegistered (ParseCommand d line).1 := by
  have hkeys := (buttonsRegistered_iff d).mp hb
  rcases ParseCommand_cases d line with e | ⟨t, e⟩ | ⟨t, e⟩ | ⟨a, v, e⟩ | ⟨a, v, a2, v2, e⟩
  · rw [e]; exact ⟨hd, hb⟩
  · rw [e]
    refine ⟨SetButtonState_lt d t "PRESS".toList hd, ?_⟩
    rw [buttonsRegistered_iff]
    show keys (setState d.m_buttons t 1) = _
    rw [keys_setState, hkeys]
  · rw [e]
    refine ⟨SetButtonState_lt d t "RELEASE".toList hd, ?_⟩
    rw [buttonsRegistered_iff]
    show keys (setState d.m_buttons t 0) = _
    rw [keys_setState, hkeys]
  · rw [e]
    refine ⟨SetAxis_lt _ _ _ hd, ?_⟩
    rw [buttonsRegistered_iff, SetAxis_m_buttons, hkeys]
  · rw [e]
    refine ⟨SetAxis_lt _ _ _ (SetAxis_lt _ _ _ hd), ?_⟩
    rw [buttonsRegistered_iff, SetAxis_m_buttons, SetAxis_m_buttons, hkeys]

theorem ParseCommand_agree (d : PipeDevice) (line : Str) (hd : ∀ i, d.padBuf i < 256)
    (hb : ButtonsRegistered d) (ha : ButtonsAgree d) :
    ButtonsAgree (ParseCommand d line).1 := by
  rcases ParseCommand_cases d line with e | ⟨t, e⟩ | ⟨t, e⟩ | ⟨a, v, e⟩ | ⟨a, v, a2, v2, e⟩
  · rw [e]; exact ha
  · rw [e]; exact agree_press d t hd hb ha
  · rw [e]; exact agree_release d t hd ha
  · rw [e]; exact agree_SetAxis _ _ _ ha
  · rw [e]; exact agree_SetAxis _ _ _ (agree_SetAxis _ _ _ ha)

theorem applyLines_agree (lines : List Str) :
    ∀ d : PipeDevice, (∀ i, d.padBuf i < 256) → ButtonsRegistered d → ButtonsAgree d →
      ButtonsAgree (applyLines d lines) := by
  induction lines with
  | nil => intro d _ _ ha; exact ha
  | cons l ls ih =>
    intro d hd hb ha
    rw [applyLines_cons]
    obtain ⟨hd2, hb2⟩ := ParseCommand_typed d l hd hb
    exact ih _ hd2 hb2 (ParseCommand_agree d l hd hb ha)

/-- C19: on a device with `u8` report bytes and the constructor's buttons, the
predicate "for each of the twelve buttons, its `(byte index, mask)` bit of the
report buffer is set if and only if its logical input is `1`" is preserved by
`ParseCommand` for every line; hence it holds after any sequence of lines
applied to such a device whose button bits are all clear and whose button
inputs are all `0`. -/
theorem C19_buttons_agree (d : PipeDevice) (hd : ∀ i, d.padBuf i < 256)
    (hb : ButtonsRegistered d) :
    (∀ line : Str,
      (∀ e ∈ buttonBits,
        (d.padBuf e.2.1 &&& e.2.2 ≠ 0 ↔ getState d.m_buttons e.1 = some 1)) →
      ∀ e ∈ buttonBits,
        ((ParseCommand d line).1.padBuf e.2.1 &&& e.2.2 ≠ 0
          ↔ getState (ParseCommand d line).1.m_buttons e.1 = some 1))
    ∧ (∀ lines : List Str,
      (∀ e ∈ buttonBits, d.padBuf e.2.1 &&& e.2.2 = 0 ∧ getState d.m_buttons e.1 = some 0) →
      ∀ e ∈ buttonBits,
        ((applyLines d lines).padBuf e.2.1 &&& e.2.2 ≠ 0
          ↔ getState (applyLines d lines).m_buttons e.1 = some 1))
    ∧ buttonBits
        = [("A".toList, 0, 0x01), ("B".toList, 0, 0x02), ("X".toList, 0, 0x04),
           ("Y".toList, 0, 0x08), ("START".toList, 0, 0x10), ("D_LEFT".toList, 1, 0x01),
           ("D_RIGHT".toList, 1, 0x02), ("D_DOWN".toList, 1, 0x04),
           ("D_UP".toList, 1, 0x08), ("Z".toList, 1, 0x10), ("R".toList, 1, 0x20),
           ("L".toList, 1, 0x40)] := by
  refine ⟨fun line ha => ParseCommand_agree d line hd hb ha, ?_, rfl⟩
  intro lines h0
  apply applyLines_agree lines d hd hb
  intro e he
  obtain ⟨h1, h2⟩ := h0 e he
  rw [h1, h2]
  constructor
  · intro h; exact absurd rfl h
  · intro h; norm_num at h

/-- C19 at a freshly created device with a zeroed buffer, after the lines
`PRESS A`, `SET MAIN 0.3 0.9`, `RELEASE A`, `PRESS Z`, `FLUSH` and `JUMP HIGH`, for
the button `Z`. -/
theorem C19_buttons_agree_witness :
    ((applyLines (PipeDevice.create (fun _ => 0))
        ["PRESS A".toList, "SET MAIN 0.3 0.9".toList, "RELEASE A".toList,
         "PRESS Z".toList, "FLUSH".toList, "JUMP HIGH".toList]).padBuf 1 &&& 0x10 ≠ 0
      ↔ getState (applyLines (PipeDevice.create (fun _ => 0))
        ["PRESS A".toList, "SET MAIN 0.3 0.9".toList, "RELEASE A".toList,
         "PRESS Z".toList, "FLUSH".toList, "JUMP HIGH".toList]).m_buttons "Z".toList
          = some 1) :=
  (C19_buttons_agree (PipeDevice.create (fun _ => 0)) (fun i => by simp [create_padBuf])
    (create_buttonsRegistered _)).2.1 _ (by
      intro e he
      rw [create_m_buttons, create_padBuf]
      simp only [buttonBits, List.mem_cons, List.mem_singleton, List.not_mem_nil,
        or_false] at he
      rcases he with rfl | rfl | rfl | rfl | rfl | rfl | rfl | rfl | rfl | rfl | rfl | rfl <;>
        simp [getState]) ("Z".toList, 1, 0x10) (by simp [buttonBits])

/-! ## The poll: lines, accumulator and completion flag -/

theorem ParseCommand_flag (d : PipeDevice) (line : Str) :
    (ParseCommand d line).2 = true ↔ line = "FLUSH".toList := by
  constructor
  · intro h
    by_contra hl
    unfold ParseCommand at h
    rw [if_neg hl] at h
    simp only [] at h
    split_ifs at h
  · rintro rfl
    simp [ParseCommand]

theorem findNewline_none_iff (buf : Str) : findNewline buf = none ↔ '\n' ∉ buf := by
  induction buf with
  | nil => simp [findNewline]
  | cons c rest ih =>
    by_cases hc : c = '\n'
    · simp [findNewline, hc]
    · have hc2 : ¬ ('\n' = c) := fun h => hc h.symm
      simp [findNewline, hc, hc2, ih]

theorem findNewline_split (buf : Str) (k : Nat) (h : findNewline buf = some k) :
    buf.take k ++ '\n' :: buf.drop (k + 1) = buf ∧ '\n' ∉ buf.take k := by
  induction buf generalizing k with
  | nil => simp [findNewline] at h
  | cons c rest ih =>
    by_cases hc : c = '\n'
    · simp [findNewline, hc] at h
      subst h
      simp [hc]
    · cases hr : findNewline rest with
      | none => simp [findNewline, hc, hr] at h
      | some j =>
        simp [findNewline, hc, hr] at h
        subst h
        obtain ⟨h1, h2⟩ := ih j hr
        have hc2 : ¬ ('\n' = c) := fun h => hc h.symm
        constructor
        · simp only [List.take_succ_cons, List.drop_succ_cons, List.cons_append]
          rw [h1]
        · simp only [List.take_succ_cons, List.mem_cons, not_or]
          exact ⟨hc2, h2⟩

theorem joinLines_append (a b : List Str) : joinLines (a ++ b) = joinLines a ++ joinLines b := by
  induction a with
  | nil => rfl
  | cons l rest ih => simp [joinLines, ih]

theorem received_append (a b : List ReadResult) :
    received (a ++ b) = received a ++ received b := by
  induction a with
  | nil => rfl
  | cons r rest ih => simp [received, ih]

theorem applyLines_withBuf (lines : List Str) : ∀ (d : PipeDevice) (buf : Str),
    applyLines (withBuf d buf) lines = withBuf (applyLines d lines) buf := by
  induction lines with
  | nil => intro d buf; rfl
  | cons l ls ih =>
    intro d buf
    rw [applyLines_cons, applyLines_cons, ParseCommand_withBuf]
    exact ih _ _

theorem applyLines_append (a b : List Str) (d : PipeDevice) :
    applyLines d (a ++ b) = applyLines (applyLines d a) b := by
  simp [applyLines, List.foldl_append]

theorem withBuf_withBuf (d : PipeDevice) (a b : Str) : withBuf (withBuf d a) b = withBuf d b :=
  rfl

theorem withBuf_self (d : PipeDevice) : withBuf d d.m_buf = d := rfl

/-- What the extraction loop does, whatever the fuel: the lines it records and the
accumulator it leaves make up the accumulator it started from, no recorded line
holds a newline, and the device it returns is the one reached by applying the
recorded lines in order. -/
theorem lineLoop_content (n : Nat) : ∀ (d : PipeDevice) (f : Bool),
    joinLines (lineLoop n d f []).2.2 ++ (lineLoop n d f []).1.m_buf = d.m_buf
    ∧ (∀ l ∈ (lineLoop n d f []).2.2, '\n' ∉ l)
    ∧ (lineLoop n d f []).1
        = withBuf (applyLines d (lineLoop n d f []).2.2) (lineLoop n d f []).1.m_buf := by
  induction n with
  | zero => intro d f; exact ⟨rfl, by simp [lineLoop], rfl⟩
  | succ n ih =>
    intro d f
    cases hfn : findNewline d.m_buf with
    | none =>
      rw [lineLoop_none _ _ _ _ hfn]
      exact ⟨rfl, by simp, rfl⟩
    | some k =>
      obtain ⟨hs1, hs2⟩ := findNewline_split _ _ hfn
      obtain ⟨i1, i2, i3⟩ := ih (lineStep d k) (ParseCommand d (d.m_buf.take k)).2
      rw [lineLoop_succ_some _ _ _ _ _ hfn, lineLoop_log]
      simp only [List.nil_append, List.singleton_append]
      refine ⟨?_, ?_, ?_⟩
      · simp only [joinLines, List.cons_append, List.append_assoc]
        rw [i1]
        simpa [lineStep, withBuf] using hs1
      · intro l hl
        rcases List.mem_cons.mp hl with rfl | hl
        · exact hs2
        · exact i2 l hl
      · rw [applyLines_cons]
        conv_lhs => rw [i3]
        simp only [lineStep, applyLines_withBuf, withBuf_withBuf]

/-- The flag left by the extraction loop: unchanged when no line was parsed, and
otherwise true exactly when the last parsed line is `FLUSH`. -/
theorem lineLoop_last (n : Nat) : ∀ (d : PipeDevice) (f : Bool),
    ((lineLoop n d f []).2.2 = [] → lineLoop n d f [] = (d, f, []))
    ∧ (∀ l, (lineLoop n d f []).2.2.getLast? = some l →
        ((lineLoop n d f []).2.1 = true ↔ l = "FLUSH".toList)) := by
  induction n with
  | zero => intro d f; exact ⟨fun _ => rfl, by simp [lineLoop]⟩
  | succ n ih =>
    intro d f
    cases hfn : findNewline d.m_buf with
    | none =>
      rw [lineLoop_none _ _ _ _ hfn]
      exact ⟨fun _ => rfl, by simp⟩
    | some k =>
      obtain ⟨i1, i2⟩ := ih (lineStep d k) (ParseCommand d (d.m_buf.take k)).2
      rw [lineLoop_succ_some _ _ _ _ _ hfn, lineLoop_log]
      simp only [List.nil_append, List.singleton_append]
      refine ⟨by simp, ?_⟩
      intro l hl
      cases hlog : (lineLoop n (lineStep d k) (ParseCommand d (d.m_buf.take k)).2 []).2.2 with
      | nil =>
        rw [hlog] at hl
        simp only [List.getLast?_singleton, Option.some.injEq] at hl
        rw [i1 hlog, ← hl]
        exact ParseCommand_flag _ _
      | cons a rest =>
        rw [hlog] at hl i2
        rw [List.getLast?_cons_cons] at hl
        exact i2 l hl

/-- The drain loop only appends to the accumulator: the bytes of the reads it
consumes, in order. -/
theorem drainLoop_spec (reads : List ReadResult) : ∀ (d : PipeDevice) (r : ReadResult)
    (d1 : PipeDevice) (reads1 : List ReadResult),
    drainLoop d r reads = some (d1, reads1) →
    ∃ consumed, reads = consumed ++ reads1
      ∧ d1 = withBuf d (d.m_buf ++ received (r :: consumed)) := by
  induction reads with
  | nil =>
    intro d r d1 reads1 h
    by_cases hr : 0 < r.bytes_read
    · simp [drainLoop, hr] at h
    · simp only [drainLoop, hr, if_false, Option.some.injEq, Prod.mk.injEq] at h
      obtain ⟨rfl, rfl⟩ := h
      exact ⟨[], rfl, by simp [received, hr, withBuf]⟩
  | cons r1 rest ih =>
    intro d r d1 reads1 h
    by_cases hr : 0 < r.bytes_read
    · simp only [drainLoop, hr, if_true] at h
      obtain ⟨c, hc1, hc2⟩ := ih _ _ _ _ h
      refine ⟨r1 :: c, by rw [hc1]; rfl, ?_⟩
      rw [hc2]
      simp [received, hr, withBuf, appendBytes]
    · simp only [drainLoop, hr, if_false, Option.some.injEq, Prod.mk.injEq] at h
      obtain ⟨rfl, rfl⟩ := h
      exact ⟨[], rfl, by simp [received, hr, withBuf]⟩

theorem updateLoop_zero_read (w : Bool) (fuel : Nat) (d : PipeDevice) (f : Bool)
    (p : List Str) (r : ReadResult) (reads : List ReadResult) (hr : r.bytes_read = 0) :
    updateLoop w (fuel + 1) d f p (r :: reads) = some (d, p, reads) := by
  simp only [updateLoop, hr, if_true]

theorem updateLoop_pass (w : Bool) (fuel : Nat) (d : PipeDevice) (f : Bool)
    (p : List Str) (r : ReadResult) (reads : List ReadResult) (hr : r.bytes_read ≠ 0)
    (d1 : PipeDevice) (reads1 : List ReadResult)
    (hd : drainLoop d r reads = some (d1, reads1)) :
    updateLoop w (fuel + 1) d f p (r :: reads)
      = if (!(extractLines d1 f).2.1 && w) = true then
          updateLoop w fuel (extractLines d1 f).1 (extractLines d1 f).2.1
            (p ++ (extractLines d1 f).2.2) reads1
        else some ((extractLines d1 f).1, p ++ (extractLines d1 f).2.2, reads1) := by
  simp only [updateLoop, hr, if_false, hd]

theorem updateLoop_blocked (w : Bool) (fuel : Nat) (d : PipeDevice) (f : Bool)
    (p : List Str) (r : ReadResult) (reads : List ReadResult) (hr : r.bytes_read ≠ 0)
    (hd : drainLoop d r reads = none) :
    updateLoop w (fuel + 1) d f p (r :: reads) = none := by
  simp only [updateLoop, hr, if_false, hd]

/-- What a poll that ends has done. -/
theorem updateLoop_spec (w : Bool) (n : Nat) : ∀ (d : PipeDevice) (f : Bool) (p : List Str)
    (reads : List ReadResult) (d2 : PipeDevice) (p2 : List Str) (rest : List ReadResult),
    findNewline d.m_buf = none →
    updateLoop w n d f p reads = some (d2, p2, rest) →
    ∃ consumed lines, reads = consumed ++ rest ∧ consumed ≠ [] ∧ p2 = p ++ lines
      ∧ joinLines lines ++ d2.m_buf = d.m_buf ++ received consumed
      ∧ findNewline d2.m_buf = none
      ∧ (∀ l ∈ lines, '\n' ∉ l)
      ∧ d2 = withBuf (applyLines d lines) d2.m_buf := by
  induction n with
  | zero => intro d f p reads d2 p2 rest _ h; simp [updateLoop] at h
  | succ n ih =>
    intro d f p reads d2 p2 rest h0 h
    cases reads with
    | nil => simp [updateLoop] at h
    | cons r reads =>
      by_cases hr : r.bytes_read = 0
      · rw [updateLoop_zero_read _ _ _ _ _ _ _ hr] at h
        simp only [Option.some.injEq, Prod.mk.injEq] at h
        obtain ⟨rfl, rfl, rfl⟩ := h
        refine ⟨[r], [], rfl, by simp, by simp, ?_, h0, by simp, rfl⟩
        simp [received, hr, joinLines]
      · cases hdr : drainLoop d r reads with
        | none =>
          rw [updateLoop_blocked _ _ _ _ _ _ _ hr hdr] at h
          cases h
        | some res =>
          obtain ⟨d1, reads1⟩ := res
          obtain ⟨c1, hc1, hc2⟩ := drainLoop_spec _ _ _ _ _ hdr
          rw [updateLoop_pass _ _ _ _ _ _ _ hr _ _ hdr] at h
          obtain ⟨e1, e2, e3⟩ := lineLoop_content d1.m_buf.length d1 f
          have e4 : findNewline (extractLines d1 f).1.m_buf = none :=
            lineLoop_done _ _ _ _ le_rfl
          have hbuf : d1.m_buf = d.m_buf ++ received (r :: c1) := by rw [hc2]; rfl
          have happ : ∀ ls, applyLines d1 ls = withBuf (applyLines d ls) d1.m_buf := by
            intro ls
            conv_lhs => rw [hc2]
            rw [applyLines_withBuf, ← hbuf]
          by_cases hcont : (!(extractLines d1 f).2.1 && w) = true
          · rw [if_pos hcont] at h
            obtain ⟨c2, l2, g1, _, g3, g4, g5, g6, g7⟩ := ih _ _ _ _ _ _ _ e4 h
            refine ⟨r :: c1 ++ c2, (extractLines d1 f).2.2 ++ l2, ?_, by simp, ?_, ?_, g5,
              ?_, ?_⟩
            · rw [hc1, g1]; simp
            · rw [g3]; simp
            · rw [joinLines_append, List.append_assoc, g4, ← List.append_assoc]
              show (joinLines (lineLoop _ d1 f []).2.2 ++ (lineLoop _ d1 f []).1.m_buf) ++ _ = _
              rw [e1, hbuf, received_append, List.append_assoc]
            · intro l hl
              rcases List.mem_append.mp hl with hl | hl
              · exact e2 l hl
              · exact g6 l hl
            · have hE : applyLines (extractLines d1 f).1 l2
                  = withBuf (applyLines (applyLines d (extractLines d1 f).2.2) l2)
                      (extractLines d1 f).1.m_buf := by
                show applyLines (lineLoop _ d1 f []).1 l2 = _
                rw [e3, applyLines_withBuf, happ, applyLines_withBuf]
                rfl
              refine g7.trans ?_
              rw [hE, applyLines_append]
              rfl
          · rw [if_neg hcont] at h
            simp only [Option.some.injEq, Prod.mk.injEq] at h
            obtain ⟨rfl, rfl, rfl⟩ := h
            refine ⟨r :: c1, (extractLines d1 f).2.2, by rw [hc1]; rfl, by simp, rfl, ?_, e4,
              e2, ?_⟩
            · show joinLines (lineLoop _ d1 f []).2.2 ++ (lineLoop _ d1 f []).1.m_buf = _
              rw [e1, hbuf]
            · show (lineLoop _ d1 f []).1 = _
              conv_lhs => rw [e3]
              rw [happ]
              rfl

/-- Any two bounds that cover the reads give the same poll. -/
theorem updateLoop_fuel (w : Bool) (n : Nat) : ∀ (m : Nat) (d : PipeDevice) (f : Bool)
    (p : List Str) (reads : List ReadResult),
    reads.length ≤ n → reads.length ≤ m →
    updateLoop w n d f p reads = updateLoop w m d f p reads := by
  induction n with
  | zero =>
    intro m d f p reads hn _
    have : reads = [] := List.length_eq_zero.mp (by omega)
    subst this
    cases m <;> rfl
  | succ n ih =>
    intro m d f p reads hn hm
    cases reads with
    | nil => cases m <;> rfl
    | cons r reads =>
      cases m with
      | zero => simp at hm
      | succ m =>
        simp only [List.length_cons] at hn hm
        by_cases hr : r.bytes_read = 0
        · rw [updateLoop_zero_read _ _ _ _ _ _ _ hr, updateLoop_zero_read _ _ _ _ _ _ _ hr]
        · cases hdr : drainLoop d r reads with
          | none =>
            rw [updateLoop_blocked _ _ _ _ _ _ _ hr hdr,
              updateLoop_blocked _ _ _ _ _ _ _ hr hdr]
          | some res =>
            obtain ⟨d1, reads1⟩ := res
            obtain ⟨c1, hc1, _⟩ := drainLoop_spec _ _ _ _ _ hdr
            have hlen : reads1.length ≤ reads.length := by
              rw [hc1]; simp
            rw [updateLoop_pass _ _ _ _ _ _ _ hr _ _ hdr,
              updateLoop_pass _ _ _ _ _ _ _ hr _ _ hdr]
            split
            · exact ih _ _ _ _ _ (by omega) (by omega)
            · rfl

/-- A poll keeps the accumulator free of newlines. -/
theorem UpdateInput_noNewline (d : PipeDevice) (w : Bool) (reads : List ReadResult)
    (d2 : PipeDevice) (p2 : List Str) (rest : List ReadResult)
    (h0 : findNewline d.m_buf = none) (h : UpdateInput d w reads = some (d2, p2, rest)) :
    findNewline d2.m_buf = none := by
  obtain ⟨_, _, _, _, _, _, g, _, _⟩ := updateLoop_spec w _ _ _ _ _ _ _ _ h0 h
  exact g

theorem runPolls_noNewline (ws : List Bool) : ∀ (d : PipeDevice) (reads : List ReadResult)
    (d2 : PipeDevice) (rest : List ReadResult),
    findNewline d.m_buf = none → runPolls d ws reads = some (d2, rest) →
    findNewline d2.m_buf = none := by
  induction ws with
  | nil =>
    intro d reads d2 rest h0 h
    simp only [runPolls, Option.some.injEq, Prod.mk.injEq] at h
    obtain ⟨rfl, rfl⟩ := h
    exact h0
  | cons w ws ih =>
    intro d reads d2 rest h0 h
    cases hu : UpdateInput d w reads with
    | none => simp [runPolls, hu] at h
    | some res =>
      obtain ⟨d1, p1, r1⟩ := res
      simp only [runPolls, hu] at h
      exact ih _ _ _ _ (UpdateInput_noNewline _ _ _ _ _ _ h0 hu) h

theorem appendBytes_nil (d : PipeDevice) : appendBytes d [] = d := by
  cases d
  simp [appendBytes]

theorem appendBytes_appendBytes (d : PipeDevice) (a b : Str) :
    appendBytes (appendBytes d a) b = appendBytes d (a ++ b) := by
  simp [appendBytes]

/-- The drain loop over reads with a positive count, ended by a read without:
all their bytes are appended, and the reads after the ending one remain. -/
theorem drainLoop_run (ps : List ReadResult) : ∀ (d : PipeDevice) (p r : ReadResult)
    (rest : List ReadResult), 0 < p.bytes_read → (∀ q ∈ ps, 0 < q.bytes_read) →
    r.bytes_read ≤ 0 →
    drainLoop d p (ps ++ r :: rest) = some (appendBytes d (received (p :: ps)), rest) := by
  induction ps with
  | nil =>
    intro d p r rest hp _ hr
    have hr2 : ¬ 0 < r.bytes_read := by omega
    cases rest with
    | nil => simp [drainLoop, hp, hr2, received]
    | cons r1 rest => simp [drainLoop, hp, hr2, received]
  | cons q ps ih =>
    intro d p r rest hp hps hr
    have hq : 0 < q.bytes_read := hps q (by simp)
    have h := ih (appendBytes d p.bytes) q r rest hq (fun x hx => hps x (by simp [hx])) hr
    show drainLoop d p (q :: (ps ++ r :: rest)) = _
    have e : drainLoop d p (q :: (ps ++ r :: rest))
        = drainLoop (appendBytes d p.bytes) q (ps ++ r :: rest) := by
      simp only [drainLoop, hp, if_true]
    rw [e, h, appendBytes_appendBytes]
    simp [received, hp]

/-- The drain loop entered with a read without a positive count ends at once. -/
theorem drainLoop_stop (d : PipeDevice) (r : ReadResult) (rest : List ReadResult)
    (hr : r.bytes_read ≤ 0) : drainLoop d r rest = some (d, rest) := by
  have hr2 : ¬ 0 < r.bytes_read := by omega
  cases rest with
  | nil => simp [drainLoop, hr2]
  | cons r1 rest => simp [drainLoop, hr2]

/-- The drain loop over reads that all have a positive count asks for a read
beyond them. -/
theorem drainLoop_starved (ps : List ReadResult) : ∀ (d : PipeDevice) (p : ReadResult),
    0 < p.bytes_read → (∀ q ∈ ps, 0 < q.bytes_read) → drainLoop d p ps = none := by
  induction ps with
  | nil => intro d p hp _; simp [drainLoop, hp]
  | cons q ps ih =>
    intro d p hp hps
    simp only [drainLoop, hp, if_true]
    exact ih _ q (hps q (by simp)) (fun x hx => hps x (by simp [hx]))

/-- One pass of the poll over reads with a positive count, ended by a read
without. -/
theorem UpdateInput_pass (d : PipeDevice) (w : Bool) (ps : List ReadResult) (r : ReadResult)
    (rest : List ReadResult) (hps : ∀ p ∈ ps, 0 < p.bytes_read) (hr : r.bytes_read ≤ 0)
    (hne : ps ≠ [] ∨ r.bytes_read ≠ 0) :
    UpdateInput d w (ps ++ r :: rest)
      = if (!(extractLines (appendBytes d (received ps)) false).2.1 && w) = true then
          updateLoop w rest.length (extractLines (appendBytes d (received ps)) false).1
            (extractLines (appendBytes d (received ps)) false).2.1
            (extractLines (appendBytes d (received ps)) false).2.2 rest
        else some ((extractLines (appendBytes d (received ps)) false).1,
          (extractLines (appendBytes d (received ps)) false).2.2, rest) := by
  cases ps with
  | nil =>
    have hr0 : r.bytes_read ≠ 0 := by
      rcases hne with h | h
      · exact absurd rfl h
      · exact h
    show updateLoop w (rest.length + 1) d false [] (r :: rest) = _
    rw [updateLoop_pass _ _ _ _ _ _ _ hr0 _ _ (drainLoop_stop d r rest hr)]
    simp only [received, appendBytes_nil, List.nil_append]
  | cons p ps =>
    have hp : 0 < p.bytes_read := hps p (by simp)
    have hp0 : p.bytes_read ≠ 0 := by omega
    have hd := drainLoop_run ps d p r rest hp (fun x hx => hps x (by simp [hx])) hr
    show updateLoop w ((ps ++ r :: rest).length + 1) d false [] (p :: (ps ++ r :: rest)) = _
    rw [updateLoop_pass _ _ _ _ _ _ _ hp0 _ _ hd]
    simp only [List.nil_append]
    split
    · exact updateLoop_fuel w _ _ _ _ _ _ (by simp; omega) le_rfl
    · rfl

/-- A poll whose reads all have a positive count does not end within them. -/
theorem UpdateInput_starved (d : PipeDevice) (w : Bool) (reads : List ReadResult)
    (h : ∀ p ∈ reads, 0 < p.bytes_read) : UpdateInput d w reads = none := by
  cases reads with
  | nil => rfl
  | cons p ps =>
    have hp : 0 < p.bytes_read := h p (by simp)
    exact updateLoop_blocked _ _ _ _ _ _ _ (by omega)
      (drainLoop_starved ps d p hp (fun x hx => h x (by simp [hx])))

/-- C13 (as amended): with `wait_for_inputs` set, a pass of the read loop whose
line extraction parses at least one line ends the loop if and only if the last
parsed line is `FLUSH`; otherwise the loop goes on to the next pass. -/
theorem C13_completion_signal (d : PipeDevice) (fuel : Nat) (parsed : List Str)
    (r : ReadResult) (reads : List ReadResult) (d1 : PipeDevice) (reads1 : List ReadResult)
    (hr : r.bytes_read ≠ 0) (hd : drainLoop d r reads = some (d1, reads1))
    (hl : (extractLines d1 false).2.2 ≠ []) :
    updateLoop true (fuel + 1) d false parsed (r :: reads)
      = if (extractLines d1 false).2.2.getLast? = some "FLUSH".toList then
          some ((extractLines d1 false).1, parsed ++ (extractLines d1 false).2.2, reads1)
        else
          updateLoop true fuel (extractLines d1 false).1 false
            (parsed ++ (extractLines d1 false).2.2) reads1 := by
  rw [updateLoop_pass _ _ _ _ _ _ _ hr _ _ hd]
  obtain ⟨l, hlast⟩ : ∃ l, (extractLines d1 false).2.2.getLast? = some l := by
    cases hx : (extractLines d1 false).2.2.getLast? with
    | none => exact absurd (List.getLast?_eq_none_iff.mp hx) hl
    | some l => exact ⟨l, rfl⟩
  have hflag : (extractLines d1 false).2.1 = true ↔ l = "FLUSH".toList :=
    (lineLoop_last _ d1 false).2 l hlast
  rw [hlast]
  by_cases hf : l = "FLUSH".toList
  · have h1 := hflag.mpr hf
    rw [h1, if_neg (by simp), if_pos (by rw [hf])]
  · have h1 : (extractLines d1 false).2.1 = false := by
      cases hb : (extractLines d1 false).2.1 with
      | false => rfl
      | true => exact absurd (hflag.mp hb) hf
    rw [h1, if_pos (by simp), if_neg (fun h => hf (Option.some.inj h))]

/-- C13 at a fresh device and the reads `PRESS A\nFLUSH\n`, then an empty read. -/
theorem C13_completion_signal_witness :
    updateLoop true 2 (PipeDevice.create (fun _ => 0)) false []
        [⟨14, "PRESS A\nFLUSH\n".toList⟩, ⟨-1, []⟩]
      = if (extractLines (appendBytes (PipeDevice.create (fun _ => 0))
            "PRESS A\nFLUSH\n".toList) false).2.2.getLast? = some "FLUSH".toList then
          some ((extractLines (appendBytes (PipeDevice.create (fun _ => 0))
            "PRESS A\nFLUSH\n".toList) false).1,
            [] ++ (extractLines (appendBytes (PipeDevice.create (fun _ => 0))
              "PRESS A\nFLUSH\n".toList) false).2.2, [])
        else
          updateLoop true 1 (extractLines (appendBytes (PipeDevice.create (fun _ => 0))
            "PRESS A\nFLUSH\n".toList) false).1 false
            ([] ++ (extractLines (appendBytes (PipeDevice.create (fun _ => 0))
              "PRESS A\nFLUSH\n".toList) false).2.2) [] :=
  C13_completion_signal (PipeDevice.create (fun _ => 0)) 1 []
    ⟨14, "PRESS A\nFLUSH\n".toList⟩ [⟨-1, []⟩]
    (appendBytes (PipeDevice.create (fun _ => 0)) "PRESS A\nFLUSH\n".toList) []
    (by decide) rfl (by decide)

/-- C13 as stated fails: with `wait_for_inputs` set, the first pass over
`FLUSH\nPRESS A\n` parses `FLUSH` and `PRESS A`, and the loop does not stop: the
same poll goes on to read and parse `PRESS B\nFLUSH\n`. -/
theorem C13_completion_signal_counterexample :
    (extractLines (appendBytes (PipeDevice.create (fun _ => 0))
        "FLUSH\nPRESS A\n".toList) false).2.2 = ["FLUSH".toList, "PRESS A".toList]
    ∧ (UpdateInput (PipeDevice.create (fun _ => 0)) true
        [⟨14, "FLUSH\nPRESS A\n".toList⟩, ⟨-1, []⟩,
         ⟨14, "PRESS B\nFLUSH\n".toList⟩, ⟨-1, []⟩]).map (fun x => (x.2.1, x.2.2.length))
      = some (["FLUSH".toList, "PRESS A".toList, "PRESS B".toList, "FLUSH".toList], 0) := by
  decide

/-- C14: let `d` be the device after any sequence of polls of a freshly constructed
device.  Its accumulator holds no newline.  Whenever one more poll ends, whatever
the reads return (a first read of zero bytes included), it has consumed at least
one read and the accumulator again holds no newline; the lines handed to
`ParseCommand` in that poll, each followed by a newline, and then the new
accumulator, are exactly the old accumulator followed by the bytes received in
that poll; no such line holds a newline; and the device is the one reached by
applying those lines in that order.  The bound on the number of passes does not
matter once it covers the reads.  The poll does end: at once and without any
change when its first read returns zero bytes; after one pass over reads with a
positive count, ended by a read without one, unless it waits for input and the
pass did not complete; and it does not end within reads that all have a positive
count. -/
theorem C14_accumulator (pad : Fin 8 → Nat) (ws : List Bool) (reads0 : List ReadResult)
    (d : PipeDevice) (reads : List ReadResult)
    (hruns : runPolls (PipeDevice.create pad) ws reads0 = some (d, reads)) :
    '\n' ∉ d.m_buf
    ∧ (∀ (w : Bool) (d2 : PipeDevice) (p2 : List Str) (rest : List ReadResult),
        UpdateInput d w reads = some (d2, p2, rest) →
        '\n' ∉ d2.m_buf
        ∧ ∃ consumed, consumed ≠ [] ∧ reads = consumed ++ rest
          ∧ joinLines p2 ++ d2.m_buf = d.m_buf ++ received consumed
          ∧ (∀ l ∈ p2, '\n' ∉ l)
          ∧ d2 = withBuf (applyLines d p2) d2.m_buf)
    ∧ (∀ (w : Bool) (n : Nat), reads.length ≤ n →
        updateLoop w n d false [] reads = UpdateInput d w reads)
    ∧ (∀ (w : Bool) (r : ReadResult) (rest : List ReadResult), r.bytes_read = 0 →
        UpdateInput d w (r :: rest) = some (d, [], rest))
    ∧ (∀ (w : Bool) (ps : List ReadResult) (r : ReadResult) (rest : List ReadResult),
        (∀ p ∈ ps, 0 < p.bytes_read) → r.bytes_read ≤ 0 → (ps ≠ [] ∨ r.bytes_read ≠ 0) →
        UpdateInput d w (ps ++ r :: rest)
          = if (!(extractLines (appendBytes d (received ps)) false).2.1 && w) = true then
              updateLoop w rest.length (extractLines (appendBytes d (received ps)) false).1
                (extractLines (appendBytes d (received ps)) false).2.1
                (extractLines (appendBytes d (received ps)) false).2.2 rest
            else some ((extractLines (appendBytes d (received ps)) false).1,
              (extractLines (appendBytes d (received ps)) false).2.2, rest))
    ∧ (∀ (w : Bool) (ps : List ReadResult), (∀ p ∈ ps, 0 < p.bytes_read) →
        UpdateInput d w ps = none) := by
  have h0 : findNewline d.m_buf = none :=
    runPolls_noNewline ws _ _ _ _ (by rw [create_m_buf]; rfl) hruns
  refine ⟨(findNewline_none_iff _).mp h0, ?_, ?_, ?_, ?_, ?_⟩
  · intro w d2 p2 rest h
    obtain ⟨c, lines, g1, g2, g3, g4, g5, g6, g7⟩ := updateLoop_spec w _ _ _ _ _ _ _ _ h0 h
    have hp : p2 = lines := by simpa using g3
    subst hp
    exact ⟨(findNewline_none_iff _).mp g5, c, g2, g1, g4, g6, g7⟩
  · intro w n hn
    exact updateLoop_fuel w n _ d false [] reads hn le_rfl
  · intro w r rest hr
    exact updateLoop_zero_read _ _ _ _ _ _ _ hr
  · intro w ps r rest hps hr hne
    exact UpdateInput_pass d w ps r rest hps hr hne
  · intro w ps hps
    exact UpdateInput_starved d w ps hps

/-- C14 at a fresh device whose first poll receives `PRESS` and no newline, and
whose second poll receives the rest of the line and the beginning of the next:
the first poll leaves `PRESS` in the accumulator; the second consumes both its
reads, hands `PRESS A` to `ParseCommand`, sets the bit of `A` and leaves `FLUS`. -/
theorem C14_accumulator_witness :
    runPolls (PipeDevice.create (fun _ => 0)) [false]
        [⟨5, "PRESS".toList⟩, ⟨-1, []⟩, ⟨7, " A\nFLUS".toList⟩, ⟨-1, []⟩]
      = some (appendBytes (PipeDevice.create (fun _ => 0)) "PRESS".toList,
          [⟨7, " A\nFLUS".toList⟩, ⟨-1, []⟩])
    ∧ '\n' ∉ (appendBytes (PipeDevice.create (fun _ => 0)) "PRESS".toList).m_buf
    ∧ (UpdateInput (appendBytes (PipeDevice.create (fun _ => 0)) "PRESS".toList) false
        [⟨7, " A\nFLUS".toList⟩, ⟨-1, []⟩]).map
          (fun x => (x.1.m_buf, x.1.padBuf 0, x.2.1, x.2.2.length))
        = some ("FLUS".toList, 1, ["PRESS A".toList], 0)
    ∧ ∃ (d2 : PipeDevice) (consumed : List ReadResult),
        UpdateInput (appendBytes (PipeDevice.create (fun _ => 0)) "PRESS".toList) false
            [⟨7, " A\nFLUS".toList⟩, ⟨-1, []⟩] = some (d2, ["PRESS A".toList], [])
        ∧ '\n' ∉ d2.m_buf
        ∧ consumed ≠ []
        ∧ [(⟨7, " A\nFLUS".toList⟩ : ReadResult), ⟨-1, []⟩] = consumed ++ []
        ∧ joinLines ["PRESS A".toList] ++ d2.m_buf
            = (appendBytes (PipeDevice.create (fun _ => 0)) "PRESS".toList).m_buf
              ++ received consumed
        ∧ d2 = withBuf (applyLines
            (appendBytes (PipeDevice.create (fun _ => 0)) "PRESS".toList)
            ["PRESS A".toList]) d2.m_buf := by
  have h := C14_accumulator (fun _ => 0) [false]
    [⟨5, "PRESS".toList⟩, ⟨-1, []⟩, ⟨7, " A\nFLUS".toList⟩, ⟨-1, []⟩]
    (appendBytes (PipeDevice.create (fun _ => 0)) "PRESS".toList)
    [⟨7, " A\nFLUS".toList⟩, ⟨-1, []⟩] rfl
  have hu : UpdateInput (appendBytes (PipeDevice.create (fun _ => 0)) "PRESS".toList) false
      [⟨7, " A\nFLUS".toList⟩, ⟨-1, []⟩]
      = some ((extractLines (appendBytes (appendBytes (PipeDevice.create (fun _ => 0))
          "PRESS".toList) " A\nFLUS".toList) false).1, ["PRESS A".toList], []) := rfl
  obtain ⟨c0, c, c1, c2, c3, _, c5⟩ := h.2.1 false _ _ _ hu
  exact ⟨rfl, h.1, by decide, _, c, hu, c0, c1, c2, c3, c5⟩

/-- C15 (as amended): a poll whose first read returns zero bytes ends at once, with
the device unchanged and nothing parsed; so does every later poll whose first
read returns zero bytes. -/
theorem C15_zero_read (d : PipeDevice) (w : Bool) (r : ReadResult)
    (reads : List ReadResult) (hr : r.bytes_read = 0) :
    UpdateInput d w (r :: reads) = some (d, [], reads)
    ∧ (∀ (ws : List Bool) (zs : List ReadResult), (∀ z ∈ zs, z.bytes_read = 0) →
        ws.length = zs.length → runPolls d ws (zs ++ reads) = some (d, reads)) := by
  have one : ∀ (w : Bool) (z : ReadResult) (tail : List ReadResult), z.bytes_read = 0 →
      UpdateInput d w (z :: tail) = some (d, [], tail) := by
    intro w z tail hz
    exact updateLoop_zero_read _ _ _ _ _ _ _ hz
  refine ⟨one w r reads hr, ?_⟩
  intro ws
  induction ws with
  | nil =>
    intro zs _ hlen
    have : zs = [] := List.length_eq_zero.mp hlen.symm
    subst this
    rfl
  | cons w2 ws ih =>
    intro zs hz hlen
    cases zs with
    | nil => simp at hlen
    | cons z zs =>
      simp only [List.length_cons, Nat.add_right_cancel_iff] at hlen
      simp only [List.cons_append, runPolls, one w2 z (zs ++ reads) (hz z (by simp))]
      exact ih zs (fun y hy => hz y (by simp [hy])) hlen

/-- C15 at a fresh device whose pipe returns zero bytes to two polls in a row. -/
theorem C15_zero_read_witness :
    runPolls (PipeDevice.create (fun _ => 0)) [true, false]
        ([⟨0, []⟩, ⟨0, []⟩] ++ [⟨8, "PRESS A\n".toList⟩])
      = some (PipeDevice.create (fun _ => 0), [⟨8, "PRESS A\n".toList⟩]) :=
  (C15_zero_read (PipeDevice.create (fun _ => 0)) true ⟨0, []⟩ [⟨8, "PRESS A\n".toList⟩]
    rfl).2 [true, false] [⟨0, []⟩, ⟨0, []⟩] (by decide) rfl

/-- C15 as stated fails: the first poll of a fresh device reads zero bytes and
leaves byte 0 of the buffer at `0`; the next poll reads `PRESS A\n` and sets it
to `1`. -/
theorem C15_zero_read_counterexample :
    (UpdateInput (PipeDevice.create (fun _ => 0)) false
        [⟨0, []⟩, ⟨8, "PRESS A\n".toList⟩, ⟨-1, []⟩]).map (fun x => (x.1.padBuf 0, x.2.2.length))
      = some (0, 2)
    ∧ (runPolls (PipeDevice.create (fun _ => 0)) [false, false]
        [⟨0, []⟩, ⟨8, "PRESS A\n".toList⟩, ⟨-1, []⟩]).map (fun x => x.1.padBuf 0)
      = some 1 := by
  decide

end Pipes
